import Mathlib

/-!
# gke-node-optimizer: node selection and node refresh

A shallow embedding of `service/service.go` (`Optimizer.Optimize`) and of the
node-refresh part of `gke/gke.go` (`RefreshNode`, `RefreshNodes`, `drainNode`,
`evictPods`, `deleteNode`, `applyCordonOrUncordon`), with theorems about the
selection policy and the cordon / drain / terminate protocol.

Conventions of the embedding:
* a Go `error` is an `Option String` (`none` is `nil`), a Go `(value, error)`
  result whose value is only read when the error is nil is an `Except String`;
* Go `int` and `time.Duration` values are `Int`; the result of Go `int` arithmetic is
  reduced to 64 bits by `goInt`, as the machine does;
* the remote services are a state machine over an arbitrary state type, every method of
  the client passes the state along, and `traced` adds a recorder of the calls made;
* a Go map is an association list with distinct keys; a `range` over the map visits the
  entries in the order the field `rangeOrder` of the client gives, which may be any
  permutation;
* `log.*` calls only write log lines and are left out, and so is the `context` argument.
-/

namespace GkeNodeOptimizer

/-! ## Data model (`gke/gke.go`) -/

/-- The enumeration `container.Cluster_Status` of the Google container API
(declared in the protobuf package the repository imports). -/
inductive Cluster_Status where
  | STATUS_UNSPECIFIED
  | PROVISIONING
  | RUNNING
  | RECONCILING
  | STOPPING
  | ERROR
  | DEGRADED
deriving DecidableEq, Repr

/-- The enumeration `container.NodePool_Status` of the Google container API. -/
inductive NodePool_Status where
  | STATUS_UNSPECIFIED
  | PROVISIONING
  | RUNNING
  | RUNNING_WITH_ERROR
  | RECONCILING
  | STOPPING
  | ERROR
deriving DecidableEq, Repr

/-- The `String()` method of `Cluster_Status`. -/
def Cluster_Status.String : Cluster_Status → String
  | .STATUS_UNSPECIFIED => "STATUS_UNSPECIFIED"
  | .PROVISIONING => "PROVISIONING"
  | .RUNNING => "RUNNING"
  | .RECONCILING => "RECONCILING"
  | .STOPPING => "STOPPING"
  | .ERROR => "ERROR"
  | .DEGRADED => "DEGRADED"

/-- The `String()` method of `NodePool_Status`. -/
def NodePool_Status.String : NodePool_Status → String
  | .STATUS_UNSPECIFIED => "STATUS_UNSPECIFIED"
  | .PROVISIONING => "PROVISIONING"
  | .RUNNING => "RUNNING"
  | .RUNNING_WITH_ERROR => "RUNNING_WITH_ERROR"
  | .RECONCILING => "RECONCILING"
  | .STOPPING => "STOPPING"
  | .ERROR => "ERROR"

/-- The constant `container.Cluster_RUNNING`. -/
abbrev Cluster_RUNNING : Cluster_Status := Cluster_Status.RUNNING

/-- The constant `container.NodePool_RUNNING`. -/
abbrev NodePool_RUNNING : NodePool_Status := NodePool_Status.RUNNING

/-- The struct `gke.NodePool`. -/
structure NodePool where
  Name : String
  ResourceURL : String
  Preemptible : Bool
  Autoscale : Bool
  MinNodeCount : Int
  MaxNodeCount : Int
  Status : NodePool_Status
  InstanceGroupURLs : List String
deriving DecidableEq, Repr

/-- The struct `gke.Cluster`. -/
structure Cluster where
  Name : String
  ResourceURL : String
  Region : String
  Status : Cluster_Status
  NodePool : List NodePool
deriving DecidableEq, Repr

/-- The struct `gke.Pod`; `Status` stands for the Kubernetes `PodStatus` value, which
the program only carries along. -/
structure Pod where
  Name : String
  Namespace : String
  NodeName : String
  Hostname : String
  Status : String
deriving DecidableEq, Repr

/-- The struct `gke.Node`. -/
structure Node where
  Name : String
  ResourceURL : String
  ClusterName : String
  NodePool : String
  Region : String
  Zone : String
  Ready : Bool
  Preemptible : Bool
  Age : Int
  Pods : List Pod
deriving DecidableEq, Repr

/-! ## The optimizer (`service/service.go`) -/

/-- The part of the interface `gke.Client` that `Optimize` calls. Each method is
called at most once in a run, so its response is a value (`RefreshNodes`: a function
of the target list). -/
structure Client where
  GetCluster : Except String Cluster
  GetNodeList : Except String (List Node)
  RefreshNodes : List String → List Pod × Option String

/-- The struct `service.OptimizerOption`. -/
structure OptimizerOption where
  MinimumPreemptibleNodeCount : Int
  OptimizePreemptibleNode : Bool
  OptimizeAutoscaleOndemandNode : Bool
deriving DecidableEq, Repr

/-- The fields of `report.Result` that `Optimize` writes. -/
structure Result where
  Cluster : Option Cluster := none
  PreemptibleNodeActualCount : Int := 0
  PreemptibleNodeMinimumCount : Int := 0
  ActiveNodePools : List NodePool := []
  ActiveNodes : List Node := []
  TargetPreemptibleNode : Option Node := none
  TargetOndemandAutoscaleNode : Option Node := none
  EvictedPods : List Pod := []
deriving DecidableEq, Repr

/-- The struct `service.Optimizer`. -/
structure Optimizer where
  client : Client
  result : Result
  option : OptimizerOption

/-- What a run of `Optimize` leaves behind: the result record, the returned error and
the argument of every `RefreshNodes` call made (the only mutating gateway call of
`Optimize`). -/
structure OptimizeRun where
  result : Result
  err : Option String
  refreshCalls : List (List String)
deriving DecidableEq, Repr

/-- The Go map `nodesByPool`, as an association list with distinct keys. -/
abbrev NodesByPool := List (String × List Node)

/-- Map lookup `nodesByPool[name]` with the `ok` flag: `none` when the key is absent. -/
def NodesByPool.get? : NodesByPool → String → Option (List Node)
  | [], _ => none
  | (k, ns) :: rest, name => if k = name then some ns else NodesByPool.get? rest name

/-- Map lookup `nodesByPool[name]` without the flag: the nil slice when absent. -/
def NodesByPool.get (m : NodesByPool) (name : String) : List Node :=
  (m.get? name).getD []

/-- Assignment `nodesByPool[name] = ns`. -/
def NodesByPool.set : NodesByPool → String → List Node → NodesByPool
  | [], name, ns => [(name, ns)]
  | (k, old) :: rest, name, ns =>
    if k = name then (k, ns) :: rest else (k, old) :: NodesByPool.set rest name ns

/-- The loop over `cluster.NodePool` (service.go lines 55-65): stops at the first pool
that is not running, otherwise sorts the pools into preemptible ones and
autoscaled on-demand ones. -/
def checkNodePools :
    List NodePool → List NodePool → List NodePool →
      Except String (List NodePool × List NodePool)
  | [], preemptibleNodePools, ondemandAutoscaleNodePools =>
    .ok (preemptibleNodePools, ondemandAutoscaleNodePools)
  | v :: rest, preemptibleNodePools, ondemandAutoscaleNodePools =>
    if v.Status ≠ NodePool_RUNNING then
      .error ("detected not running node pool: name=" ++ v.Name ++ ", status="
        ++ v.Status.String)
    else if v.Preemptible then
      checkNodePools rest (preemptibleNodePools ++ [v]) ondemandAutoscaleNodePools
    else if v.Autoscale then
      checkNodePools rest preemptibleNodePools (ondemandAutoscaleNodePools ++ [v])
    else
      checkNodePools rest preemptibleNodePools ondemandAutoscaleNodePools

/-- The loop over `nodes` (service.go lines 80-89): stops at the first node that is
not ready, otherwise files every node under its pool name. -/
def groupNodes : List Node → NodesByPool → Except String NodesByPool
  | [], nodesByPool => .ok nodesByPool
  | v :: rest, nodesByPool =>
    if !v.Ready then
      .error ("detected not ready node: name=" ++ v.Name)
    else
      let nodesByPool :=
        match nodesByPool.get? v.NodePool with
        | none => nodesByPool.set v.NodePool []
        | some _ => nodesByPool
      groupNodes rest (nodesByPool.set v.NodePool (nodesByPool.get v.NodePool ++ [v]))

/-- The value a Go `int` holds for the mathematical result `x` of an operation: `x`
reduced modulo `2^64` into the range from `-2^63` to `2^63 - 1` (two\x27s complement
wrap-around on a 64-bit platform). -/
def goInt (x : Int) : Int :=
  (x + 9223372036854775808) % 18446744073709551616 - 9223372036854775808

/-- The loop over `preemptibleNodePools` (service.go lines 100-105), on the pair
`(minPreemptibleNodeCount, preemptibleNodes)`; the product and the sum are Go `int`
operations. -/
def collectPreemptible (nodesByPool : NodesByPool) :
    List NodePool → Int × List Node → Int × List Node
  | [], acc => acc
  | v :: rest, (minPreemptibleNodeCount, preemptibleNodes) =>
    let minPreemptibleNodeCount :=
      goInt (minPreemptibleNodeCount
        + goInt (v.MinNodeCount * (v.InstanceGroupURLs.length : Int)))
    let preemptibleNodes :=
      if (nodesByPool.get v.Name).length > 0 then
        preemptibleNodes ++ nodesByPool.get v.Name
      else preemptibleNodes
    collectPreemptible nodesByPool rest (minPreemptibleNodeCount, preemptibleNodes)

/-- The loop over `ondemandAutoscaleNodePools` (service.go lines 117-121). -/
def collectOndemandAutoscale (nodesByPool : NodesByPool) :
    List NodePool → List Node → List Node
  | [], ondemandAutoscaleNodes => ondemandAutoscaleNodes
  | v :: rest, ondemandAutoscaleNodes =>
    if v.Autoscale ∧ (nodesByPool.get v.Name).length > 0 then
      collectOndemandAutoscale nodesByPool rest
        (ondemandAutoscaleNodes ++ nodesByPool.get v.Name)
    else
      collectOndemandAutoscale nodesByPool rest ondemandAutoscaleNodes

/-- The loop choosing the node with the longest uptime (service.go lines 126-130). -/
def selectOldest : List Node → Option Node → Option Node
  | [], oldestPreemptibleNode => oldestPreemptibleNode
  | node :: rest, oldestPreemptibleNode =>
    match oldestPreemptibleNode with
    | none => selectOldest rest (some node)
    | some oldest =>
      if oldest.Age < node.Age then selectOldest rest (some node)
      else selectOldest rest (some oldest)

/-- The loop choosing the node with the fewest pods (service.go lines 141-145). -/
def selectFewestPods : List Node → Option Node → Option Node
  | [], targetOndemandAutoscaleNode => targetOndemandAutoscaleNode
  | node :: rest, targetOndemandAutoscaleNode =>
    match targetOndemandAutoscaleNode with
    | none => selectFewestPods rest (some node)
    | some target =>
      if target.Pods.length > node.Pods.length then selectFewestPods rest (some node)
      else selectFewestPods rest (some target)

/-- The target list after one selection (service.go lines 131-137 and 146-152): the
name of the selected node is appended when there is one and its flag is set. -/
def appendTarget (targetNodeNames : List String) (selected : Option Node)
    (enabled : Bool) : List String :=
  match selected with
  | none => targetNodeNames
  | some node => if enabled then targetNodeNames ++ [node.Name] else targetNodeNames

/-- The last step of `Optimize` (service.go lines 154-167). -/
def refreshTargets (o : Optimizer) (result : Result) (targetNodeNames : List String) :
    OptimizeRun :=
  if targetNodeNames.length = 0 then
    { result := result, err := none, refreshCalls := [] }
  else
    let (evictedPods, err) := o.client.RefreshNodes targetNodeNames
    let result := { result with EvictedPods := evictedPods }
    match err with
    | some e =>
      { result := result, err := some ("failed to refresh nodes: " ++ e),
        refreshCalls := [targetNodeNames] }
    | none => { result := result, err := none, refreshCalls := [targetNodeNames] }

/-- The selection steps of `Optimize` once the node list is grouped by pool
(service.go lines 90-152), followed by the refresh. -/
def selectAndRefresh (o : Optimizer) (result : Result) (cluster : Cluster)
    (preemptibleNodePools ondemandAutoscaleNodePools : List NodePool)
    (nodesByPool : NodesByPool) : OptimizeRun :=
  let result := { result with
    ActiveNodePools := cluster.NodePool.filter fun v => (nodesByPool.get? v.Name).isSome }
  let (minPreemptibleNodeCount, preemptibleNodes) :=
    collectPreemptible nodesByPool preemptibleNodePools (0, [])
  let minPreemptibleNodeCount :=
    if minPreemptibleNodeCount < o.option.MinimumPreemptibleNodeCount then
      o.option.MinimumPreemptibleNodeCount
    else minPreemptibleNodeCount
  let result := { result with
    PreemptibleNodeActualCount := (preemptibleNodes.length : Int)
    PreemptibleNodeMinimumCount := minPreemptibleNodeCount }
  if (preemptibleNodes.length : Int) < minPreemptibleNodeCount then
    { result := result,
      err := some ("the minimum number of preemptible nodes condition is not satisfied: expect="
        ++ toString minPreemptibleNodeCount ++ ", actual="
        ++ toString preemptibleNodes.length),
      refreshCalls := [] }
  else
    let ondemandAutoscaleNodes :=
      collectOndemandAutoscale nodesByPool ondemandAutoscaleNodePools []
    let oldestPreemptibleNode := selectOldest preemptibleNodes none
    let result := { result with
      TargetPreemptibleNode :=
        match oldestPreemptibleNode with
        | none => result.TargetPreemptibleNode
        | some node => some node }
    let targetNodeNames :=
      appendTarget [] oldestPreemptibleNode o.option.OptimizePreemptibleNode
    let targetOndemandAutoscaleNode := selectFewestPods ondemandAutoscaleNodes none
    let result := { result with
      TargetOndemandAutoscaleNode :=
        match targetOndemandAutoscaleNode with
        | none => result.TargetOndemandAutoscaleNode
        | some node => some node }
    let targetNodeNames :=
      appendTarget targetNodeNames targetOndemandAutoscaleNode
        o.option.OptimizeAutoscaleOndemandNode
    refreshTargets o result targetNodeNames

/-- The method `Optimizer.Optimize` (service.go lines 40-168). -/
def Optimize (o : Optimizer) : OptimizeRun :=
  match o.client.GetCluster with
  | .error e =>
    { result := o.result, err := some ("failed to get cluster: " ++ e), refreshCalls := [] }
  | .ok cluster =>
    let result := { o.result with Cluster := some cluster }
    if cluster.Status ≠ Cluster_RUNNING then
      { result := result,
        err := some ("cluster status is not running: " ++ cluster.Status.String),
        refreshCalls := [] }
    else
      match checkNodePools cluster.NodePool [] [] with
      | .error e => { result := result, err := some e, refreshCalls := [] }
      | .ok (preemptibleNodePools, ondemandAutoscaleNodePools) =>
        if preemptibleNodePools.length = 0 then
          { result := result, err := some "preemptible node pools is not exists",
            refreshCalls := [] }
        else
          match o.client.GetNodeList with
          | .error e =>
            { result := result, err := some ("failed to get node list: " ++ e),
              refreshCalls := [] }
          | .ok nodes =>
            if nodes.length = 0 then
              { result := result, err := some "node does not exist", refreshCalls := [] }
            else
              let result := { result with ActiveNodes := nodes }
              match groupNodes nodes [] with
              | .error e => { result := result, err := some e, refreshCalls := [] }
              | .ok nodesByPool =>
                selectAndRefresh o result cluster preemptibleNodePools
                  ondemandAutoscaleNodePools nodesByPool

/-! ## The gateway client (`gke/gke.go`)

The Kubernetes and Compute Engine services are a state machine over an arbitrary state
type `σ`: every call takes the state and returns its response with the next state. -/

/-- The constant `NodePoolLabel`. -/
def NodePoolLabel : String := "cloud.google.com/gke-nodepool"

/-- The constant `PreemptibleLabel`. -/
def PreemptibleLabel : String := "cloud.google.com/gke-preemptible"

/-- The constant `NodeRegionLabel`. -/
def NodeRegionLabel : String := "failure-domain.beta.kubernetes.io/region"

/-- The constant `NodeZoneLabel`. -/
def NodeZoneLabel : String := "failure-domain.beta.kubernetes.io/zone"

/-- The constant `ResourceEvictionKind`. -/
def ResourceEvictionKind : String := "Eviction"

/-- The constant `ResourceEvictionName`. -/
def ResourceEvictionName : String := "pods/eviction"

/-- The message of the error by which the eviction endpoint reports a violated
disruption budget (the string literal of gke.go line 532). -/
def disruptionBudgetMessage : String :=
  "Cannot evict pod as it would violate the pod\x27s disruption budget."

/-- The fields of the Kubernetes node object (`coreV1.Node`) that the program reads:
name, labels, creation time (nanoseconds), `Spec.Unschedulable` and the types of
`Status.Conditions`. -/
structure RawNode where
  Name : String
  Labels : List (String × String)
  CreationTimestamp : Int
  Unschedulable : Bool
  Conditions : List String
deriving DecidableEq, Repr

/-- The fields of the Kubernetes pod object (`coreV1.Pod`) that the program reads. -/
structure RawPod where
  Name : String
  Namespace : String
  NodeName : String
  Hostname : String
  Status : String
deriving DecidableEq, Repr

/-- The fields of `policyV1beta1.Eviction` that `evictPods` fills in. -/
structure Eviction where
  APIVersion : String
  Kind : String
  Name : String
  Namespace : String
deriving DecidableEq, Repr

/-- An entry of the discovery group list: the group name and
`PreferredVersion.GroupVersion`. -/
structure APIGroup where
  Name : String
  PreferredGroupVersion : String
deriving DecidableEq, Repr

/-- An entry of a discovery resource list. -/
structure APIResource where
  Name : String
  Kind : String
deriving DecidableEq, Repr

/-- The remote calls of the client, over the state `σ` of the services:
`Nodes().Get`, `Nodes().Update`, `Nodes().Delete`, `Pods().List` with the
`spec.nodeName` selector, `Evictions().Evict`, `ServerGroups`,
`ServerResourcesForGroupVersion`, `Instances.Stop` (project, zone, name), and the two
clock operations `time.Sleep` (seconds) and `time.Now` (nanoseconds). -/
structure KubeAPI (σ : Type) where
  nodesGet : String → σ → Except String RawNode × σ
  nodesUpdate : RawNode → σ → Option String × σ
  nodesDelete : String → σ → Option String × σ
  podsList : String → σ → Except String (List RawPod) × σ
  evict : Eviction → σ → Option String × σ
  serverGroups : σ → Except String (List APIGroup) × σ
  serverResources : String → σ → Except String (List APIResource) × σ
  instancesStop : String → String → String → σ → Option String × σ
  sleep : Nat → σ → σ
  now : σ → Int

/-- The Go map `cordonNodes`, as an association list with distinct keys, kept in
insertion order. The order in which a `range` loop visits it is a separate matter, see
`client.rangeOrder`. -/
abbrev CordonNodes := List (String × Node)

/-- The struct `client`: the project and cluster names and the remote services.
The field `rangeOrder` is not a field of the Go struct: it is the order in which the Go
runtime visits the entries of the map `cordonNodes` in a `range` loop (gke.go line 296),
which the language leaves unspecified. It yields some permutation of the entries, and
every theorem about a client holds for every such order; the order of insertion is the
default of the concrete clients. -/
structure client (σ : Type) where
  project : String
  clusterName : String
  clusterLocation : String
  api : KubeAPI σ
  rangeOrder : (m : CordonNodes) → { l : CordonNodes // l.Perm m } :=
    fun m => ⟨m, List.Perm.refl m⟩

/-- The largest `time.Duration`. -/
def maxDuration : Int := 2 ^ 63 - 1

/-- The smallest `time.Duration`. -/
def minDuration : Int := -(2 ^ 63)

/-- The method `Time.Sub` on nanosecond times: the difference, saturated to the range
of `time.Duration`. -/
def timeSub (t u : Int) : Int :=
  if t - u > maxDuration then maxDuration
  else if t - u < minDuration then minDuration
  else t - u

/-- The method `client.toPod` (gke.go lines 430-438). -/
def client.toPod {σ : Type} (_cli : client σ) (p : RawPod) : Pod :=
  { Name := p.Name, Namespace := p.Namespace, NodeName := p.NodeName,
    Hostname := p.Hostname, Status := p.Status }

/-- The method `client.toPods` (gke.go lines 421-427). -/
def client.toPods {σ : Type} (cli : client σ) (ps : List RawPod) : List Pod :=
  ps.map cli.toPod

/-- The method `client.toNode` (gke.go lines 378-418), given the reading of `time.Now`;
`none` is the nil result for an ignored node. `strings.HasPrefix` is the list-prefix
relation on the characters, and `"Ready"` is the Kubernetes constant `NodeReady`. -/
def client.toNode {σ : Type} (cli : client σ) (now : Int) (n : RawNode) : Option Node :=
  match n.Labels.lookup NodePoolLabel with
  | none => none
  | some pool =>
    let nodeNamePrefix := "gke-" ++ cli.clusterName ++ "-" ++ pool
    if cli.clusterName ≠ "" ∧ ¬ (nodeNamePrefix.data <+: n.Name.data) then none
    else
      match n.Labels.lookup NodeRegionLabel with
      | none => none
      | some region =>
        match n.Labels.lookup NodeZoneLabel with
        | none => none
        | some zone =>
          let ready :=
            if n.Conditions.length > 0 ∧ n.Conditions.getLast? = some "Ready" then
              (if !n.Unschedulable then true else false)
            else false
          some
            { ClusterName := cli.clusterName
              Name := n.Name
              ResourceURL := "https://console.cloud.google.com/kubernetes/node/" ++ region
                ++ "/" ++ cli.clusterName ++ "/" ++ n.Name ++ "?project=" ++ cli.project
              NodePool := pool
              Region := region
              Zone := zone
              Age := timeSub now n.CreationTimestamp
              Ready := ready
              Preemptible := (n.Labels.lookup PreemptibleLabel).getD "" = "true"
              Pods := [] }

/-- The method `client.toNodes` (gke.go lines 367-375). -/
def client.toNodes {σ : Type} (cli : client σ) (now : Int) (ns : List RawNode) :
    List Node :=
  ns.filterMap (cli.toNode now)

/-- The method `client.GetPodListByNodeName` (gke.go lines 239-247). -/
def client.GetPodListByNodeName {σ : Type} (cli : client σ) (nodeName : String) (s : σ) :
    Except String (List Pod) × σ :=
  match cli.api.podsList nodeName s with
  | (.error err, s) =>
    (.error ("falid to get pod list by node name " ++ nodeName ++ ": " ++ err), s)
  | (.ok pods, s) => (.ok (cli.toPods pods), s)

/-- What a call of `GetNode` does: it returns a node, returns an error, or panics on
the nil node that `toNode` gives for an ignored node (`node.Name`, gke.go line 199). -/
inductive GetNodeResult where
  | ok (node : Node)
  | error (err : String)
  | panic
deriving DecidableEq, Repr

/-- The method `client.GetNode` (gke.go lines 193-205). -/
def client.GetNode {σ : Type} (cli : client σ) (nodeName : String) (s : σ) :
    GetNodeResult × σ :=
  match cli.api.nodesGet nodeName s with
  | (.error err, s) => (.error ("failed to get node list: " ++ err), s)
  | (.ok res, s) =>
    match cli.toNode (cli.api.now s) res with
    | none => (.panic, s)
    | some node =>
      match cli.GetPodListByNodeName node.Name s with
      | (.error err, s) =>
        (.error ("failed to get pods on node " ++ node.Name ++ ": " ++ err), s)
      | (.ok pods, s) => (.ok { node with Pods := pods }, s)

/-- The loop of `policyVersion` over the group list (gke.go lines 458-464): the
preferred version of the first group named `policy`. -/
def findPolicyGroup : List APIGroup → Option String
  | [] => none
  | group :: rest =>
    if group.Name = "policy" then some group.PreferredGroupVersion
    else findPolicyGroup rest

/-- The loop of `policyVersion` over the resource list (gke.go lines 473-477). -/
def hasEvictionResource : List APIResource → Bool
  | [] => false
  | resource :: rest =>
    if resource.Name = ResourceEvictionName ∧ resource.Kind = ResourceEvictionKind then true
    else hasEvictionResource rest

/-- The method `client.policyVersion` (gke.go lines 450-479). -/
def client.policyVersion {σ : Type} (cli : client σ) (s : σ) : Except String String × σ :=
  match cli.api.serverGroups s with
  | (.error err, s) => (.error ("failed to get server groups: " ++ err), s)
  | (.ok groups, s) =>
    match findPolicyGroup groups with
    | none => (.ok "", s)
    | some policyGroupVersion =>
      match cli.api.serverResources "v1" s with
      | (.error err, s) => (.error err, s)
      | (.ok resources, s) =>
        if hasEvictionResource resources then (.ok policyGroupVersion, s)
        else (.ok "", s)

/-- The method `client.applyCordonOrUncordon` (gke.go lines 492-511). -/
def client.applyCordonOrUncordon {σ : Type} (cli : client σ) (nodeName : String)
    (cordon : Bool) (s : σ) : Option String × σ :=
  match cli.api.nodesGet nodeName s with
  | (.error err, s) => (some err, s)
  | (.ok n, s) =>
    if n.Unschedulable = cordon then (none, s)
    else cli.api.nodesUpdate { n with Unschedulable := cordon } s

/-- The method `client.cordonNode` (gke.go lines 482-484). -/
def client.cordonNode {σ : Type} (cli : client σ) (nodeName : String) (s : σ) :
    Option String × σ :=
  cli.applyCordonOrUncordon nodeName true s

/-- The method `client.uncordonNode` (gke.go lines 487-489). -/
def client.uncordonNode {σ : Type} (cli : client σ) (nodeName : String) (s : σ) :
    Option String × σ :=
  cli.applyCordonOrUncordon nodeName false s

/-- The eviction request `evictPods` builds for a pod (gke.go lines 517-526). -/
def evictionOf (pod : Pod) (policy : String) : Eviction :=
  { APIVersion := policy, Kind := ResourceEvictionKind, Name := pod.Name,
    Namespace := pod.Namespace }

/-- The retry loop of `evictPods` for one pod (gke.go lines 527-540), entered with the
attempt counter `i`: `none` when the pod is evicted, otherwise the error that ends
`evictPods`. -/
def evictLoop {σ : Type} (api : KubeAPI σ) (pod : Pod) (policy : String) (i : Nat)
    (s : σ) : Option String × σ :=
  match api.evict (evictionOf pod policy) s with
  | (none, s) => (none, s)
  | (some err, s) =>
    if err ≠ disruptionBudgetMessage then
      (some ("failed to evict pod " ++ pod.Name ++ ". count=" ++ toString i ++ ": "
        ++ err), s)
    else if _h : i > 2 then
      (some ("failed to evict pod " ++ pod.Name ++ " because give up. count="
        ++ toString i ++ ": " ++ err), s)
    else evictLoop api pod policy (i + 1) (api.sleep 30 s)
termination_by 3 - i
decreasing_by omega

/-- The loop of `evictPods` over `node.Pods` (gke.go lines 516-543), with the list
`evicted` built so far. -/
def evictPodsLoop {σ : Type} (api : KubeAPI σ) (policy : String) :
    List Pod → List Pod → σ → (List Pod × Option String) × σ
  | [], evicted, s => ((evicted, none), s)
  | pod :: rest, evicted, s =>
    match evictLoop api pod policy 1 s with
    | (some err, s) => ((evicted, some err), s)
    | (none, s) => evictPodsLoop api policy rest (evicted ++ [pod]) s

/-- The method `client.evictPods` (gke.go lines 514-545). -/
def client.evictPods {σ : Type} (cli : client σ) (node : Node) (policy : String) (s : σ) :
    (List Pod × Option String) × σ :=
  evictPodsLoop cli.api policy node.Pods [] s

/-- The method `client.drainNode` (gke.go lines 441-447). -/
def client.drainNode {σ : Type} (cli : client σ) (node : Node) (s : σ) :
    (List Pod × Option String) × σ :=
  match cli.policyVersion s with
  | (.error err, s) =>
    (([], some ("failed to get policy version of node " ++ node.Name ++ ": " ++ err)), s)
  | (.ok policy, s) => cli.evictPods node policy s

/-- The method `client.deleteNode` (gke.go lines 548-564). The second message formats a
nil error with `%s`. -/
def client.deleteNode {σ : Type} (cli : client σ) (node : Node) (s : σ) :
    Option String × σ :=
  match cli.api.nodesGet node.Name s with
  | (.error err, s) => (some ("falid to get node " ++ node.Name ++ ": " ++ err), s)
  | (.ok n, s) =>
    if !n.Unschedulable then
      (some ("detect schedulable flag, aborting deleteNode node " ++ node.Name
        ++ ": %!s(<nil>)"), s)
    else
      match cli.api.nodesDelete node.Name s with
      | (some err, s) =>
        (some ("detect schedulable flag, aborting deleteNode node " ++ node.Name ++ ": "
          ++ err), s)
      | (none, s) =>
        match cli.api.instancesStop cli.project node.Zone node.Name s with
        | (some err, s) => (some ("failed to stop instance " ++ node.Name ++ ": " ++ err), s)
        | (none, s) => (none, s)

/-- What a call of `RefreshNode` or `RefreshNodes` does: it returns its two results, or
it panics in `GetNode`. -/
inductive RefreshResult where
  | returned (evictedPods : List Pod) (err : Option String)
  | panicked
deriving DecidableEq, Repr

/-- The deferred function of `RefreshNode` and the body of the one of `RefreshNodes`
(gke.go lines 261-267 and 297-303): uncordon the node and merge a failure into the
returned error. -/
def client.rollbackNode {σ : Type} (cli : client σ) (node : Node) (err : Option String)
    (s : σ) : Option String × σ :=
  match cli.uncordonNode node.Name s with
  | (none, s) => (err, s)
  | (some e, s) =>
    match err with
    | none => (some ("failed to uncordon node " ++ node.Name ++ ": " ++ e), s)
    | some err =>
      (some ("failed to uncordon node " ++ node.Name ++ ": " ++ e ++ ": " ++ err), s)

/-- The method `client.RefreshNode` (gke.go lines 250-282). The body after the cordon
yields the results together with the variable `cordonNode`; the deferred function then
uncordons when it is still set. -/
def client.RefreshNode {σ : Type} (cli : client σ) (nodeName : String) (s : σ) :
    RefreshResult × σ :=
  match cli.GetNode nodeName s with
  | (.panic, s) => (.panicked, s)
  | (.error err, s) =>
    (.returned [] (some ("failed to get node " ++ nodeName ++ ": " ++ err)), s)
  | (.ok node, s) =>
    match cli.cordonNode node.Name s with
    | (some err, s) =>
      (.returned [] (some ("failed to cordon node " ++ node.Name ++ ": " ++ err)), s)
    | (none, s) =>
      let body : (List Pod × Option String × Option Node) × σ :=
        match cli.drainNode node s with
        | ((_, some err), s) =>
          (([], some ("failed to drain node " ++ node.Name ++ ": " ++ err), some node), s)
        | ((evictedPods, none), s) =>
          if node.Preemptible then
            match cli.deleteNode node s with
            | (some err, s) =>
              ((evictedPods, some ("failed to delete node " ++ node.Name ++ ": " ++ err),
                none), s)
            | (none, s) => ((evictedPods, none, none), s)
          else ((evictedPods, none, some node), s)
      match body with
      | ((evictedPods, err, none), s) => (.returned evictedPods err, s)
      | ((evictedPods, err, some cordonNode), s) =>
        let (err, s) := cli.rollbackNode cordonNode err s
        (.returned evictedPods err, s)

/-- Assignment `cordonNodes[name] = node`. -/
def CordonNodes.set : CordonNodes → String → Node → CordonNodes
  | [], name, node => [(name, node)]
  | (k, old) :: rest, name, node =>
    if k = name then (k, node) :: rest else (k, old) :: CordonNodes.set rest name node

/-- The statement `delete(cordonNodes, name)`. -/
def CordonNodes.delete (m : CordonNodes) (name : String) : CordonNodes :=
  m.filter fun kv => kv.1 ≠ name

/-- The first loop of `RefreshNodes` (gke.go lines 287-293): resolve every target. -/
def client.resolveNodes {σ : Type} (cli : client σ) :
    List String → List Node → σ → Except RefreshResult (List Node) × σ
  | [], nodes, s => (.ok nodes, s)
  | v :: rest, nodes, s =>
    match cli.GetNode v s with
    | (.panic, s) => (.error .panicked, s)
    | (.error err, s) =>
      (.error (.returned [] (some ("failed to get node " ++ v ++ ": " ++ err))), s)
    | (.ok node, s) => cli.resolveNodes rest (nodes ++ [node]) s

/-- The second loop of `RefreshNodes` (gke.go lines 306-311): cordon every node, noting
it in `cordonNodes`; on a failure the loop stops with the error and the map so far. -/
def client.cordonNodes {σ : Type} (cli : client σ) :
    List Node → CordonNodes → σ → (Option String × CordonNodes) × σ
  | [], cordonNodes, s => ((none, cordonNodes), s)
  | node :: rest, cordonNodes, s =>
    match cli.cordonNode node.Name s with
    | (some err, s) =>
      ((some ("failed to cordon node " ++ node.Name ++ ": " ++ err), cordonNodes), s)
    | (none, s) => cli.cordonNodes rest (cordonNodes.set node.Name node) s

/-- The body of the third loop of `RefreshNodes` (gke.go lines 314-332) for the node at
index `i`: wait a minute unless it is the first node, drain the node and, if it is
preemptible, delete it, drop it from `cordonNodes` and stop its instance. The result is
the pods the drain evicted, the error that ends `RefreshNodes` if any, and the map. -/
def client.refreshStep {σ : Type} (cli : client σ) (node : Node) (i : Nat)
    (cordonNodes : CordonNodes) (s : σ) :
    (List Pod × Option String × CordonNodes) × σ :=
  let s := if i > 0 then cli.api.sleep 60 s else s
  match cli.drainNode node s with
  | ((pods, some err), s) =>
    ((pods, some ("failed to drain node " ++ node.Name ++ ": " ++ err), cordonNodes), s)
  | ((pods, none), s) =>
    if node.Preemptible then
      match cli.deleteNode node s with
      | (some err, s) =>
        ((pods, some ("failed to delete node " ++ node.Name ++ ": " ++ err), cordonNodes), s)
      | (none, s) =>
        let cordonNodes := cordonNodes.delete node.Name
        match cli.api.instancesStop cli.project node.Zone node.Name s with
        | (some err, s) =>
          ((pods, some ("failed to stop instance " ++ node.Name ++ ": " ++ err),
            cordonNodes), s)
        | (none, s) => ((pods, none, cordonNodes), s)
    else ((pods, none, cordonNodes), s)

/-- The third loop of `RefreshNodes` (gke.go lines 313-333), at index `i`, with the
pods evicted so far and the map `cordonNodes`: the pods of every drain are appended, and
the first error ends the loop. -/
def client.refreshLoop {σ : Type} (cli : client σ) :
    List Node → Nat → List Pod → CordonNodes → σ →
      (List Pod × Option String × CordonNodes) × σ
  | [], _, evictedPods, cordonNodes, s => ((evictedPods, none, cordonNodes), s)
  | node :: rest, i, evictedPods, cordonNodes, s =>
    match cli.refreshStep node i cordonNodes s with
    | ((pods, some err, cordonNodes), s) => ((evictedPods ++ pods, some err, cordonNodes), s)
    | ((pods, none, cordonNodes), s) =>
      cli.refreshLoop rest (i + 1) (evictedPods ++ pods) cordonNodes s

/-- The loop of the deferred function of `RefreshNodes` (gke.go lines 296-304) over the
entries of the map in the order they are visited: uncordon each node. -/
def client.rollbackLoop {σ : Type} (cli : client σ) :
    List (String × Node) → Option String → σ → Option String × σ
  | [], err, s => (err, s)
  | (_, node) :: rest, err, s =>
    let (err, s) := cli.rollbackNode node err s
    cli.rollbackLoop rest err s

/-- The deferred function of `RefreshNodes` (gke.go lines 295-305): uncordon every node
left in `cordonNodes`, visiting the entries in the order the runtime ranges over the
map. -/
def client.rollbackNodes {σ : Type} (cli : client σ) (cordonNodes : CordonNodes)
    (err : Option String) (s : σ) : Option String × σ :=
  cli.rollbackLoop (cli.rangeOrder cordonNodes).val err s

/-- The method `client.RefreshNodes` (gke.go lines 285-335). -/
def client.RefreshNodes {σ : Type} (cli : client σ) (nodeNames : List String) (s : σ) :
    RefreshResult × σ :=
  match cli.resolveNodes nodeNames [] s with
  | (.error r, s) => (r, s)
  | (.ok nodes, s) =>
    match cli.cordonNodes nodes [] s with
    | ((some err, cordonNodes), s) =>
      let (err, s) := cli.rollbackNodes cordonNodes (some err) s
      (.returned [] err, s)
    | ((none, cordonNodes), s) =>
      match cli.refreshLoop nodes 0 [] cordonNodes s with
      | ((evictedPods, err, cordonNodes), s) =>
        let (err, s) := cli.rollbackNodes cordonNodes err s
        (.returned evictedPods err, s)

/-! ## The call trace

Running the client against `traced api` records every remote call with the error it
returned, in call order. -/

/-- A recorded call: what was asked and the error returned (`none` for success). -/
inductive Event where
  | nodesGet (name : String) (err : Option String)
  | nodesUpdate (name : String) (unschedulable : Bool) (err : Option String)
  | nodesDelete (name : String) (err : Option String)
  | podsList (nodeName : String) (err : Option String)
  | evict (eviction : Eviction) (err : Option String)
  | serverGroups (err : Option String)
  | serverResources (groupVersion : String) (err : Option String)
  | instancesStop (project zone name : String) (err : Option String)
  | sleep (seconds : Nat)
deriving DecidableEq, Repr

/-- The error of an `Except` response. -/
def errorOf {α : Type} : Except String α → Option String
  | .error e => some e
  | .ok _ => none

/-- The services `api` with a recorder: the state is paired with the list of the calls
made so far. -/
def traced {σ : Type} (api : KubeAPI σ) : KubeAPI (σ × List Event) where
  nodesGet name s :=
    let r := api.nodesGet name s.1
    (r.1, (r.2, s.2 ++ [Event.nodesGet name (errorOf r.1)]))
  nodesUpdate n s :=
    let r := api.nodesUpdate n s.1
    (r.1, (r.2, s.2 ++ [Event.nodesUpdate n.Name n.Unschedulable r.1]))
  nodesDelete name s :=
    let r := api.nodesDelete name s.1
    (r.1, (r.2, s.2 ++ [Event.nodesDelete name r.1]))
  podsList nodeName s :=
    let r := api.podsList nodeName s.1
    (r.1, (r.2, s.2 ++ [Event.podsList nodeName (errorOf r.1)]))
  evict ev s :=
    let r := api.evict ev s.1
    (r.1, (r.2, s.2 ++ [Event.evict ev r.1]))
  serverGroups s :=
    let r := api.serverGroups s.1
    (r.1, (r.2, s.2 ++ [Event.serverGroups (errorOf r.1)]))
  serverResources gv s :=
    let r := api.serverResources gv s.1
    (r.1, (r.2, s.2 ++ [Event.serverResources gv (errorOf r.1)]))
  instancesStop project zone name s :=
    let r := api.instancesStop project zone name s.1
    (r.1, (r.2, s.2 ++ [Event.instancesStop project zone name r.1]))
  sleep seconds s := (api.sleep seconds s.1, s.2 ++ [Event.sleep seconds])
  now s := api.now s.1

/-- The client `cli` with its services recorded. -/
def client.traced {σ : Type} (cli : client σ) : client (σ × List Event) :=
  { project := cli.project, clusterName := cli.clusterName,
    clusterLocation := cli.clusterLocation, api := GkeNodeOptimizer.traced cli.api,
    rangeOrder := cli.rangeOrder }

/-- The responses, in call order, that the eviction calls for one eviction request
(one pod and policy version) received in a trace. -/
def evictResponses (ev : Eviction) (trace : List Event) : List (Option String) :=
  trace.filterMap fun e =>
    match e with
    | .evict ev' r => if ev' = ev then some r else none
    | _ => none

/-- The trace of `k` eviction attempts that hit the disruption budget, each followed by
the 30 second wait. -/
def retryEvents (ev : Eviction) : Nat → List Event
  | 0 => []
  | k + 1 =>
    Event.evict ev (some disruptionBudgetMessage) :: Event.sleep 30 :: retryEvents ev k

/-- The shape of a run of `evictPods`: `EvictRun policy pods evicted err trace` says that
on the pod list `pods` the pods of `evicted` were evicted in turn, each after at most two
attempts that hit the disruption budget, and that the run then either reached the end of
the list (`err = none`) or stopped at the next pod, whose last attempt failed with
another error or was its third attempt. -/
inductive EvictRun (policy : String) :
    List Pod → List Pod → Option String → List Event → Prop where
  | done : EvictRun policy [] [] none []
  | evicted (pod : Pod) (rest evicted : List Pod) (err : Option String)
      (trace : List Event) (k : Nat) :
      k ≤ 2 → EvictRun policy rest evicted err trace →
      EvictRun policy (pod :: rest) (pod :: evicted) err
        (retryEvents (evictionOf pod policy) k
          ++ Event.evict (evictionOf pod policy) none :: trace)
  | failed (pod : Pod) (rest : List Pod) (k : Nat) (e msg : String) :
      k ≤ 2 → (e ≠ disruptionBudgetMessage ∨ k = 2) →
      EvictRun policy (pod :: rest) [] (some msg)
        (retryEvents (evictionOf pod policy) k
          ++ [Event.evict (evictionOf pod policy) (some e)])

/-- The answers of the eviction API to one request that is repeated: `Attempts api ev k s s'`
says that from the state `s` the call `api.evict ev` returns the disruption-budget
violation `k` times, each answer being followed by a wait of 30 seconds, and that the next
call returns no error and leaves the services in the state `s'`. -/
inductive Attempts {σ : Type} (api : KubeAPI σ) (ev : Eviction) : Nat → σ → σ → Prop where
  | accepted (s s1 : σ) : api.evict ev s = (none, s1) → Attempts api ev 0 s s1
  | refused (k : Nat) (s s0 s1 : σ) :
      api.evict ev s = (some disruptionBudgetMessage, s0) →
      Attempts api ev k (api.sleep 30 s0) s1 → Attempts api ev (k + 1) s s1

/-- The answers of the eviction API for a list of pods taken in turn:
`Yielding api policy pods s s'` says that from the state `s` the API lets each pod of
`pods` go after at most two disruption-budget violations, the calls for one pod starting
in the state the calls for the pod before it ended in, and that the last call ends in `s'`. -/
inductive Yielding {σ : Type} (api : KubeAPI σ) (policy : String) :
    List Pod → σ → σ → Prop where
  | nil (s : σ) : Yielding api policy [] s s
  | cons (pod : Pod) (rest : List Pod) (k : Nat) (s s1 s2 : σ) :
      k ≤ 2 → Attempts api (evictionOf pod policy) k s s1 →
      Yielding api policy rest s1 s2 → Yielding api policy (pod :: rest) s s2

/-- The targets `nodes`, taken from index `i` on, are each drained, and terminated if
preemptible, without error: `Drained cli nodes i cordonNodes s podsPerNode cordonNodes' s'`
lists the pods evicted from each and the map and state reached. -/
inductive Drained {σ : Type} (cli : client σ) :
    List Node → Nat → CordonNodes → σ → List (List Pod) → CordonNodes → σ → Prop where
  | nil (i : Nat) (cordonNodes : CordonNodes) (s : σ) :
      Drained cli [] i cordonNodes s [] cordonNodes s
  | cons (node : Node) (rest : List Node) (i : Nat) (cordonNodes mid last : CordonNodes)
      (s s1 s2 : σ) (pods : List Pod) (podsPerNode : List (List Pod)) :
      cli.refreshStep node i cordonNodes s = ((pods, none, mid), s1) →
      Drained cli rest (i + 1) mid s1 podsPerNode last s2 →
      Drained cli (node :: rest) i cordonNodes s (pods :: podsPerNode) last s2

/-- A call that the rollback makes: reading a node or writing it as schedulable. -/
def Event.isUncordon : Event → Bool
  | .nodesGet _ _ => true
  | .nodesUpdate _ unschedulable _ => !unschedulable
  | _ => false

/-- A call that the cordon step makes: reading a node or writing it as unschedulable. -/
def Event.isCordon : Event → Bool
  | .nodesGet _ _ => true
  | .nodesUpdate _ unschedulable _ => unschedulable
  | _ => false

/-- A call that resolving a target makes: reading the node or listing its pods. -/
def Event.isResolve : Event → Bool
  | .nodesGet _ _ => true
  | .podsList _ _ => true
  | _ => false

/-- A call that removes workloads or capacity: an eviction, a node deletion or an instance
stop. -/
def Event.isDestructive : Event → Bool
  | .evict _ _ => true
  | .nodesDelete _ _ => true
  | .instancesStop _ _ _ _ => true
  | _ => false

/-- A call that a drain makes: a discovery call, an eviction or a wait. -/
def Event.isDrain : Event → Bool
  | .serverGroups _ => true
  | .serverResources _ _ => true
  | .evict _ _ => true
  | .sleep _ => true
  | _ => false

/-- The call asks to delete the node object `name` or to stop the instance `name`. -/
def Event.terminates : Event → String → Bool
  | .nodesDelete n _, name => n = name
  | .instancesStop _ _ n _, name => n = name
  | _, _ => false

/-- The trace of the recorded state `s'` is the trace of `s` followed by calls that all
satisfy `P`. -/
def TraceExt {σ : Type} (P : Event → Prop) (s s' : σ × List Event) : Prop :=
  ∃ Δ, s'.2 = s.2 ++ Δ ∧ ∀ e ∈ Δ, P e

/-- The zero value of the fields `report.NewResult` leaves unset. -/
def NewResult : Result := {}

/-! ## Notions of the specification about a snapshot -/

/-- The preemptible node pools of a cluster, in pool order. -/
def preemptiblePools (cluster : Cluster) : List NodePool :=
  cluster.NodePool.filter fun p => p.Preemptible

/-- The autoscaled on-demand node pools of a cluster (not preemptible, `Autoscale`
set), in pool order. -/
def ondemandAutoscalePools (cluster : Cluster) : List NodePool :=
  cluster.NodePool.filter fun p => !p.Preemptible && p.Autoscale

/-- The nodes of a node list that carry a given pool name, in node-list order. -/
def nodesOfPool (nodes : List Node) (poolName : String) : List Node :=
  nodes.filter fun n => n.NodePool = poolName

/-- The floor `F`: the sum over the preemptible pools of
`MinNodeCount * len(InstanceGroupURLs)`. -/
def preemptibleFloor (cluster : Cluster) : Int :=
  ((preemptiblePools cluster).map fun p =>
    p.MinNodeCount * (p.InstanceGroupURLs.length : Int)).sum

/-- The floor as a Go `int` holds it: `F` reduced to 64 bits. It is `F` itself whenever
`F` lies between `-2^63` and `2^63 - 1`. -/
def goFloor (cluster : Cluster) : Int :=
  goInt (preemptibleFloor cluster)

/-- The number of nodes of the node list that belong to a preemptible pool: nodes whose
pool name is the name of some preemptible pool of the cluster. -/
def preemptibleNodeCount (cluster : Cluster) (nodes : List Node) : Nat :=
  nodes.countP fun n => (preemptiblePools cluster).any fun p => p.Name = n.NodePool

/-- The nodes of the preemptible pools, in pool order then node-list order. -/
def preemptibleNodesInOrder (cluster : Cluster) (nodes : List Node) : List Node :=
  (preemptiblePools cluster).flatMap fun p => nodesOfPool nodes p.Name

/-- The nodes of the autoscaled on-demand pools, in pool order then node-list order. -/
def ondemandAutoscaleNodesInOrder (cluster : Cluster) (nodes : List Node) : List Node :=
  (ondemandAutoscalePools cluster).flatMap fun p => nodesOfPool nodes p.Name

/-- Selection succeeded: `Optimize` did not stop with an error before the refresh step,
that is, it returned no error or it called `RefreshNodes`. -/
def SelectionSucceeds (o : Optimizer) : Prop :=
  (Optimize o).err = none ∨ (Optimize o).refreshCalls ≠ []

/-- The one-element list of a node name when the node exists and its flag is set. -/
def gatedName (selected : Option Node) (enabled : Bool) : List String :=
  match selected with
  | some node => if enabled then [node.Name] else []
  | none => []

/-! ## Concrete snapshots -/

/-- A running node pool with the given name, flags, minimum and instance groups. -/
def mkPool (name : String) (preemptible autoscale : Bool) (minNodeCount : Int)
    (groups : List String) : NodePool :=
  { Name := name, ResourceURL := "", Preemptible := preemptible, Autoscale := autoscale,
    MinNodeCount := minNodeCount, MaxNodeCount := 10, Status := NodePool_RUNNING,
    InstanceGroupURLs := groups }

/-- A pod with the given name on the given node, in namespace `default`. -/
def mkPod (name nodeName : String) : Pod :=
  { Name := name, Namespace := "default", NodeName := nodeName, Hostname := "",
    Status := "Running" }

/-- A ready node of the given pool with the given age and pods. -/
def mkNode (name pool : String) (preemptible : Bool) (age : Int) (pods : List Pod) :
    Node :=
  { Name := name, ResourceURL := "", ClusterName := "c", NodePool := pool,
    Region := "r", Zone := "z", Ready := true, Preemptible := preemptible, Age := age,
    Pods := pods }

/-- A running cluster with the given pools. -/
def mkCluster (status : Cluster_Status) (pools : List NodePool) : Cluster :=
  { Name := "c", ResourceURL := "", Region := "r", Status := status, NodePool := pools }

/-- A gateway that serves the given snapshot and whose `RefreshNodes` evicts nothing
and succeeds. -/
def mkClient (cluster : Cluster) (nodes : List Node) : Client :=
  { GetCluster := .ok cluster, GetNodeList := .ok nodes,
    RefreshNodes := fun _ => ([], none) }

/-- One hour as a `time.Duration` (nanoseconds). -/
def hour : Int := 3600000000000

/-- The scenario of the specification: one preemptible pool (`MinNodeCount` 2, one
instance group) with three nodes aged 1h, 5h and 10h, and one autoscaled on-demand pool
whose nodes carry 4, 1 and 7 pods. -/
def scenarioCluster : Cluster :=
  mkCluster Cluster_RUNNING
    [mkPool "spot" true true 2 ["ig-1"], mkPool "ondemand" false true 1 ["ig-2"]]

/-- The 10h node of the scenario. -/
def scenarioOldest : Node := mkNode "gke-c-spot-3" "spot" true (10 * hour) []

/-- The one-pod node of the scenario. -/
def scenarioFewest : Node :=
  mkNode "gke-c-ondemand-2" "ondemand" false (2 * hour) [mkPod "e" "gke-c-ondemand-2"]

/-- The node list of the scenario. -/
def scenarioNodes : List Node :=
  [ mkNode "gke-c-spot-1" "spot" true (1 * hour) [],
    mkNode "gke-c-ondemand-1" "ondemand" false (3 * hour)
      [mkPod "a" "gke-c-ondemand-1", mkPod "b" "gke-c-ondemand-1",
       mkPod "c" "gke-c-ondemand-1", mkPod "d" "gke-c-ondemand-1"],
    mkNode "gke-c-spot-2" "spot" true (5 * hour) [],
    scenarioFewest,
    scenarioOldest,
    mkNode "gke-c-ondemand-3" "ondemand" false (4 * hour)
      [mkPod "f" "gke-c-ondemand-3", mkPod "g" "gke-c-ondemand-3",
       mkPod "h" "gke-c-ondemand-3", mkPod "i" "gke-c-ondemand-3",
       mkPod "j" "gke-c-ondemand-3", mkPod "k" "gke-c-ondemand-3",
       mkPod "l" "gke-c-ondemand-3"] ]

/-- The optimizer of the scenario, with the given two policy flags and minimum 0. -/
def scenarioOptimizer (optimizePreemptible optimizeOndemand : Bool) : Optimizer :=
  { client := mkClient scenarioCluster scenarioNodes, result := NewResult,
    option := { MinimumPreemptibleNodeCount := 0,
                OptimizePreemptibleNode := optimizePreemptible,
                OptimizeAutoscaleOndemandNode := optimizeOndemand } }

/-- A cluster response that lists the same preemptible pool twice (`MinNodeCount` 1, one
instance group each). -/
def twinCluster : Cluster :=
  mkCluster Cluster_RUNNING [mkPool "spot" true true 1 ["ig-1"], mkPool "spot" true true 1 ["ig-1"]]

/-- One ready node in pool `spot`. -/
def twinNodes : List Node := [mkNode "gke-c-spot-1" "spot" true hour []]

/-- The optimizer on the twin-pool snapshot, minimum 0, both flags set. -/
def twinOptimizer : Optimizer :=
  { client := mkClient twinCluster twinNodes, result := NewResult,
    option := { MinimumPreemptibleNodeCount := 0, OptimizePreemptibleNode := true,
                OptimizeAutoscaleOndemandNode := true } }

/-- A cluster that is itself reconciling, with a reconciling pool. -/
def reconcilingCluster : Cluster :=
  mkCluster Cluster_Status.RECONCILING
    [{ mkPool "spot" true true 1 ["ig-1"] with Status := NodePool_Status.RECONCILING }]

/-- The optimizer on the reconciling cluster. -/
def reconcilingOptimizer : Optimizer :=
  { client := mkClient reconcilingCluster twinNodes, result := NewResult,
    option := { MinimumPreemptibleNodeCount := 0, OptimizePreemptibleNode := true,
                OptimizeAutoscaleOndemandNode := true } }

/-- A running cluster whose second pool is provisioning. -/
def provisioningCluster : Cluster :=
  mkCluster Cluster_RUNNING
    [mkPool "spot" true true 1 ["ig-1"],
     { mkPool "extra" false true 1 ["ig-2"] with Status := NodePool_Status.PROVISIONING }]

/-- The optimizer on the cluster with a provisioning pool. -/
def provisioningOptimizer : Optimizer :=
  { client := mkClient provisioningCluster twinNodes, result := NewResult,
    option := { MinimumPreemptibleNodeCount := 0, OptimizePreemptibleNode := true,
                OptimizeAutoscaleOndemandNode := true } }

/-- A running cluster with one preemptible pool of minimum 0. -/
def idleCluster : Cluster :=
  mkCluster Cluster_RUNNING [mkPool "spot" true true 0 ["ig-1"]]

/-- The optimizer on the idle cluster with an empty node list, minimum 0. -/
def idleOptimizer : Optimizer :=
  { client := mkClient idleCluster [], result := NewResult,
    option := { MinimumPreemptibleNodeCount := 0, OptimizePreemptibleNode := true,
                OptimizeAutoscaleOndemandNode := true } }

/-- A cluster response that lists the same preemptible pool twice with minimum 0. -/
def twinIdleCluster : Cluster :=
  mkCluster Cluster_RUNNING [mkPool "spot" true true 0 ["ig-1"], mkPool "spot" true true 0 ["ig-1"]]

/-- The optimizer on the twin idle cluster with one node, minimum 0. -/
def twinIdleOptimizer : Optimizer :=
  { client := mkClient twinIdleCluster twinNodes, result := NewResult,
    option := { MinimumPreemptibleNodeCount := 0, OptimizePreemptibleNode := true,
                OptimizeAutoscaleOndemandNode := true } }

/-- A cluster whose preemptible pool asks for `2^62` nodes in each of two instance
groups: the floor `2^63` does not fit a 64-bit `int`. -/
def vastCluster : Cluster :=
  mkCluster Cluster_RUNNING [mkPool "spot" true true 4611686018427387904 ["ig-1", "ig-2"]]

/-- The optimizer on the vast cluster with one node, minimum 0. -/
def vastOptimizer : Optimizer :=
  { client := mkClient vastCluster twinNodes, result := NewResult,
    option := { MinimumPreemptibleNodeCount := 0, OptimizePreemptibleNode := true,
                OptimizeAutoscaleOndemandNode := true } }

/-! ## Concrete services -/

/-- The state of the demonstration services: the names of the cordoned nodes, the names
of the deleted nodes, and the pod names of the eviction calls received so far. -/
structure DemoState where
  cordoned : List String
  deleted : List String
  evictions : List String
deriving DecidableEq, Repr

/-- The raw node the demonstration services hold under a name: labelled with its pool,
region and zone, ready, created at time 0. -/
def demoRawNode (name pool : String) (preemptible unschedulable : Bool) : RawNode :=
  { Name := name
    Labels := [(NodePoolLabel, pool), (NodeRegionLabel, "r"), (NodeZoneLabel, "z"),
      (PreemptibleLabel, if preemptible then "true" else "false")]
    CreationTimestamp := 0
    Unschedulable := unschedulable
    Conditions := ["Ready"] }

/-- The nodes of the demonstration services: name, pool, preemptible flag. -/
def demoNodes : List (String × String × Bool) :=
  [("gke-c-spot-1", "spot", true), ("gke-c-spot-2", "spot", true),
   ("gke-c-ondemand-1", "ondemand", false)]

/-- A raw pod of the demonstration services. -/
def demoRawPod (name nodeName : String) : RawPod :=
  { Name := name, Namespace := "default", NodeName := nodeName, Hostname := "",
    Status := "Running" }

/-- The pods bound to each node of the demonstration services. -/
def demoPods (nodeName : String) : List RawPod :=
  if nodeName = "gke-c-spot-1" then
    [demoRawPod "a" nodeName, demoRawPod "slow" nodeName, demoRawPod "c" nodeName]
  else if nodeName = "gke-c-spot-2" then
    [demoRawPod "d" nodeName, demoRawPod "stuck" nodeName, demoRawPod "e" nodeName]
  else if nodeName = "gke-c-ondemand-1" then [demoRawPod "f" nodeName]
  else []

/-- The demonstration services. A node can be read until it is deleted and shows the
schedulability last written. Evicting the pod `slow` hits the disruption budget twice and
then succeeds, evicting `stuck` always hits it, evicting `broken` fails with another
error, every other eviction succeeds. The eviction API is available. -/
def demoAPI : KubeAPI DemoState where
  nodesGet name s :=
    match demoNodes.find? (fun n => n.1 = name) with
    | some (n, pool, preemptible) =>
      if name ∈ s.deleted then (.error "not found", s)
      else (.ok (demoRawNode n pool preemptible (decide (name ∈ s.cordoned))), s)
    | none => (.error "not found", s)
  nodesUpdate n s :=
    (none, { s with cordoned :=
      if n.Unschedulable then n.Name :: s.cordoned.filter (fun c => c ≠ n.Name)
      else s.cordoned.filter (fun c => c ≠ n.Name) })
  nodesDelete name s := (none, { s with deleted := name :: s.deleted })
  podsList nodeName s := (.ok (demoPods nodeName), s)
  evict ev s :=
    let seen := s.evictions.count ev.Name
    let s' := { s with evictions := ev.Name :: s.evictions }
    if ev.Name = "slow" then
      (if seen < 2 then some disruptionBudgetMessage else none, s')
    else if ev.Name = "stuck" then (some disruptionBudgetMessage, s')
    else if ev.Name = "broken" then (some "boom", s')
    else (none, s')
  serverGroups s := (.ok [{ Name := "policy", PreferredGroupVersion := "policy/v1beta1" }], s)
  serverResources _ s := (.ok [{ Name := ResourceEvictionName, Kind := ResourceEvictionKind }], s)
  instancesStop _ _ _ s := (none, s)
  sleep _ s := s
  now _ := 100 * hour

/-- The client of the demonstration services. -/
def demoClient : client DemoState :=
  { project := "p", clusterName := "c", clusterLocation := "r", api := demoAPI }

/-- The initial state of the demonstration services: nothing cordoned, deleted or
evicted. -/
def demoStart : DemoState := { cordoned := [], deleted := [], evictions := [] }

/-- The node `gke-c-spot-1` as `GetNode` resolves it, with the pods `a`, `slow`, `c`. -/
def demoSlowNode : Node :=
  { mkNode "gke-c-spot-1" "spot" true (100 * hour)
      [mkPod "a" "gke-c-spot-1", mkPod "slow" "gke-c-spot-1", mkPod "c" "gke-c-spot-1"]
    with ResourceURL :=
      "https://console.cloud.google.com/kubernetes/node/r/c/gke-c-spot-1?project=p" }

/-- The node `gke-c-spot-2` as `GetNode` resolves it, with the pods `d`, `stuck`, `e`. -/
def demoStuckNode : Node :=
  { mkNode "gke-c-spot-2" "spot" true (100 * hour)
      [mkPod "d" "gke-c-spot-2", mkPod "stuck" "gke-c-spot-2", mkPod "e" "gke-c-spot-2"]
    with ResourceURL :=
      "https://console.cloud.google.com/kubernetes/node/r/c/gke-c-spot-2?project=p" }

/-- The node `gke-c-ondemand-1` as `GetNode` resolves it, with the pod `f`. -/
def demoOndemandNode : Node :=
  { mkNode "gke-c-ondemand-1" "ondemand" false (100 * hour) [mkPod "f" "gke-c-ondemand-1"]
    with ResourceURL :=
      "https://console.cloud.google.com/kubernetes/node/r/c/gke-c-ondemand-1?project=p" }

/-- Three targets: two preemptible nodes and an on-demand node. -/
def demoTargets : List String := ["gke-c-spot-1", "gke-c-spot-2", "gke-c-ondemand-1"]

/-- The recorded state once the three targets are resolved. -/
def demoResolved : DemoState × List Event :=
  (demoClient.traced.resolveNodes demoTargets [] (demoStart, [])).2

/-- The map `cordonNodes` once the three targets are cordoned. -/
def demoCordonMap : CordonNodes :=
  [("gke-c-spot-1", demoSlowNode), ("gke-c-spot-2", demoStuckNode),
   ("gke-c-ondemand-1", demoOndemandNode)]

/-- The recorded state once the three targets are cordoned. -/
def demoCordoned : DemoState × List Event :=
  (demoClient.traced.cordonNodes [demoSlowNode, demoStuckNode, demoOndemandNode] []
    demoResolved).2

/-- The recorded state once the first target is drained and terminated. -/
def demoAfterFirst : DemoState × List Event :=
  (demoClient.traced.refreshStep demoSlowNode 0 demoCordonMap demoCordoned).2

/-- The recorded state when the drain of the second target has failed. -/
def demoAfterFailure : DemoState × List Event :=
  (demoClient.traced.refreshStep demoStuckNode 1 (demoCordonMap.delete "gke-c-spot-1")
    demoAfterFirst).2

/-- The raw node carries the node-pool, region and zone labels. -/
def hasRequiredLabels (n : RawNode) : Bool :=
  (n.Labels.lookup NodePoolLabel).isSome && (n.Labels.lookup NodeRegionLabel).isSome
    && (n.Labels.lookup NodeZoneLabel).isSome

/-- The naming convention: the name of the raw node starts with
`gke-<clusterName>-<pool>`, for the pool of its node-pool label. -/
def matchesNaming (clusterName : String) (n : RawNode) : Bool :=
  match n.Labels.lookup NodePoolLabel with
  | some pool => decide (("gke-" ++ clusterName ++ "-" ++ pool).data <+: n.Name.data)
  | none => false

/-- The raw nodes the specification keeps in a snapshot: the three labels are present
and the name follows the naming convention. -/
def validRawNode (clusterName : String) (n : RawNode) : Bool :=
  hasRequiredLabels n && matchesNaming clusterName n

/-- The raw nodes the code keeps: the three labels are present and, unless the cluster
name is empty, the name follows the naming convention. -/
def keptRawNode (clusterName : String) (n : RawNode) : Bool :=
  hasRequiredLabels n && (decide (clusterName = "") || matchesNaming clusterName n)

/-- A labelled raw node whose name does not follow the naming convention. -/
def strayRawNode : RawNode := demoRawNode "stray" "spot" true false

/-- A client whose cluster name is empty. -/
def namelessClient : client DemoState :=
  { project := "p", clusterName := "", clusterLocation := "r", api := demoAPI }

/-- A raw node without the zone label. -/
def zonelessRawNode : RawNode :=
  { Name := "gke-c-spot-9", Labels := [(NodePoolLabel, "spot"), (NodeRegionLabel, "r")],
    CreationTimestamp := 0, Unschedulable := false, Conditions := ["Ready"] }

/-- The optimizer of the scenario against a gateway whose `RefreshNodes` evicts one pod
and then fails. -/
def scenarioFailingOptimizer : Optimizer :=
  { client :=
      { GetCluster := .ok scenarioCluster, GetNodeList := .ok scenarioNodes,
        RefreshNodes := fun _ => ([mkPod "x" "gke-c-spot-3"], some "drain failed") },
    result := NewResult,
    option := { MinimumPreemptibleNodeCount := 0, OptimizePreemptibleNode := true,
                OptimizeAutoscaleOndemandNode := true } }

/-- The calls of one successful cordon request for the node `name`: the read of the
node and, unless the node is read as unschedulable already, the write that makes it
unschedulable, both without error. -/
def CordonBlock (name : String) (calls : List Event) : Prop :=
  calls = [Event.nodesGet name none] ∨
  ∃ n, calls = [Event.nodesGet name none, Event.nodesUpdate n true none]

/-- The calls of one successful cordon request for each of the nodes, in order, and
nothing else. -/
inductive CordonRun : List Node → List Event → Prop where
  | nil : CordonRun [] []
  | cons (node : Node) (rest : List Node) (calls trace : List Event) :
      CordonBlock node.Name calls → CordonRun rest trace →
      CordonRun (node :: rest) (calls ++ trace)

/-- The calls of one successful resolution (`GetNode`) for each of the target names, in
order, and nothing else: the read of the target and the listing of the pods of the node
it resolves to, both without error. -/
inductive ResolveRun : List String → List Node → List Event → Prop where
  | nil : ResolveRun [] [] []
  | cons (v : String) (node : Node) (names : List String) (nodes : List Node)
      (trace : List Event) :
      ResolveRun names nodes trace →
      ResolveRun (v :: names) (node :: nodes)
        (Event.nodesGet v none :: Event.podsList node.Name none :: trace)

/-- The call acts on the node: it evicts one of the pods of the node, deletes the object
of the node or stops the instance of the node. -/
def Event.actsOn (node : Node) : Event → Bool
  | .evict ev _ => node.Pods.any fun pod => ev.Name = pod.Name ∧ ev.Namespace = pod.Namespace
  | .nodesDelete n _ => n = node.Name
  | .instancesStop _ _ n _ => n = node.Name
  | _ => false

/-- The calls of one uncordon request for the node `name`: the read of the node and, if
the node is read as unschedulable, the write that makes it schedulable. -/
def UncordonBlock (name : String) (calls : List Event) : Prop :=
  (∃ e, calls = [Event.nodesGet name e]) ∨
  (∃ n e, calls = [Event.nodesGet name none, Event.nodesUpdate n false e])

/-- The calls of one uncordon request for each node of the map, in the order of the map,
and nothing else. -/
inductive UncordonRun : CordonNodes → List Event → Prop where
  | nil : UncordonRun [] []
  | cons (key : String) (node : Node) (rest : CordonNodes) (calls trace : List Event) :
      UncordonBlock node.Name calls → UncordonRun rest trace →
      UncordonRun ((key, node) :: rest) (calls ++ trace)

/-- The map `cordonNodes` once the second loop of `RefreshNodes` has noted the nodes
`nodes`, from the map `start` (gke.go line 310). -/
def cordonMapOf (nodes : List Node) (start : CordonNodes) : CordonNodes :=
  nodes.foldl (fun m n => m.set n.Name n) start

/-- The demonstration services, except that every write of the node `gke-c-ondemand-1` is
refused. -/
def refusingAPI : KubeAPI DemoState :=
  { demoAPI with
    nodesUpdate := fun n s =>
      if n.Name = "gke-c-ondemand-1" then (some "update refused", s)
      else demoAPI.nodesUpdate n s }

/-- The client of the services that refuse to write `gke-c-ondemand-1`. -/
def refusingClient : client DemoState :=
  { project := "p", clusterName := "c", clusterLocation := "r", api := refusingAPI }

/-- The demonstration services, except that every node deletion is refused. -/
def stubbornAPI : KubeAPI DemoState :=
  { demoAPI with nodesDelete := fun _ s => (some "delete refused", s) }

/-- The client of the services that refuse to delete a node. -/
def stubbornClient : client DemoState :=
  { project := "p", clusterName := "c", clusterLocation := "r", api := stubbornAPI }

/-- The demonstration services, except that every instance stop is refused. -/
def haltingAPI : KubeAPI DemoState :=
  { demoAPI with instancesStop := fun _ _ _ s => (some "stop refused", s) }

/-- The client of the services that refuse to stop an instance. -/
def haltingClient : client DemoState :=
  { project := "p", clusterName := "c", clusterLocation := "r", api := haltingAPI }

/-- The recorded state once the single target `gke-c-spot-1` is resolved. -/
def soloResolved : DemoState × List Event :=
  ({ cordoned := [], deleted := [], evictions := [] },
   [Event.nodesGet "gke-c-spot-1" none, Event.podsList "gke-c-spot-1" none])

/-- The recorded state once the single target `gke-c-spot-1` is cordoned. -/
def soloCordoned : DemoState × List Event :=
  ({ cordoned := ["gke-c-spot-1"], deleted := [], evictions := [] },
   soloResolved.2
     ++ [Event.nodesGet "gke-c-spot-1" none, Event.nodesUpdate "gke-c-spot-1" true none])

/-- The recorded state once the single target `gke-c-spot-1` is drained. -/
def soloDrained : DemoState × List Event :=
  ({ cordoned := ["gke-c-spot-1"], deleted := [],
     evictions := ["c", "slow", "slow", "slow", "a"] },
   soloCordoned.2
     ++ [Event.serverGroups none, Event.serverResources "v1" none,
         Event.evict (evictionOf (mkPod "a" "gke-c-spot-1") "policy/v1beta1") none,
         Event.evict (evictionOf (mkPod "slow" "gke-c-spot-1") "policy/v1beta1")
           (some disruptionBudgetMessage),
         Event.sleep 30,
         Event.evict (evictionOf (mkPod "slow" "gke-c-spot-1") "policy/v1beta1")
           (some disruptionBudgetMessage),
         Event.sleep 30,
         Event.evict (evictionOf (mkPod "slow" "gke-c-spot-1") "policy/v1beta1") none,
         Event.evict (evictionOf (mkPod "c" "gke-c-spot-1") "policy/v1beta1") none])

/-- The recorded state when the deletion of `gke-c-spot-1` has been refused: the node is
not deleted and is still noted as cordoned. -/
def soloRefused : DemoState × List Event :=
  (soloDrained.1,
   soloDrained.2
     ++ [Event.nodesGet "gke-c-spot-1" none,
         Event.nodesDelete "gke-c-spot-1" (some "delete refused")])

/-- The recorded state when `gke-c-spot-1` has been deleted and the stop of its instance
has been refused. -/
def soloHalted : DemoState × List Event :=
  ({ cordoned := ["gke-c-spot-1"], deleted := ["gke-c-spot-1"],
     evictions := ["c", "slow", "slow", "slow", "a"] },
   soloDrained.2
     ++ [Event.nodesGet "gke-c-spot-1" none, Event.nodesDelete "gke-c-spot-1" none,
         Event.instancesStop "p" "z" "gke-c-spot-1" (some "stop refused")])

/-- The laws of a node store, assumed of the Kubernetes services when a claim speaks of
the state of a node: `flag s name` is the unschedulable flag the services hold for the
node `name` in the state `s`. A read returns the node asked for with the flag held and
changes no flag; a write that succeeds sets the flag of the node written and no other; a
write that fails changes no flag. -/
structure NodeStore {σ : Type} (api : KubeAPI σ) (flag : σ → String → Bool) : Prop where
  get_ok : ∀ name s n, (api.nodesGet name s).1 = .ok n →
    n.Name = name ∧ n.Unschedulable = flag s name
  get_frame : ∀ name s, flag (api.nodesGet name s).2 = flag s
  update_ok : ∀ n s, (api.nodesUpdate n s).1 = none →
    flag (api.nodesUpdate n s).2 = Function.update (flag s) n.Name n.Unschedulable
  update_error : ∀ n s e, (api.nodesUpdate n s).1 = some e →
    flag (api.nodesUpdate n s).2 = flag s

/-- The unschedulable flag the demonstration services hold for a node name. -/
def demoFlag (s : DemoState) (name : String) : Bool :=
  decide (name ∈ s.cordoned)

/-- The uncordon requests of the deferred rollback all succeed: `Uncordoned cli m s s1`
says that uncordoning the nodes of the map `m` in turn from the state `s` returns no
error and ends in the state `s1`. -/
inductive Uncordoned {σ : Type} (cli : client σ) : CordonNodes → σ → σ → Prop where
  | nil (s : σ) : Uncordoned cli [] s s
  | cons (key : String) (node : Node) (rest : CordonNodes) (s s1 s2 : σ) :
      cli.uncordonNode node.Name s = (none, s1) → Uncordoned cli rest s1 s2 →
      Uncordoned cli ((key, node) :: rest) s s2

/-- The state of the demonstration services once two targets are cordoned, the first
being `first`. -/
def duoCordoned (first : String) : DemoState :=
  { cordoned := ["gke-c-spot-2", first], deleted := [], evictions := [] }

/-- The client of the demonstration services whose runtime visits a map in the reverse of
the insertion order. -/
def reversingClient : client DemoState :=
  { project := "p", clusterName := "c", clusterLocation := "r", api := demoAPI,
    rangeOrder := fun m => ⟨m.reverse, List.reverse_perm m⟩ }

/-- The map once `gke-c-ondemand-1` and `gke-c-spot-2` are cordoned. -/
def duoMap : CordonNodes :=
  [("gke-c-ondemand-1", demoOndemandNode), ("gke-c-spot-2", demoStuckNode)]

/-- The recorded state once the two targets `gke-c-ondemand-1` and `gke-c-spot-2` are
resolved and cordoned. -/
def duoReady : DemoState × List Event :=
  (reversingClient.traced.cordonNodes [demoOndemandNode, demoStuckNode] []
    (reversingClient.traced.resolveNodes ["gke-c-ondemand-1", "gke-c-spot-2"] []
      (demoStart, [])).2).2

/-- The recorded state once `gke-c-ondemand-1` is drained. -/
def duoAfterFirst : DemoState × List Event :=
  (reversingClient.traced.refreshStep demoOndemandNode 0 duoMap duoReady).2

/-- The recorded state when the drain of `gke-c-spot-2` has failed. -/
def duoAfterFailure : DemoState × List Event :=
  (reversingClient.traced.drainNode demoStuckNode
    (reversingClient.traced.api.sleep 60 duoAfterFirst)).2

/-- The recorded state once the rollback has uncordoned `gke-c-spot-2`, the entry it
visits first. -/
def duoAfterUncordon : DemoState × List Event :=
  (reversingClient.traced.uncordonNode "gke-c-spot-2" duoAfterFailure).2

/-- The recorded state once the rollback has uncordoned `gke-c-ondemand-1` as well. -/
def duoFinal : DemoState × List Event :=
  (reversingClient.traced.uncordonNode "gke-c-ondemand-1" duoAfterUncordon).2

/-- The state of a node store that refuses its next writes: the number of writes still to
be refused, and the names of the cordoned nodes. -/
structure FlakyState where
  refusals : Nat
  cordoned : List String
deriving DecidableEq, Repr

/-- Services that hold every node, read it with the flag last written, and refuse a write
with a conflict as long as `refusals` is positive. -/
def flakyAPI : KubeAPI FlakyState where
  nodesGet name s := (.ok (demoRawNode name "spot" true (decide (name ∈ s.cordoned))), s)
  nodesUpdate n s :=
    if s.refusals > 0 then (some "conflict", { s with refusals := s.refusals - 1 })
    else
      (none, { s with cordoned :=
        if n.Unschedulable then n.Name :: s.cordoned.filter (fun c => c ≠ n.Name)
        else s.cordoned.filter (fun c => c ≠ n.Name) })
  nodesDelete _ s := (none, s)
  podsList _ s := (.ok [], s)
  evict _ s := (none, s)
  serverGroups s := (.ok [], s)
  serverResources _ s := (.ok [], s)
  instancesStop _ _ _ s := (none, s)
  sleep _ s := s
  now _ := 0

/-- The unschedulable flag the refusing services hold for a node name. -/
def flakyFlag (s : FlakyState) (name : String) : Bool :=
  decide (name ∈ s.cordoned)

/-- The client of the refusing services. -/
def flakyClient : client FlakyState :=
  { project := "p", clusterName := "c", clusterLocation := "r", api := flakyAPI }

/-! ## Theorems -/

/-! ### The map `nodesByPool` -/

theorem NodesByPool.get?_set (m : NodesByPool) (k name : String) (ns : List Node) :
    NodesByPool.get? (NodesByPool.set m k ns) name
      = if k = name then some ns else NodesByPool.get? m name := by
  induction m with
  | nil => simp [NodesByPool.set, NodesByPool.get?]
  | cons hd tl ih =>
    obtain ⟨k0, v0⟩ := hd
    by_cases h0 : k0 = k
    · subst h0
      by_cases h1 : k0 = name <;> simp [NodesByPool.set, NodesByPool.get?, h1]
    · by_cases h1 : k0 = name
      · subst h1
        have : ¬ k = k0 := fun h => h0 h.symm
        simp [NodesByPool.set, NodesByPool.get?, h0, this]
      · simp [NodesByPool.set, NodesByPool.get?, h0, h1, ih]

/-- Grouping succeeds exactly on ready nodes, and then every key holds its old nodes
followed by the nodes of that pool name in node-list order. -/
theorem groupNodes_ok (nodes : List Node) :
    ∀ (m m' : NodesByPool), groupNodes nodes m = .ok m' →
      (∀ n ∈ nodes, n.Ready = true) ∧
      ∀ name, m'.get name = m.get name ++ nodesOfPool nodes name := by
  induction nodes with
  | nil =>
    intro m m' h
    simp only [groupNodes, Except.ok.injEq] at h
    subst h
    simp [nodesOfPool]
  | cons v rest ih =>
    intro m m' h
    rw [groupNodes] at h
    by_cases hr : v.Ready = true
    · simp only [hr, Bool.not_true, Bool.false_eq_true, if_false] at h
      obtain ⟨h1, h2⟩ := ih _ _ h
      refine ⟨?_, ?_⟩
      · intro n hn
        rcases List.mem_cons.mp hn with rfl | hn
        · exact hr
        · exact h1 n hn
      · intro name
        rw [h2 name]
        cases hg : NodesByPool.get? m v.NodePool with
        | none =>
          by_cases hk : v.NodePool = name
          · subst hk
            simp [NodesByPool.get, NodesByPool.get?_set, hg, nodesOfPool, List.filter_cons]
          · simp [NodesByPool.get, NodesByPool.get?_set, hg, nodesOfPool, List.filter_cons, hk]
        | some old =>
          by_cases hk : v.NodePool = name
          · subst hk
            simp [NodesByPool.get, NodesByPool.get?_set, hg, nodesOfPool, List.filter_cons]
          · simp [NodesByPool.get, NodesByPool.get?_set, hg, nodesOfPool, List.filter_cons, hk]
    · simp [hr] at h

/-- Grouping fails as soon as the node list holds a node that is not ready. -/
theorem groupNodes_error (nodes : List Node) :
    ∀ (m : NodesByPool), (∃ n ∈ nodes, n.Ready = false) →
      ∃ e, groupNodes nodes m = .error e := by
  induction nodes with
  | nil => intro m h; simp at h
  | cons v rest ih =>
    intro m h
    rw [groupNodes]
    by_cases hr : v.Ready = true
    · simp only [hr, Bool.not_true, Bool.false_eq_true, if_false]
      obtain ⟨n, hn, hnr⟩ := h
      rcases List.mem_cons.mp hn with rfl | hn
      · simp [hr] at hnr
      · exact ih _ ⟨n, hn, hnr⟩
    · simp [hr]

/-! ### The loops of `Optimize` -/

/-- When the pool loop succeeds, every pool is running and the two lists are the
preemptible pools and the autoscaled on-demand pools, in pool order. -/
theorem checkNodePools_ok (pools : List NodePool) :
    ∀ (pre ond a b : List NodePool), checkNodePools pools pre ond = .ok (a, b) →
      (∀ p ∈ pools, p.Status = NodePool_RUNNING) ∧
      a = pre ++ pools.filter (fun p => p.Preemptible) ∧
      b = ond ++ pools.filter (fun p => !p.Preemptible && p.Autoscale) := by
  induction pools with
  | nil =>
    intro pre ond a b h
    simp only [checkNodePools, Except.ok.injEq, Prod.mk.injEq] at h
    simp [h.1, h.2]
  | cons v rest ih =>
    intro pre ond a b h
    rw [checkNodePools] at h
    by_cases hs : v.Status = NodePool_RUNNING
    · simp only [hs, ne_eq, not_true_eq_false, if_false] at h
      by_cases hp : v.Preemptible = true
      · simp only [hp, if_true] at h
        obtain ⟨h1, h2, h3⟩ := ih _ _ _ _ h
        refine ⟨?_, ?_, ?_⟩
        · intro p hpm
          rcases List.mem_cons.mp hpm with rfl | hpm
          · exact hs
          · exact h1 p hpm
        · simp [h2, List.filter_cons, hp]
        · simp [h3, List.filter_cons, hp]
      · simp only [hp, Bool.false_eq_true, if_false] at h
        by_cases ha : v.Autoscale = true
        · simp only [ha, if_true] at h
          obtain ⟨h1, h2, h3⟩ := ih _ _ _ _ h
          refine ⟨?_, ?_, ?_⟩
          · intro p hpm
            rcases List.mem_cons.mp hpm with rfl | hpm
            · exact hs
            · exact h1 p hpm
          · simp [h2, List.filter_cons, hp]
          · simp [h3, List.filter_cons, hp, ha]
        · simp only [ha, Bool.false_eq_true, if_false] at h
          obtain ⟨h1, h2, h3⟩ := ih _ _ _ _ h
          refine ⟨?_, ?_, ?_⟩
          · intro p hpm
            rcases List.mem_cons.mp hpm with rfl | hpm
            · exact hs
            · exact h1 p hpm
          · simp [h2, List.filter_cons, hp]
          · simp [h3, List.filter_cons, hp, ha]
    · simp [hs] at h

/-- When some pool is not running, the pool loop fails with the message of the first
such pool. -/
theorem checkNodePools_error (pools : List NodePool) :
    ∀ (pre ond : List NodePool), (∃ p ∈ pools, p.Status ≠ NodePool_RUNNING) →
      ∃ front v back, pools = front ++ v :: back ∧
        (∀ p ∈ front, p.Status = NodePool_RUNNING) ∧ v.Status ≠ NodePool_RUNNING ∧
        checkNodePools pools pre ond
          = .error ("detected not running node pool: name=" ++ v.Name ++ ", status="
              ++ v.Status.String) := by
  induction pools with
  | nil => intro pre ond h; simp at h
  | cons v rest ih =>
    intro pre ond h
    by_cases hs : v.Status = NodePool_RUNNING
    · have hrest : ∃ p ∈ rest, p.Status ≠ NodePool_RUNNING := by
        obtain ⟨p, hp, hps⟩ := h
        rcases List.mem_cons.mp hp with rfl | hp
        · exact absurd hs hps
        · exact ⟨p, hp, hps⟩
      have step : ∀ pre ond, ∃ front w back, rest = front ++ w :: back ∧
          (∀ p ∈ front, p.Status = NodePool_RUNNING) ∧ w.Status ≠ NodePool_RUNNING ∧
          checkNodePools rest pre ond
            = .error ("detected not running node pool: name=" ++ w.Name ++ ", status="
                ++ w.Status.String) := fun pre ond => ih pre ond hrest
      rw [checkNodePools]
      simp only [hs, ne_eq, not_true_eq_false, if_false]
      have lift : ∀ pre ond, ∃ front w back, v :: rest = front ++ w :: back ∧
          (∀ p ∈ front, p.Status = NodePool_RUNNING) ∧ w.Status ≠ NodePool_RUNNING ∧
          checkNodePools rest pre ond
            = .error ("detected not running node pool: name=" ++ w.Name ++ ", status="
                ++ w.Status.String) := by
        intro pre ond
        obtain ⟨front, w, back, e, hf, hw, hc⟩ := step pre ond
        refine ⟨v :: front, w, back, by simp [e], ?_, hw, hc⟩
        intro p hp
        rcases List.mem_cons.mp hp with rfl | hp
        · exact hs
        · exact hf p hp
      by_cases hp : v.Preemptible = true
      · simp only [hp, if_true]; exact lift _ _
      · simp only [hp, Bool.false_eq_true, if_false]
        by_cases ha : v.Autoscale = true
        · simp only [ha, if_true]; exact lift _ _
        · simp only [ha, Bool.false_eq_true, if_false]; exact lift _ _
    · refine ⟨[], v, rest, rfl, by simp, hs, ?_⟩
      rw [checkNodePools]
      simp [hs]

/-- A value in the range of a Go `int` is held as it is. -/
theorem goInt_of_range (x : Int) (h1 : -9223372036854775808 ≤ x)
    (h2 : x < 9223372036854775808) : goInt x = x := by
  unfold goInt
  rw [Int.emod_eq_of_lt (by omega) (by omega)]
  omega

/-- Reducing twice is reducing once. -/
theorem goInt_goInt (x : Int) : goInt (goInt x) = goInt x := by
  unfold goInt
  omega

/-- A sum of Go `int` values is the reduced mathematical sum. -/
theorem goInt_add_goInt (x y : Int) : goInt (x + goInt y) = goInt (x + y) := by
  unfold goInt
  omega

/-- The other summand may be reduced as well. -/
theorem goInt_goInt_add (x y : Int) : goInt (goInt x + y) = goInt (x + y) := by
  unfold goInt
  omega

/-- The preemptible loop adds the pool floors to the count, in Go `int` arithmetic, and
appends, pool by pool, the nodes filed under the pool name. -/
theorem collectPreemptible_eq (m : NodesByPool) (pools : List NodePool) :
    ∀ (c : Int) (l : List Node), goInt c = c →
      collectPreemptible m pools (c, l)
        = (goInt (c + (pools.map fun p =>
              p.MinNodeCount * (p.InstanceGroupURLs.length : Int)).sum),
           l ++ pools.flatMap fun p => m.get p.Name) := by
  induction pools with
  | nil => intro c l hc; simp [collectPreemptible, hc]
  | cons v rest ih =>
    intro c l hc
    rw [collectPreemptible, ih _ _ (goInt_goInt _)]
    have hsum : goInt (goInt (c + goInt (v.MinNodeCount * (v.InstanceGroupURLs.length : Int)))
          + (rest.map fun p => p.MinNodeCount * (p.InstanceGroupURLs.length : Int)).sum)
        = goInt (c + ((v :: rest).map fun p =>
            p.MinNodeCount * (p.InstanceGroupURLs.length : Int)).sum) := by
      simp only [List.map_cons, List.sum_cons]
      unfold goInt
      omega
    rw [hsum]
    by_cases hl : (NodesByPool.get m v.Name).length > 0
    · simp [hl, List.flatMap_cons]
    · have hnil : NodesByPool.get m v.Name = [] := by
        cases hg : NodesByPool.get m v.Name with
        | nil => rfl
        | cons a t => simp [hg] at hl
      simp [hnil, List.flatMap_cons]

/-- The on-demand loop appends, pool by pool, the nodes filed under the name of every
pool that has `Autoscale` set. -/
theorem collectOndemandAutoscale_eq (m : NodesByPool) (pools : List NodePool) :
    ∀ (l : List Node),
      collectOndemandAutoscale m pools l
        = l ++ (pools.filter fun p => p.Autoscale).flatMap fun p => m.get p.Name := by
  induction pools with
  | nil => intro l; simp [collectOndemandAutoscale]
  | cons v rest ih =>
    intro l
    rw [collectOndemandAutoscale]
    by_cases ha : v.Autoscale = true
    · by_cases hl : (NodesByPool.get m v.Name).length > 0
      · simp [ha, hl, ih, List.filter_cons, List.flatMap_cons]
      · have hnil : NodesByPool.get m v.Name = [] := by
          cases hg : NodesByPool.get m v.Name with
          | nil => rfl
          | cons a t => simp [hg] at hl
        simp [ha, hnil, ih, List.filter_cons, List.flatMap_cons]
    · simp [ha, ih, List.filter_cons]

/-- The oldest-node loop started with a candidate: it keeps the candidate when no later
node is strictly older, otherwise it ends on the first node that is strictly older than
everything before it and at least as old as everything after it. -/
theorem selectOldest_some (l : List Node) :
    ∀ cur : Node, ∃ t, selectOldest l (some cur) = some t ∧
      ((t = cur ∧ ∀ x ∈ l, x.Age ≤ cur.Age) ∨
       (∃ pre post, l = pre ++ t :: post ∧ cur.Age < t.Age ∧
          (∀ x ∈ pre, x.Age < t.Age) ∧ (∀ x ∈ post, x.Age ≤ t.Age))) := by
  induction l with
  | nil => intro cur; exact ⟨cur, by simp [selectOldest], Or.inl ⟨rfl, by simp⟩⟩
  | cons n rest ih =>
    intro cur
    rw [selectOldest]
    by_cases hlt : cur.Age < n.Age
    · simp only [hlt, if_true]
      obtain ⟨t, ht, hcase⟩ := ih n
      refine ⟨t, ht, Or.inr ?_⟩
      rcases hcase with ⟨rfl, hall⟩ | ⟨pre, post, e, hnt, hpre, hpost⟩
      · exact ⟨[], rest, rfl, hlt, by simp, hall⟩
      · refine ⟨n :: pre, post, by simp [e], lt_trans hlt hnt, ?_, hpost⟩
        intro x hx
        rcases List.mem_cons.mp hx with rfl | hx
        · exact hnt
        · exact hpre x hx
    · simp only [hlt, if_false]
      obtain ⟨t, ht, hcase⟩ := ih cur
      refine ⟨t, ht, ?_⟩
      rcases hcase with ⟨rfl, hall⟩ | ⟨pre, post, e, hct, hpre, hpost⟩
      · refine Or.inl ⟨rfl, ?_⟩
        intro x hx
        rcases List.mem_cons.mp hx with rfl | hx
        · exact not_lt.mp hlt
        · exact hall x hx
      · refine Or.inr ⟨n :: pre, post, by simp [e], hct, ?_, hpost⟩
        intro x hx
        rcases List.mem_cons.mp hx with rfl | hx
        · exact lt_of_le_of_lt (not_lt.mp hlt) hct
        · exact hpre x hx

/-- On a non-empty list the oldest-node loop returns the first node of maximal age. -/
theorem selectOldest_first (l : List Node) (hl : l ≠ []) :
    ∃ t pre post, selectOldest l none = some t ∧ l = pre ++ t :: post ∧
      (∀ x ∈ pre, x.Age < t.Age) ∧ (∀ x ∈ post, x.Age ≤ t.Age) := by
  cases l with
  | nil => exact absurd rfl hl
  | cons a rest =>
    obtain ⟨t, ht, hcase⟩ := selectOldest_some rest a
    rcases hcase with ⟨rfl, hall⟩ | ⟨pre, post, e, hat, hpre, hpost⟩
    · exact ⟨t, [], rest, by simpa [selectOldest] using ht, rfl, by simp, hall⟩
    · refine ⟨t, a :: pre, post, by simpa [selectOldest] using ht, by simp [e], ?_, hpost⟩
      intro x hx
      rcases List.mem_cons.mp hx with rfl | hx
      · exact hat
      · exact hpre x hx

/-- The fewest-pods loop started with a candidate: it keeps the candidate when no later
node has strictly fewer pods, otherwise it ends on the first node with strictly fewer
pods than everything before it and no more pods than anything after it. -/
theorem selectFewestPods_some (l : List Node) :
    ∀ cur : Node, ∃ t, selectFewestPods l (some cur) = some t ∧
      ((t = cur ∧ ∀ x ∈ l, cur.Pods.length ≤ x.Pods.length) ∨
       (∃ pre post, l = pre ++ t :: post ∧ t.Pods.length < cur.Pods.length ∧
          (∀ x ∈ pre, t.Pods.length < x.Pods.length) ∧
          (∀ x ∈ post, t.Pods.length ≤ x.Pods.length))) := by
  induction l with
  | nil => intro cur; exact ⟨cur, by simp [selectFewestPods], Or.inl ⟨rfl, by simp⟩⟩
  | cons n rest ih =>
    intro cur
    rw [selectFewestPods]
    by_cases hlt : cur.Pods.length > n.Pods.length
    · simp only [hlt, if_true]
      obtain ⟨t, ht, hcase⟩ := ih n
      refine ⟨t, ht, Or.inr ?_⟩
      rcases hcase with ⟨rfl, hall⟩ | ⟨pre, post, e, hnt, hpre, hpost⟩
      · exact ⟨[], rest, rfl, hlt, by simp, hall⟩
      · refine ⟨n :: pre, post, by simp [e], lt_trans hnt hlt, ?_, hpost⟩
        intro x hx
        rcases List.mem_cons.mp hx with rfl | hx
        · exact hnt
        · exact hpre x hx
    · simp only [hlt, if_false]
      obtain ⟨t, ht, hcase⟩ := ih cur
      refine ⟨t, ht, ?_⟩
      rcases hcase with ⟨rfl, hall⟩ | ⟨pre, post, e, hct, hpre, hpost⟩
      · refine Or.inl ⟨rfl, ?_⟩
        intro x hx
        rcases List.mem_cons.mp hx with rfl | hx
        · exact not_lt.mp hlt
        · exact hall x hx
      · refine Or.inr ⟨n :: pre, post, by simp [e], hct, ?_, hpost⟩
        intro x hx
        rcases List.mem_cons.mp hx with rfl | hx
        · exact lt_of_lt_of_le hct (not_lt.mp hlt)
        · exact hpre x hx

/-- On a non-empty list the fewest-pods loop returns the first node with the least
number of pods. -/
theorem selectFewestPods_first (l : List Node) (hl : l ≠ []) :
    ∃ t pre post, selectFewestPods l none = some t ∧ l = pre ++ t :: post ∧
      (∀ x ∈ pre, t.Pods.length < x.Pods.length) ∧
      (∀ x ∈ post, t.Pods.length ≤ x.Pods.length) := by
  cases l with
  | nil => exact absurd rfl hl
  | cons a rest =>
    obtain ⟨t, ht, hcase⟩ := selectFewestPods_some rest a
    rcases hcase with ⟨rfl, hall⟩ | ⟨pre, post, e, hat, hpre, hpost⟩
    · exact ⟨t, [], rest, by simpa [selectFewestPods] using ht, rfl, by simp, hall⟩
    · refine ⟨t, a :: pre, post, by simpa [selectFewestPods] using ht, by simp [e], ?_,
        hpost⟩
      intro x hx
      rcases List.mem_cons.mp hx with rfl | hx
      · exact hat
      · exact hpre x hx

/-- On running pools the pool loop succeeds. -/
theorem checkNodePools_of_running (pools : List NodePool)
    (h : ∀ p ∈ pools, p.Status = NodePool_RUNNING) (pre ond : List NodePool) :
    checkNodePools pools pre ond
      = .ok (pre ++ pools.filter (fun p => p.Preemptible),
             ond ++ pools.filter (fun p => !p.Preemptible && p.Autoscale)) := by
  cases hc : checkNodePools pools pre ond with
  | ok ab =>
    obtain ⟨a, b⟩ := ab
    obtain ⟨_, h2, h3⟩ := checkNodePools_ok pools pre ond a b hc
    rw [h2, h3]
  | error e =>
    induction pools generalizing pre ond with
    | nil => simp [checkNodePools] at hc
    | cons v rest ih =>
      have hv : v.Status = NodePool_RUNNING := h v (List.mem_cons_self _ _)
      have hrest : ∀ p ∈ rest, p.Status = NodePool_RUNNING :=
        fun p hp => h p (List.mem_cons_of_mem _ hp)
      rw [checkNodePools] at hc
      simp only [hv, ne_eq, not_true_eq_false, if_false] at hc
      by_cases hp : v.Preemptible = true
      · simp only [hp, if_true] at hc
        exact absurd (ih hrest _ _ hc) (by simp)
      · simp only [hp, Bool.false_eq_true, if_false] at hc
        by_cases ha : v.Autoscale = true
        · simp only [ha, if_true] at hc
          exact absurd (ih hrest _ _ hc) (by simp)
        · simp only [ha, Bool.false_eq_true, if_false] at hc
          exact absurd (ih hrest _ _ hc) (by simp)

/-- On ready nodes the node loop succeeds. -/
theorem groupNodes_of_ready (nodes : List Node) :
    ∀ (m : NodesByPool), (∀ n ∈ nodes, n.Ready = true) →
      ∃ m', groupNodes nodes m = .ok m' := by
  induction nodes with
  | nil => intro m _; exact ⟨m, rfl⟩
  | cons v rest ih =>
    intro m h
    have hv : v.Ready = true := h v (List.mem_cons_self _ _)
    rw [groupNodes]
    simp only [hv, Bool.not_true, Bool.false_eq_true, if_false]
    exact ih _ fun n hn => h n (List.mem_cons_of_mem _ hn)

/-- The run of `Optimize` on a snapshot that passes the checks made before the capacity
check: the node list is grouped by pool name and the selection steps run on it. -/
theorem Optimize_of_checks (o : Optimizer) (cluster : Cluster) (nodes : List Node)
    (hc : o.client.GetCluster = .ok cluster) (hs : cluster.Status = Cluster_RUNNING)
    (hp : ∀ p ∈ cluster.NodePool, p.Status = NodePool_RUNNING)
    (hpre : preemptiblePools cluster ≠ [])
    (hn : o.client.GetNodeList = .ok nodes) (hne : nodes ≠ [])
    (hr : ∀ n ∈ nodes, n.Ready = true) :
    ∃ m : NodesByPool, (∀ name, m.get name = nodesOfPool nodes name) ∧
      Optimize o = selectAndRefresh o
        { o.result with Cluster := some cluster, ActiveNodes := nodes } cluster
        (preemptiblePools cluster) (ondemandAutoscalePools cluster) m := by
  obtain ⟨m, hm⟩ := groupNodes_of_ready nodes [] hr
  refine ⟨m, ?_, ?_⟩
  · intro name
    have := (groupNodes_ok nodes [] m hm).2 name
    simpa [NodesByPool.get, NodesByPool.get?] using this
  · have hck := checkNodePools_of_running cluster.NodePool hp [] []
    simp only [List.nil_append] at hck
    have hlen : ¬ (preemptiblePools cluster).length = 0 := by
      intro h0
      exact hpre (List.length_eq_zero.mp h0)
    have hlen2 : ¬ nodes.length = 0 := by
      intro h0
      exact hne (List.length_eq_zero.mp h0)
    unfold Optimize
    simp only [hc, hs, ne_eq, not_true_eq_false, if_false, hck, hn, hm]
    simp only [preemptiblePools] at hlen
    simp only [hlen, hlen2, if_false]
    rfl

/-- When `Optimize` gets past selection, the snapshot passed every check made before
the capacity check. -/
theorem Optimize_reach (o : Optimizer) (h : SelectionSucceeds o) :
    ∃ cluster nodes, o.client.GetCluster = .ok cluster ∧
      cluster.Status = Cluster_RUNNING ∧
      (∀ p ∈ cluster.NodePool, p.Status = NodePool_RUNNING) ∧
      preemptiblePools cluster ≠ [] ∧
      o.client.GetNodeList = .ok nodes ∧ nodes ≠ [] ∧
      (∀ n ∈ nodes, n.Ready = true) := by
  unfold SelectionSucceeds at h
  cases hc : o.client.GetCluster with
  | error e => simp [Optimize, hc] at h
  | ok cluster =>
    by_cases hs : cluster.Status = Cluster_RUNNING
    · cases hck : checkNodePools cluster.NodePool [] [] with
      | error e => simp [Optimize, hc, hs, hck] at h
      | ok ab =>
        obtain ⟨a, b⟩ := ab
        obtain ⟨h1, h2, h3⟩ := checkNodePools_ok _ _ _ _ _ hck
        simp only [List.nil_append] at h2 h3
        by_cases hlen : a.length = 0
        · simp [Optimize, hc, hs, hck, hlen] at h
        · cases hn : o.client.GetNodeList with
          | error e => simp [Optimize, hc, hs, hck, hlen, hn] at h
          | ok nodes =>
            by_cases hlen2 : nodes.length = 0
            · simp [Optimize, hc, hs, hck, hlen, hn, hlen2] at h
            · cases hg : groupNodes nodes [] with
              | error e => simp [Optimize, hc, hs, hck, hlen, hn, hlen2, hg] at h
              | ok m =>
                refine ⟨cluster, nodes, rfl, hs, h1, ?_, rfl, ?_,
                  (groupNodes_ok nodes [] m hg).1⟩
                · intro hnil
                  apply hlen
                  rw [h2]
                  simpa [preemptiblePools] using congrArg List.length hnil
                · intro hnil
                  exact hlen2 (by simp [hnil])
    · simp [Optimize, hc, hs] at h

/-- What the loop over the preemptible pools computes on the grouped node list. -/
theorem collectPreemptible_snapshot (cluster : Cluster) (nodes : List Node)
    (m : NodesByPool) (hm : ∀ name, m.get name = nodesOfPool nodes name) :
    collectPreemptible m (preemptiblePools cluster) (0, [])
      = (goFloor cluster, preemptibleNodesInOrder cluster nodes) := by
  rw [collectPreemptible_eq _ _ _ _ (by decide)]
  simp [goFloor, preemptibleFloor, preemptibleNodesInOrder, hm]

/-- What the loop over the autoscaled on-demand pools computes on the grouped node
list. -/
theorem collectOndemandAutoscale_snapshot (cluster : Cluster) (nodes : List Node)
    (m : NodesByPool) (hm : ∀ name, m.get name = nodesOfPool nodes name) :
    collectOndemandAutoscale m (ondemandAutoscalePools cluster) []
      = ondemandAutoscaleNodesInOrder cluster nodes := by
  rw [collectOndemandAutoscale_eq]
  have hf : (ondemandAutoscalePools cluster).filter (fun p => p.Autoscale)
      = ondemandAutoscalePools cluster := by
    rw [List.filter_eq_self]
    intro p hp
    simp only [ondemandAutoscalePools, List.mem_filter, Bool.and_eq_true] at hp
    exact hp.2.2
  simp [hf, ondemandAutoscaleNodesInOrder, hm]

/-- The capacity check fails: the selection steps stop with an error, call nothing and
have recorded the two counts. -/
theorem selectAndRefresh_short (o : Optimizer) (result : Result) (cluster : Cluster)
    (nodes : List Node) (m : NodesByPool)
    (hm : ∀ name, m.get name = nodesOfPool nodes name)
    (hlt : ((preemptibleNodesInOrder cluster nodes).length : Int)
      < max (goFloor cluster) o.option.MinimumPreemptibleNodeCount) :
    let run := selectAndRefresh o result cluster (preemptiblePools cluster)
      (ondemandAutoscalePools cluster) m
    run.err ≠ none ∧ run.refreshCalls = [] ∧
    run.result.PreemptibleNodeActualCount
      = ((preemptibleNodesInOrder cluster nodes).length : Int) ∧
    run.result.PreemptibleNodeMinimumCount
      = max (goFloor cluster) o.option.MinimumPreemptibleNodeCount := by
  intro run
  have hmax : (if goFloor cluster < o.option.MinimumPreemptibleNodeCount then
      o.option.MinimumPreemptibleNodeCount else goFloor cluster)
      = max (goFloor cluster) o.option.MinimumPreemptibleNodeCount := by
    by_cases h : goFloor cluster < o.option.MinimumPreemptibleNodeCount
    · simp [h, max_eq_right (le_of_lt h)]
    · simp [h, max_eq_left (not_lt.mp h)]
  have hrun : run = selectAndRefresh o result cluster (preemptiblePools cluster)
      (ondemandAutoscalePools cluster) m := rfl
  unfold selectAndRefresh at hrun
  simp only [collectPreemptible_snapshot cluster nodes m hm, hmax, hlt, if_true] at hrun
  rw [hrun]
  simp

/-- The capacity check passes: the selection steps record the two counts and the two
selected nodes, and hand the gated target list to the refresh step. -/
theorem selectAndRefresh_pass (o : Optimizer) (result : Result) (cluster : Cluster)
    (nodes : List Node) (m : NodesByPool)
    (hm : ∀ name, m.get name = nodesOfPool nodes name)
    (hge : ¬ ((preemptibleNodesInOrder cluster nodes).length : Int)
      < max (goFloor cluster) o.option.MinimumPreemptibleNodeCount) :
    ∃ R : Result,
      selectAndRefresh o result cluster (preemptiblePools cluster)
          (ondemandAutoscalePools cluster) m
        = refreshTargets o R
            (appendTarget
              (appendTarget [] (selectOldest (preemptibleNodesInOrder cluster nodes) none)
                o.option.OptimizePreemptibleNode)
              (selectFewestPods (ondemandAutoscaleNodesInOrder cluster nodes) none)
              o.option.OptimizeAutoscaleOndemandNode) ∧
      R.PreemptibleNodeActualCount
        = ((preemptibleNodesInOrder cluster nodes).length : Int) ∧
      R.PreemptibleNodeMinimumCount
        = max (goFloor cluster) o.option.MinimumPreemptibleNodeCount ∧
      R.TargetPreemptibleNode
        = (match selectOldest (preemptibleNodesInOrder cluster nodes) none with
            | none => result.TargetPreemptibleNode
            | some node => some node) ∧
      R.TargetOndemandAutoscaleNode
        = (match selectFewestPods (ondemandAutoscaleNodesInOrder cluster nodes) none with
            | none => result.TargetOndemandAutoscaleNode
            | some node => some node) := by
  have hmax : (if goFloor cluster < o.option.MinimumPreemptibleNodeCount then
      o.option.MinimumPreemptibleNodeCount else goFloor cluster)
      = max (goFloor cluster) o.option.MinimumPreemptibleNodeCount := by
    by_cases h : goFloor cluster < o.option.MinimumPreemptibleNodeCount
    · simp [h, max_eq_right (le_of_lt h)]
    · simp [h, max_eq_left (not_lt.mp h)]
  unfold selectAndRefresh
  simp only [collectPreemptible_snapshot cluster nodes m hm,
    collectOndemandAutoscale_snapshot cluster nodes m hm, hmax, hge, if_false]
  exact ⟨_, rfl, rfl, rfl, rfl, rfl⟩

/-- The refresh step: no call and no error on an empty target list, otherwise exactly one
`RefreshNodes` call with the target list, whose pods are recorded and whose error is
returned. The fields other than `EvictedPods` are left as they are. -/
theorem refreshTargets_spec (o : Optimizer) (R : Result) (T : List String) :
    let run := refreshTargets o R T
    (T = [] → run.refreshCalls = [] ∧ run.err = none ∧ run.result = R) ∧
    (T ≠ [] → run.refreshCalls = [T] ∧
      run.result = { R with EvictedPods := (o.client.RefreshNodes T).1 } ∧
      (run.err = none ↔ (o.client.RefreshNodes T).2 = none)) := by
  intro run
  have hrun : run = refreshTargets o R T := rfl
  unfold refreshTargets at hrun
  constructor
  · intro hT
    subst hT
    simp at hrun
    simp [hrun]
  · intro hT
    have hlen : ¬ T.length = 0 := fun h0 => hT (List.length_eq_zero.mp h0)
    simp only [hlen, if_false] at hrun
    cases he : (o.client.RefreshNodes T).2 with
    | none =>
      rw [hrun]
      simp [he]
    | some e =>
      rw [hrun]
      simp [he]

/-- Counting with the disjunction of two predicates that never hold together adds the
two counts. -/
theorem countP_or_of_disjoint {α : Type} (a b : α → Bool) (l : List α)
    (hd : ∀ x ∈ l, ¬ (a x = true ∧ b x = true)) :
    l.countP (fun x => a x || b x) = l.countP a + l.countP b := by
  induction l with
  | nil => simp
  | cons x rest ih =>
    have hrest : ∀ y ∈ rest, ¬ (a y = true ∧ b y = true) :=
      fun y hy => hd y (List.mem_cons_of_mem _ hy)
    have hx := hd x (List.mem_cons_self _ _)
    rw [List.countP_cons, List.countP_cons, List.countP_cons, ih hrest]
    cases ha : a x <;> cases hb : b x <;> simp [ha, hb] at hx ⊢ <;> omega

/-- Pools with distinct names: listing the nodes pool by pool lists every node that
belongs to one of the pools exactly once. -/
theorem length_flatMap_nodesOfPool (pools : List NodePool) (nodes : List Node)
    (hnd : (pools.map fun p => p.Name).Nodup) :
    (pools.flatMap fun p => nodesOfPool nodes p.Name).length
      = nodes.countP fun n => pools.any fun p => p.Name = n.NodePool := by
  induction pools with
  | nil => simp
  | cons p rest ih =>
    have hnd' : (rest.map fun p => p.Name).Nodup := (List.nodup_cons.mp hnd).2
    have hnot : p.Name ∉ rest.map fun p => p.Name := (List.nodup_cons.mp hnd).1
    rw [List.flatMap_cons, List.length_append, ih hnd']
    have hsplit : (fun n : Node => (p :: rest).any fun q => decide (q.Name = n.NodePool))
        = fun n => (fun n : Node => decide (p.Name = n.NodePool)) n
            || (fun n : Node => rest.any fun q => decide (q.Name = n.NodePool)) n := by
      funext n
      simp [List.any_cons]
    rw [hsplit, countP_or_of_disjoint]
    · congr 1
      simp only [nodesOfPool, List.countP_eq_length_filter]
      congr 1
      apply List.filter_congr
      intro n _
      by_cases h : n.NodePool = p.Name
      · simp [h]
      · have h2 : ¬ p.Name = n.NodePool := fun e => h e.symm
        simp [h, h2]
    · intro n _ hboth
      obtain ⟨h1, h2⟩ := hboth
      simp only [decide_eq_true_eq] at h1
      simp only [List.any_eq_true, decide_eq_true_eq] at h2
      obtain ⟨q, hq, hqn⟩ := h2
      apply hnot
      rw [h1, ← hqn]
      exact List.mem_map_of_mem _ hq

/-- With distinct preemptible pool names, the list of the nodes of the preemptible
pools is as long as the number of nodes that belong to a preemptible pool. -/
theorem length_preemptibleNodesInOrder (cluster : Cluster) (nodes : List Node)
    (hnd : ((preemptiblePools cluster).map fun p => p.Name).Nodup) :
    (preemptibleNodesInOrder cluster nodes).length = preemptibleNodeCount cluster nodes := by
  unfold preemptibleNodesInOrder preemptibleNodeCount
  exact length_flatMap_nodesOfPool _ nodes hnd

/-- A run in which selection does not succeed returns an error and calls nothing. -/
theorem not_SelectionSucceeds_iff (o : Optimizer) :
    ¬ SelectionSucceeds o ↔ (Optimize o).err ≠ none ∧ (Optimize o).refreshCalls = [] := by
  unfold SelectionSucceeds
  constructor
  · intro h
    exact ⟨fun he => h (Or.inl he), by_contra fun hr => h (Or.inr hr)⟩
  · rintro ⟨h1, h2⟩ (h | h)
    · exact h1 h
    · exact h h2

/-- On a snapshot that passes the checks made before the capacity check: selection
succeeds exactly when the capacity check passes, and the two counts are recorded. -/
theorem Optimize_capacity (o : Optimizer) (cluster : Cluster) (nodes : List Node)
    (hc : o.client.GetCluster = .ok cluster) (hs : cluster.Status = Cluster_RUNNING)
    (hp : ∀ p ∈ cluster.NodePool, p.Status = NodePool_RUNNING)
    (hpre : preemptiblePools cluster ≠ [])
    (hn : o.client.GetNodeList = .ok nodes) (hne : nodes ≠ [])
    (hr : ∀ n ∈ nodes, n.Ready = true) :
    (SelectionSucceeds o ↔
      ¬ ((preemptibleNodesInOrder cluster nodes).length : Int)
          < max (goFloor cluster) o.option.MinimumPreemptibleNodeCount) ∧
    (Optimize o).result.PreemptibleNodeActualCount
      = ((preemptibleNodesInOrder cluster nodes).length : Int) ∧
    (Optimize o).result.PreemptibleNodeMinimumCount
      = max (goFloor cluster) o.option.MinimumPreemptibleNodeCount := by
  obtain ⟨m, hm, hopt⟩ := Optimize_of_checks o cluster nodes hc hs hp hpre hn hne hr
  by_cases hlt : ((preemptibleNodesInOrder cluster nodes).length : Int)
      < max (goFloor cluster) o.option.MinimumPreemptibleNodeCount
  · obtain ⟨h1, h2, h3, h4⟩ := selectAndRefresh_short o _ cluster nodes m hm hlt
    rw [← hopt] at h1 h2 h3 h4
    refine ⟨?_, h3, h4⟩
    constructor
    · intro hsel
      exact absurd hsel ((not_SelectionSucceeds_iff o).mpr ⟨h1, h2⟩)
    · intro hnot
      exact absurd hlt hnot
  · obtain ⟨R, hrun, hR1, hR2, _, _⟩ := selectAndRefresh_pass o _ cluster nodes m hm hlt
    rw [← hopt] at hrun
    have hspec := refreshTargets_spec o R
      (appendTarget
        (appendTarget [] (selectOldest (preemptibleNodesInOrder cluster nodes) none)
          o.option.OptimizePreemptibleNode)
        (selectFewestPods (ondemandAutoscaleNodesInOrder cluster nodes) none)
        o.option.OptimizeAutoscaleOndemandNode)
    rw [← hrun] at hspec
    obtain ⟨hnil, hcons⟩ := hspec
    by_cases hT : appendTarget
        (appendTarget [] (selectOldest (preemptibleNodesInOrder cluster nodes) none)
          o.option.OptimizePreemptibleNode)
        (selectFewestPods (ondemandAutoscaleNodesInOrder cluster nodes) none)
        o.option.OptimizeAutoscaleOndemandNode = []
    · obtain ⟨_, he, hres⟩ := hnil hT
      refine ⟨⟨fun _ => hlt, fun _ => Or.inl he⟩, ?_, ?_⟩
      · rw [hres, hR1]
      · rw [hres, hR2]
    · obtain ⟨hcalls, hres, _⟩ := hcons hT
      refine ⟨⟨fun _ => hlt, fun _ => Or.inr (by rw [hcalls]; simp)⟩, ?_, ?_⟩
      · rw [hres]; exact hR1
      · rw [hres]; exact hR2

/-- C1 (as amended). If `Optimize` invokes `RefreshNodes`, then the cluster is RUNNING,
every node pool is RUNNING, a preemptible pool exists, every node of the fetched list is
Ready, and the number of nodes of the preemptible pools, a node counted once for each
preemptible pool that bears its pool name, is at least `max(F64, M)`, where `F64` is the
sum of `MinNodeCount * len(InstanceGroupURLs)` as Go computes it in 64-bit `int` and `M`
is `MinimumPreemptibleNodeCount`; with distinct preemptible pool names that number is the
number of nodes belonging to preemptible pools, and when the sum `F` lies in the 64-bit
range `F64` is `F`. A node list with a not-Ready node makes `Optimize` return an error
without calling `RefreshNodes`. -/
theorem C1_refresh_requires_invariants (o : Optimizer) :
    ((Optimize o).refreshCalls ≠ [] →
      ∃ cluster nodes, o.client.GetCluster = .ok cluster ∧
        o.client.GetNodeList = .ok nodes ∧
        cluster.Status = Cluster_RUNNING ∧
        (∀ p ∈ cluster.NodePool, p.Status = NodePool_RUNNING) ∧
        (∃ p ∈ cluster.NodePool, p.Preemptible = true) ∧
        (∀ n ∈ nodes, n.Ready = true) ∧
        max (goFloor cluster) o.option.MinimumPreemptibleNodeCount
          ≤ ((preemptibleNodesInOrder cluster nodes).length : Int) ∧
        (((preemptiblePools cluster).map fun p => p.Name).Nodup →
          max (goFloor cluster) o.option.MinimumPreemptibleNodeCount
            ≤ (preemptibleNodeCount cluster nodes : Int)) ∧
        (-9223372036854775808 ≤ preemptibleFloor cluster →
          preemptibleFloor cluster < 9223372036854775808 →
          max (preemptibleFloor cluster) o.option.MinimumPreemptibleNodeCount
            ≤ ((preemptibleNodesInOrder cluster nodes).length : Int))) ∧
    (∀ nodes, o.client.GetNodeList = .ok nodes → (∃ n ∈ nodes, n.Ready = false) →
      (Optimize o).err ≠ none ∧ (Optimize o).refreshCalls = []) := by
  constructor
  · intro hcall
    have hsel : SelectionSucceeds o := Or.inr hcall
    obtain ⟨cluster, nodes, hc, hs, hp, hpre, hn, hne, hr⟩ := Optimize_reach o hsel
    have hcap := (Optimize_capacity o cluster nodes hc hs hp hpre hn hne hr).1.mp hsel
    have hge := not_lt.mp hcap
    refine ⟨cluster, nodes, hc, hn, hs, hp, ?_, hr, hge, ?_, ?_⟩
    · obtain ⟨p, hpm⟩ := List.exists_mem_of_ne_nil _ hpre
      simp only [preemptiblePools, List.mem_filter] at hpm
      exact ⟨p, hpm.1, hpm.2⟩
    · intro hnd
      rw [← length_preemptibleNodesInOrder cluster nodes hnd]
      exact hge
    · intro h1 h2
      have hF : goFloor cluster = preemptibleFloor cluster := goInt_of_range _ h1 h2
      rw [← hF]
      exact hge
  · intro nodes hn hbad
    apply (not_SelectionSucceeds_iff o).mp
    intro hsel
    obtain ⟨_, nodes', _, _, _, _, hn', _, hr⟩ := Optimize_reach o hsel
    rw [hn] at hn'
    cases hn'
    obtain ⟨n, hnm, hnr⟩ := hbad
    have := hr n hnm
    simp [hnr] at this

/-- C1, a run showing the invariants on the scenario: `RefreshNodes` is invoked there, so
the invariants hold of its snapshot. -/
theorem C1_witness :
    (Optimize (scenarioOptimizer true true)).refreshCalls ≠ [] ∧
    ∃ cluster nodes, (scenarioOptimizer true true).client.GetCluster = .ok cluster ∧
      (scenarioOptimizer true true).client.GetNodeList = .ok nodes ∧
      cluster.Status = Cluster_RUNNING ∧
      (∀ p ∈ cluster.NodePool, p.Status = NodePool_RUNNING) ∧
      (∃ p ∈ cluster.NodePool, p.Preemptible = true) ∧
      (∀ n ∈ nodes, n.Ready = true) ∧
      max (goFloor cluster)
          (scenarioOptimizer true true).option.MinimumPreemptibleNodeCount
        ≤ ((preemptibleNodesInOrder cluster nodes).length : Int) ∧
      (((preemptiblePools cluster).map fun p => p.Name).Nodup →
        max (goFloor cluster)
            (scenarioOptimizer true true).option.MinimumPreemptibleNodeCount
          ≤ (preemptibleNodeCount cluster nodes : Int)) ∧
      (-9223372036854775808 ≤ preemptibleFloor cluster →
        preemptibleFloor cluster < 9223372036854775808 →
        max (preemptibleFloor cluster)
            (scenarioOptimizer true true).option.MinimumPreemptibleNodeCount
          ≤ ((preemptibleNodesInOrder cluster nodes).length : Int)) :=
  ⟨by decide, (C1_refresh_requires_invariants (scenarioOptimizer true true)).1 (by decide)⟩

/-- C1 as stated fails when the cluster response lists a preemptible pool twice:
`RefreshNodes` is invoked although only one node belongs to a preemptible pool and the
required minimum is two. -/
theorem C1_counterexample :
    twinOptimizer.client.GetCluster = .ok twinCluster ∧
    twinOptimizer.client.GetNodeList = .ok twinNodes ∧
    (Optimize twinOptimizer).refreshCalls = [["gke-c-spot-1"]] ∧
    (preemptibleNodeCount twinCluster twinNodes : Int) = 1 ∧
    max (preemptibleFloor twinCluster) twinOptimizer.option.MinimumPreemptibleNodeCount = 2 ∧
    ¬ (max (preemptibleFloor twinCluster) twinOptimizer.option.MinimumPreemptibleNodeCount
        ≤ (preemptibleNodeCount twinCluster twinNodes : Int)) := by
  refine ⟨rfl, rfl, by decide, by decide, by decide, by decide⟩

/-- C2 (as amended). For every cluster snapshot whose cluster status is RUNNING and in
which some node pool has a status other than RUNNING, `Optimize` fails with the
pool-not-running error, naming the first such pool in pool order, and never invokes
`RefreshNodes`. -/
theorem C2_pool_not_running (o : Optimizer) (cluster : Cluster)
    (hc : o.client.GetCluster = .ok cluster) (hs : cluster.Status = Cluster_RUNNING)
    (hbad : ∃ p ∈ cluster.NodePool, p.Status ≠ NodePool_RUNNING) :
    ∃ front v back, cluster.NodePool = front ++ v :: back ∧
      (∀ p ∈ front, p.Status = NodePool_RUNNING) ∧ v.Status ≠ NodePool_RUNNING ∧
      (Optimize o).err
        = some ("detected not running node pool: name=" ++ v.Name ++ ", status="
            ++ v.Status.String) ∧
      (Optimize o).refreshCalls = [] := by
  obtain ⟨front, v, back, e, hf, hv, hck⟩ := checkNodePools_error cluster.NodePool [] [] hbad
  refine ⟨front, v, back, e, hf, hv, ?_, ?_⟩
  · simp [Optimize, hc, hs, hck]
  · simp [Optimize, hc, hs, hck]

/-- C2, on a running cluster whose second pool is provisioning: the error names that
pool and nothing is refreshed. -/
theorem C2_witness :
    (Optimize provisioningOptimizer).err
      = some "detected not running node pool: name=extra, status=PROVISIONING" ∧
    ∃ front v back, provisioningCluster.NodePool = front ++ v :: back ∧
      (∀ p ∈ front, p.Status = NodePool_RUNNING) ∧ v.Status ≠ NodePool_RUNNING ∧
      (Optimize provisioningOptimizer).err
        = some ("detected not running node pool: name=" ++ v.Name ++ ", status="
            ++ v.Status.String) ∧
      (Optimize provisioningOptimizer).refreshCalls = [] :=
  ⟨by decide,
   C2_pool_not_running provisioningOptimizer provisioningCluster rfl rfl
     ⟨{ mkPool "extra" false true 1 ["ig-2"] with Status := NodePool_Status.PROVISIONING },
      by decide, by decide⟩⟩

/-- C2 as stated fails when the cluster itself is not RUNNING: a pool is not running,
yet the error is the cluster-status error, not the pool-not-running error. -/
theorem C2_counterexample :
    reconcilingOptimizer.client.GetCluster = .ok reconcilingCluster ∧
    (∃ p ∈ reconcilingCluster.NodePool, p.Status ≠ NodePool_RUNNING) ∧
    (Optimize reconcilingOptimizer).err
      = some "cluster status is not running: RECONCILING" ∧
    ¬ (∃ p ∈ reconcilingCluster.NodePool,
        (Optimize reconcilingOptimizer).err
          = some ("detected not running node pool: name=" ++ p.Name ++ ", status="
              ++ p.Status.String)) := by
  refine ⟨rfl, by decide, by decide, by decide⟩

/-- C3 (as amended). For every snapshot with a non-empty node list that passes the
earlier checks (cluster RUNNING, every pool RUNNING, a preemptible pool exists, every
node Ready), with `F64` the floor as Go computes it in 64-bit `int`, `M` the configured
minimum and `actual` the number of nodes of the preemptible pools, a node counted once for
each preemptible pool that bears its pool name: selection fails iff `actual < max(F64, M)`,
it succeeds when `actual = max(F64, M)`, the recorded minimum is `max(F64, M)` and the
recorded actual count is `actual`; with distinct preemptible pool names `actual` is the
number of nodes belonging to preemptible pools; and when the floor `F` lies in the 64-bit
range, `F64` is `F`, so that selection fails iff `actual < max(F, M)`. -/
theorem C3_capacity_check (o : Optimizer) (cluster : Cluster) (nodes : List Node)
    (hc : o.client.GetCluster = .ok cluster) (hs : cluster.Status = Cluster_RUNNING)
    (hp : ∀ p ∈ cluster.NodePool, p.Status = NodePool_RUNNING)
    (hpre : ∃ p ∈ cluster.NodePool, p.Preemptible = true)
    (hn : o.client.GetNodeList = .ok nodes) (hne : nodes ≠ [])
    (hr : ∀ n ∈ nodes, n.Ready = true) :
    (¬ SelectionSucceeds o ↔
      ((preemptibleNodesInOrder cluster nodes).length : Int)
        < max (goFloor cluster) o.option.MinimumPreemptibleNodeCount) ∧
    (((preemptibleNodesInOrder cluster nodes).length : Int)
        = max (goFloor cluster) o.option.MinimumPreemptibleNodeCount →
      SelectionSucceeds o) ∧
    (Optimize o).result.PreemptibleNodeMinimumCount
      = max (goFloor cluster) o.option.MinimumPreemptibleNodeCount ∧
    (Optimize o).result.PreemptibleNodeActualCount
      = ((preemptibleNodesInOrder cluster nodes).length : Int) ∧
    (((preemptiblePools cluster).map fun p => p.Name).Nodup →
      (preemptibleNodesInOrder cluster nodes).length = preemptibleNodeCount cluster nodes) ∧
    (-9223372036854775808 ≤ preemptibleFloor cluster →
      preemptibleFloor cluster < 9223372036854775808 →
      goFloor cluster = preemptibleFloor cluster ∧
      (¬ SelectionSucceeds o ↔
        ((preemptibleNodesInOrder cluster nodes).length : Int)
          < max (preemptibleFloor cluster) o.option.MinimumPreemptibleNodeCount)) := by
  have hpre' : preemptiblePools cluster ≠ [] := by
    obtain ⟨p, hpm, hpp⟩ := hpre
    intro hnil
    have : p ∈ preemptiblePools cluster := by
      simp only [preemptiblePools, List.mem_filter]
      exact ⟨hpm, hpp⟩
    rw [hnil] at this
    simp at this
  obtain ⟨h1, h2, h3⟩ := Optimize_capacity o cluster nodes hc hs hp hpre' hn hne hr
  have hiff : ¬ SelectionSucceeds o ↔
      ((preemptibleNodesInOrder cluster nodes).length : Int)
        < max (goFloor cluster) o.option.MinimumPreemptibleNodeCount := by
    rw [h1, not_not]
  refine ⟨hiff, ?_, h3, h2, length_preemptibleNodesInOrder cluster nodes, ?_⟩
  · intro heq
    rw [h1, heq]
    exact lt_irrefl _
  · intro hlo hhi
    have hF : goFloor cluster = preemptibleFloor cluster := goInt_of_range _ hlo hhi
    refine ⟨hF, ?_⟩
    rw [← hF]
    exact hiff

/-- C3, on the scenario: three preemptible nodes against `max(2, 0) = 2`, so selection
succeeds and the counts 2 and 3 are recorded. -/
theorem C3_witness :
    (Optimize (scenarioOptimizer true true)).result.PreemptibleNodeMinimumCount = 2 ∧
    (Optimize (scenarioOptimizer true true)).result.PreemptibleNodeActualCount = 3 ∧
    (¬ SelectionSucceeds (scenarioOptimizer true true) ↔
      ((preemptibleNodesInOrder scenarioCluster scenarioNodes).length : Int)
        < max (goFloor scenarioCluster)
            (scenarioOptimizer true true).option.MinimumPreemptibleNodeCount) :=
  ⟨by decide, by decide,
   (C3_capacity_check (scenarioOptimizer true true) scenarioCluster scenarioNodes rfl rfl
      (by decide) (by decide) rfl (by decide) (by decide)).1⟩

/-- C3 as stated fails in two ways. With an empty node list every listed check passes
and `actual = max(F, M) = 0`, yet selection fails ("node does not exist"). With a
preemptible pool listed twice the recorded actual count is 2 while one node belongs to a
preemptible pool. -/
theorem C3_counterexample :
    (idleOptimizer.client.GetCluster = .ok idleCluster ∧
      idleOptimizer.client.GetNodeList = .ok [] ∧
      idleCluster.Status = Cluster_RUNNING ∧
      (∀ p ∈ idleCluster.NodePool, p.Status = NodePool_RUNNING) ∧
      (∃ p ∈ idleCluster.NodePool, p.Preemptible = true) ∧
      (preemptibleNodeCount idleCluster [] : Int)
        = max (preemptibleFloor idleCluster)
            idleOptimizer.option.MinimumPreemptibleNodeCount ∧
      (Optimize idleOptimizer).err = some "node does not exist" ∧
      (Optimize idleOptimizer).refreshCalls = []) ∧
    (twinIdleOptimizer.client.GetCluster = .ok twinIdleCluster ∧
      twinIdleOptimizer.client.GetNodeList = .ok twinNodes ∧
      preemptibleNodeCount twinIdleCluster twinNodes = 1 ∧
      (Optimize twinIdleOptimizer).result.PreemptibleNodeActualCount = 2) := by
  refine ⟨⟨rfl, rfl, rfl, by decide, by decide, by decide, by decide, by decide⟩,
    rfl, rfl, by decide, by decide⟩

/-- The floor in 64-bit `int`, on the vast cluster: the sum `2^63` is held as `-2^63`,
the recorded minimum is `max(-2^63, 0) = 0`, and `RefreshNodes` is invoked with the one
node of the pool. -/
theorem vast_floor_wraps :
    preemptibleFloor vastCluster = 9223372036854775808 ∧
    goFloor vastCluster = -9223372036854775808 ∧
    (Optimize vastOptimizer).result.PreemptibleNodeMinimumCount = 0 ∧
    (Optimize vastOptimizer).result.PreemptibleNodeActualCount = 1 ∧
    (Optimize vastOptimizer).refreshCalls = [["gke-c-spot-1"]] := by
  refine ⟨by decide, by decide, by decide, by decide, by decide⟩

/-- The refresh step leaves the two recorded targets alone. -/
theorem refreshTargets_targets (o : Optimizer) (R : Result) (T : List String) :
    (refreshTargets o R T).result.TargetPreemptibleNode = R.TargetPreemptibleNode ∧
    (refreshTargets o R T).result.TargetOndemandAutoscaleNode
      = R.TargetOndemandAutoscaleNode := by
  obtain ⟨hnil, hcons⟩ := refreshTargets_spec o R T
  by_cases hT : T = []
  · rw [(hnil hT).2.2]
    exact ⟨rfl, rfl⟩
  · rw [(hcons hT).2.1]
    exact ⟨rfl, rfl⟩

/-- Appending a target is appending its gated name. -/
theorem appendTarget_eq (T : List String) (selected : Option Node) (enabled : Bool) :
    appendTarget T selected enabled = T ++ gatedName selected enabled := by
  cases selected with
  | none => simp [appendTarget, gatedName]
  | some node => cases enabled <;> simp [appendTarget, gatedName]

/-- A run in which selection succeeds ends in the refresh step, on the target list made
of the two selected nodes, after recording them. -/
theorem Optimize_selected (o : Optimizer) (cluster : Cluster) (nodes : List Node)
    (h : SelectionSucceeds o) (hc : o.client.GetCluster = .ok cluster)
    (hn : o.client.GetNodeList = .ok nodes) :
    ∃ R : Result,
      Optimize o = refreshTargets o R
        (gatedName (selectOldest (preemptibleNodesInOrder cluster nodes) none)
            o.option.OptimizePreemptibleNode
          ++ gatedName (selectFewestPods (ondemandAutoscaleNodesInOrder cluster nodes) none)
            o.option.OptimizeAutoscaleOndemandNode) ∧
      R.TargetPreemptibleNode
        = (match selectOldest (preemptibleNodesInOrder cluster nodes) none with
            | none => o.result.TargetPreemptibleNode
            | some node => some node) ∧
      R.TargetOndemandAutoscaleNode
        = (match selectFewestPods (ondemandAutoscaleNodesInOrder cluster nodes) none with
            | none => o.result.TargetOndemandAutoscaleNode
            | some node => some node) := by
  obtain ⟨cluster', nodes', hc', hs, hp, hpre, hn', hne, hr⟩ := Optimize_reach o h
  rw [hc] at hc'
  rw [hn] at hn'
  cases hc'
  cases hn'
  obtain ⟨m, hm, hopt⟩ := Optimize_of_checks o cluster nodes hc hs hp hpre hn hne hr
  have hcap := (Optimize_capacity o cluster nodes hc hs hp hpre hn hne hr).1.mp h
  obtain ⟨R, hrun, _, _, hR3, hR4⟩ := selectAndRefresh_pass o _ cluster nodes m hm hcap
  rw [← hopt, appendTarget_eq, appendTarget_eq, List.nil_append] at hrun
  exact ⟨R, hrun, hR3, hR4⟩

/-- C4. For every snapshot on which selection succeeds with a non-empty list of
preemptible nodes (the nodes of the preemptible pools, in pool order then node-list
order), `TargetPreemptibleNode` is a member of that list, every member before it is
strictly younger and every member after it is at most as old: it is the first member of
maximal `Age`. -/
theorem C4_oldest_preemptible_first (o : Optimizer) (cluster : Cluster)
    (nodes : List Node) (h : SelectionSucceeds o)
    (hc : o.client.GetCluster = .ok cluster) (hn : o.client.GetNodeList = .ok nodes)
    (hne : preemptibleNodesInOrder cluster nodes ≠ []) :
    ∃ t pre post, (Optimize o).result.TargetPreemptibleNode = some t ∧
      preemptibleNodesInOrder cluster nodes = pre ++ t :: post ∧
      (∀ x ∈ pre, x.Age < t.Age) ∧ (∀ x ∈ post, x.Age ≤ t.Age) := by
  obtain ⟨R, hrun, hR, _⟩ := Optimize_selected o cluster nodes h hc hn
  obtain ⟨t, pre, post, hsel, hsplit, hpre, hpost⟩ := selectOldest_first _ hne
  refine ⟨t, pre, post, ?_, hsplit, hpre, hpost⟩
  rw [hrun, (refreshTargets_targets o R _).1, hR, hsel]

/-- C4, on the scenario (ages 1h, 5h, 10h, one preemptible pool with `MinNodeCount` 2 and
one instance group, minimum 0): the 10h node is selected and, with only the preemptible
flag set, it is the sole refresh target. -/
theorem C4_witness :
    (Optimize (scenarioOptimizer true false)).result.TargetPreemptibleNode
      = some scenarioOldest ∧
    scenarioOldest.Age = 10 * hour ∧
    (Optimize (scenarioOptimizer true false)).refreshCalls = [["gke-c-spot-3"]] ∧
    ∃ t pre post,
      (Optimize (scenarioOptimizer true false)).result.TargetPreemptibleNode = some t ∧
      preemptibleNodesInOrder scenarioCluster scenarioNodes = pre ++ t :: post ∧
      (∀ x ∈ pre, x.Age < t.Age) ∧ (∀ x ∈ post, x.Age ≤ t.Age) :=
  ⟨by decide, by decide, by decide,
   C4_oldest_preemptible_first (scenarioOptimizer true false) scenarioCluster
     scenarioNodes (Or.inl (by decide)) rfl rfl (by decide)⟩

/-- C5. For every snapshot on which selection succeeds with a non-empty list of
autoscaled on-demand nodes (the nodes of the pools that are not preemptible and have
`Autoscale` set, in pool order then node-list order), `TargetOndemandAutoscaleNode` is a
member of that list, every member before it has strictly more pods and every member
after it has at least as many: it is the first member with the fewest bound pods. -/
theorem C5_fewest_pods_first (o : Optimizer) (cluster : Cluster)
    (nodes : List Node) (h : SelectionSucceeds o)
    (hc : o.client.GetCluster = .ok cluster) (hn : o.client.GetNodeList = .ok nodes)
    (hne : ondemandAutoscaleNodesInOrder cluster nodes ≠ []) :
    ∃ t pre post, (Optimize o).result.TargetOndemandAutoscaleNode = some t ∧
      ondemandAutoscaleNodesInOrder cluster nodes = pre ++ t :: post ∧
      (∀ x ∈ pre, t.Pods.length < x.Pods.length) ∧
      (∀ x ∈ post, t.Pods.length ≤ x.Pods.length) := by
  obtain ⟨R, hrun, _, hR⟩ := Optimize_selected o cluster nodes h hc hn
  obtain ⟨t, pre, post, hsel, hsplit, hpre, hpost⟩ := selectFewestPods_first _ hne
  refine ⟨t, pre, post, ?_, hsplit, hpre, hpost⟩
  rw [hrun, (refreshTargets_targets o R _).2, hR, hsel]

/-- C5, on the scenario (on-demand autoscaled nodes with 4, 1 and 7 pods): the node with
one pod is selected. -/
theorem C5_witness :
    (Optimize (scenarioOptimizer false true)).result.TargetOndemandAutoscaleNode
      = some scenarioFewest ∧
    scenarioFewest.Pods.length = 1 ∧
    (ondemandAutoscaleNodesInOrder scenarioCluster scenarioNodes).map
      (fun n => n.Pods.length) = [4, 1, 7] ∧
    ∃ t pre post,
      (Optimize (scenarioOptimizer false true)).result.TargetOndemandAutoscaleNode
        = some t ∧
      ondemandAutoscaleNodesInOrder scenarioCluster scenarioNodes = pre ++ t :: post ∧
      (∀ x ∈ pre, t.Pods.length < x.Pods.length) ∧
      (∀ x ∈ post, t.Pods.length ≤ x.Pods.length) :=
  ⟨by decide, by decide, by decide,
   C5_fewest_pods_first (scenarioOptimizer false true) scenarioCluster
     scenarioNodes (Or.inl (by decide)) rfl rfl (by decide)⟩

/-- C6. For every successful selection, with `TargetPreemptibleNode` taken when a
preemptible node exists and `TargetOndemandAutoscaleNode` when an autoscaled on-demand
node exists, the target list is the name of the first if `OptimizePreemptibleNode` is
set, followed by the name of the second if `OptimizeAutoscaleOndemandNode` is set: at
most two entries, preemptible first. A selected node is recorded whatever its flag (and
a target field stays as it was when nothing is selected for it). `RefreshNodes` is
invoked once, with exactly this list, when the list is non-empty; when it is empty
`Optimize` returns success and invokes nothing. -/
theorem C6_target_list (o : Optimizer) (cluster : Cluster) (nodes : List Node)
    (h : SelectionSucceeds o) (hc : o.client.GetCluster = .ok cluster)
    (hn : o.client.GetNodeList = .ok nodes) :
    let run := Optimize o
    let targets :=
      gatedName
          (if preemptibleNodesInOrder cluster nodes = [] then none
            else run.result.TargetPreemptibleNode)
          o.option.OptimizePreemptibleNode
        ++ gatedName
          (if ondemandAutoscaleNodesInOrder cluster nodes = [] then none
            else run.result.TargetOndemandAutoscaleNode)
          o.option.OptimizeAutoscaleOndemandNode
    targets.length ≤ 2 ∧
    (preemptibleNodesInOrder cluster nodes ≠ [] →
      run.result.TargetPreemptibleNode ≠ none) ∧
    (ondemandAutoscaleNodesInOrder cluster nodes ≠ [] →
      run.result.TargetOndemandAutoscaleNode ≠ none) ∧
    (preemptibleNodesInOrder cluster nodes = [] →
      run.result.TargetPreemptibleNode = o.result.TargetPreemptibleNode) ∧
    (ondemandAutoscaleNodesInOrder cluster nodes = [] →
      run.result.TargetOndemandAutoscaleNode = o.result.TargetOndemandAutoscaleNode) ∧
    (targets ≠ [] → run.refreshCalls = [targets]) ∧
    (targets = [] → run.refreshCalls = [] ∧ run.err = none) := by
  intro run targets
  obtain ⟨R, hrun, hRP, hRO⟩ := Optimize_selected o cluster nodes h hc hn
  have hP : run.result.TargetPreemptibleNode = R.TargetPreemptibleNode := by
    show (Optimize o).result.TargetPreemptibleNode = _
    rw [hrun]; exact (refreshTargets_targets o R _).1
  have hO : run.result.TargetOndemandAutoscaleNode = R.TargetOndemandAutoscaleNode := by
    show (Optimize o).result.TargetOndemandAutoscaleNode = _
    rw [hrun]; exact (refreshTargets_targets o R _).2
  have hselP : (if preemptibleNodesInOrder cluster nodes = [] then none
      else run.result.TargetPreemptibleNode)
      = selectOldest (preemptibleNodesInOrder cluster nodes) none := by
    by_cases hnil : preemptibleNodesInOrder cluster nodes = []
    · simp [hnil, selectOldest]
    · obtain ⟨t, _, _, hsel, _⟩ := selectOldest_first _ hnil
      rw [if_neg hnil, hP, hRP, hsel]
  have hselO : (if ondemandAutoscaleNodesInOrder cluster nodes = [] then none
      else run.result.TargetOndemandAutoscaleNode)
      = selectFewestPods (ondemandAutoscaleNodesInOrder cluster nodes) none := by
    by_cases hnil : ondemandAutoscaleNodesInOrder cluster nodes = []
    · simp [hnil, selectFewestPods]
    · obtain ⟨t, _, _, hsel, _⟩ := selectFewestPods_first _ hnil
      rw [if_neg hnil, hO, hRO, hsel]
  have htargets : targets
      = gatedName (selectOldest (preemptibleNodesInOrder cluster nodes) none)
            o.option.OptimizePreemptibleNode
          ++ gatedName (selectFewestPods (ondemandAutoscaleNodesInOrder cluster nodes) none)
            o.option.OptimizeAutoscaleOndemandNode := by
    show gatedName _ _ ++ gatedName _ _ = _
    rw [hselP, hselO]
  have hlen : ∀ (s : Option Node) (b : Bool), (gatedName s b).length ≤ 1 := by
    intro s b
    cases s with
    | none => simp [gatedName]
    | some node => cases b <;> simp [gatedName]
  obtain ⟨hnil, hcons⟩ := refreshTargets_spec o R targets
  rw [htargets, ← hrun] at hnil hcons
  rw [← htargets] at hnil hcons
  refine ⟨?_, ?_, ?_, ?_, ?_, ?_, ?_⟩
  · rw [htargets, List.length_append]
    have h1 := hlen (selectOldest (preemptibleNodesInOrder cluster nodes) none)
      o.option.OptimizePreemptibleNode
    have h2 := hlen (selectFewestPods (ondemandAutoscaleNodesInOrder cluster nodes) none)
      o.option.OptimizeAutoscaleOndemandNode
    omega
  · intro hne
    obtain ⟨t, _, _, hsel, _⟩ := selectOldest_first _ hne
    rw [hP, hRP, hsel]
    simp
  · intro hne
    obtain ⟨t, _, _, hsel, _⟩ := selectFewestPods_first _ hne
    rw [hO, hRO, hsel]
    simp
  · intro hnil'
    rw [hP, hRP, hnil']
    simp [selectOldest]
  · intro hnil'
    rw [hO, hRO, hnil']
    simp [selectFewestPods]
  · intro hT
    exact (hcons hT).1
  · intro hT
    exact ⟨(hnil hT).1, (hnil hT).2.1⟩

/-- C6, on the scenario with the preemptible flag off and the on-demand flag on: the 10h
node is recorded as selected, and `RefreshNodes` is invoked once with the on-demand
target alone. -/
theorem C6_witness :
    (Optimize (scenarioOptimizer false true)).result.TargetPreemptibleNode
      = some scenarioOldest ∧
    (Optimize (scenarioOptimizer false true)).refreshCalls = [["gke-c-ondemand-2"]] ∧
    (Optimize (scenarioOptimizer true true)).refreshCalls
      = [["gke-c-spot-3", "gke-c-ondemand-2"]] ∧
    (Optimize (scenarioOptimizer false false)).refreshCalls = [] ∧
    (Optimize (scenarioOptimizer false false)).err = none ∧
    (gatedName
          (if preemptibleNodesInOrder scenarioCluster scenarioNodes = [] then none
            else (Optimize (scenarioOptimizer false true)).result.TargetPreemptibleNode)
          (scenarioOptimizer false true).option.OptimizePreemptibleNode
        ++ gatedName
          (if ondemandAutoscaleNodesInOrder scenarioCluster scenarioNodes = [] then none
            else (Optimize (scenarioOptimizer false true)).result.TargetOndemandAutoscaleNode)
          (scenarioOptimizer false true).option.OptimizeAutoscaleOndemandNode).length ≤ 2 :=
  ⟨by decide, by decide, by decide, by decide, by decide,
   (C6_target_list (scenarioOptimizer false true) scenarioCluster scenarioNodes
     (Or.inl (by decide)) rfl rfl).1⟩

/-! ### Eviction (`evictPods`) -/

theorem traced_evict {σ : Type} (api : KubeAPI σ) (ev : Eviction) (w : σ)
    (log : List Event) :
    (traced api).evict ev (w, log)
      = ((api.evict ev w).1, ((api.evict ev w).2, log ++ [Event.evict ev (api.evict ev w).1])) :=
  rfl

theorem traced_sleep {σ : Type} (api : KubeAPI σ) (n : Nat) (w : σ) (log : List Event) :
    (traced api).sleep n (w, log) = (api.sleep n w, log ++ [Event.sleep n]) :=
  rfl

/-- The retry loop against recorded services, entered at attempt `i` with `d = 3 - i`
attempts to go: it records `k ≤ d` attempts that hit the disruption budget, each with its
wait, then one last attempt; the pod is evicted when the last attempt succeeds, and the
loop fails when the last attempt returns another error or is attempt number 3. -/
theorem evictLoop_traced {σ : Type} (api : KubeAPI σ) (pod : Pod) (policy : String) :
    ∀ (d i : Nat), i + d = 3 → ∀ (w : σ) (log : List Event),
      ∃ (k : Nat) (r : Option String) (w' : σ) (res : Option String),
        evictLoop (traced api) pod policy i (w, log)
          = (res, (w', log ++ (retryEvents (evictionOf pod policy) k
              ++ [Event.evict (evictionOf pod policy) r]))) ∧
        k ≤ d ∧
        ((res = none ∧ r = none) ∨
         (∃ e, r = some e ∧ res ≠ none ∧ (e ≠ disruptionBudgetMessage ∨ k = d))) := by
  intro d
  induction d with
  | zero =>
    intro i hi w log
    have hi3 : i > 2 := by omega
    rw [evictLoop, traced_evict]
    cases hr : (api.evict (evictionOf pod policy) w).1 with
    | none =>
      exact ⟨0, none, (api.evict (evictionOf pod policy) w).2, none, rfl, le_refl _,
        Or.inl ⟨rfl, rfl⟩⟩
    | some e =>
      by_cases he : e = disruptionBudgetMessage
      · subst he
        simp only [ne_eq, not_true_eq_false, if_false, hi3, dite_true]
        exact ⟨0, some disruptionBudgetMessage, _, _, rfl, le_refl _,
          Or.inr ⟨_, rfl, by simp, Or.inr rfl⟩⟩
      · simp only [ne_eq, he, not_false_eq_true, if_true]
        exact ⟨0, some e, _, _, rfl, le_refl _, Or.inr ⟨_, rfl, by simp, Or.inl he⟩⟩
  | succ d ih =>
    intro i hi w log
    have hi3 : ¬ i > 2 := by omega
    rw [evictLoop, traced_evict]
    cases hr : (api.evict (evictionOf pod policy) w).1 with
    | none =>
      exact ⟨0, none, (api.evict (evictionOf pod policy) w).2, none, rfl, Nat.zero_le _,
        Or.inl ⟨rfl, rfl⟩⟩
    | some e =>
      by_cases he : e = disruptionBudgetMessage
      · subst he
        obtain ⟨k, r, w', res, hrun, hk, hcase⟩ :=
          ih (i + 1) (by omega) (api.sleep 30 (api.evict (evictionOf pod policy) w).2)
            (log ++ [Event.evict (evictionOf pod policy) (some disruptionBudgetMessage)]
              ++ [Event.sleep 30])
        simp only [ne_eq, not_true_eq_false, if_false, hi3, dite_false, traced_sleep]
        rw [hrun]
        refine ⟨k + 1, r, w', res, ?_, by omega, ?_⟩
        · simp [retryEvents]
        · rcases hcase with h | ⟨e', h1, h2, h3⟩
          · exact Or.inl h
          · refine Or.inr ⟨e', h1, h2, ?_⟩
            rcases h3 with h3 | h3
            · exact Or.inl h3
            · exact Or.inr (by omega)
      · simp only [ne_eq, he, not_false_eq_true, if_true]
        exact ⟨0, some e, _, _, rfl, Nat.zero_le _, Or.inr ⟨_, rfl, by simp, Or.inl he⟩⟩

/-- A run of `evictPods` against recorded services has the shape `EvictRun`: the pods
evicted so far grow by `evicted`, the trace by `trace`. -/
theorem evictPodsLoop_traced {σ : Type} (api : KubeAPI σ) (policy : String)
    (pods : List Pod) :
    ∀ (acc : List Pod) (w : σ) (log : List Event),
      ∃ (evicted : List Pod) (err : Option String) (w' : σ) (trace : List Event),
        evictPodsLoop (traced api) policy pods acc (w, log)
          = ((acc ++ evicted, err), (w', log ++ trace)) ∧
        EvictRun policy pods evicted err trace := by
  induction pods with
  | nil =>
    intro acc w log
    exact ⟨[], none, w, [], by simp [evictPodsLoop], EvictRun.done⟩
  | cons pod rest ih =>
    intro acc w log
    obtain ⟨k, r, w1, res, hrun, hk, hcase⟩ := evictLoop_traced api pod policy 2 1 rfl w log
    rw [evictPodsLoop, hrun]
    rcases hcase with ⟨hres, hr⟩ | ⟨e, hr, hres, he⟩
    · subst hres hr
      obtain ⟨evicted, err, w', trace, hrest, hshape⟩ :=
        ih (acc ++ [pod]) w1
          (log ++ (retryEvents (evictionOf pod policy) k
            ++ [Event.evict (evictionOf pod policy) none]))
      refine ⟨pod :: evicted, err, w', _, ?_, EvictRun.evicted pod rest evicted err trace k hk hshape⟩
      simp only [hrest]
      simp
    · cases res with
      | none => exact absurd rfl hres
      | some msg =>
        subst hr
        exact ⟨[], some msg, w1, _, by simp, EvictRun.failed pod rest k e msg hk he⟩

theorem evictResponses_append (ev : Eviction) (a b : List Event) :
    evictResponses ev (a ++ b) = evictResponses ev a ++ evictResponses ev b := by
  simp [evictResponses, List.filterMap_append]

theorem evictResponses_evict_cons (ev ev' : Eviction) (r : Option String)
    (t : List Event) :
    evictResponses ev (Event.evict ev' r :: t)
      = if ev' = ev then r :: evictResponses ev t else evictResponses ev t := by
  by_cases h : ev' = ev <;> simp [evictResponses, List.filterMap_cons, h]

theorem evictResponses_retryEvents (ev ev' : Eviction) (k : Nat) :
    evictResponses ev (retryEvents ev' k)
      = if ev' = ev then List.replicate k (some disruptionBudgetMessage) else [] := by
  induction k with
  | zero => simp [retryEvents, evictResponses]
  | succ k ih =>
    rw [retryEvents, evictResponses_evict_cons]
    have hs : evictResponses ev (Event.sleep 30 :: retryEvents ev' k)
        = evictResponses ev (retryEvents ev' k) := by
      simp [evictResponses, List.filterMap_cons]
    rw [hs, ih]
    by_cases h : ev' = ev <;> simp [h, List.replicate_succ]

/-- The responses one block of a run (the attempts on one pod, then the rest of the
trace) holds for an eviction request. -/
theorem evictResponses_block (ev ev' : Eviction) (k : Nat) (r : Option String)
    (t : List Event) :
    evictResponses ev (retryEvents ev' k ++ Event.evict ev' r :: t)
      = if ev' = ev then
          List.replicate k (some disruptionBudgetMessage) ++ r :: evictResponses ev t
        else evictResponses ev t := by
  rw [evictResponses_append, evictResponses_retryEvents, evictResponses_evict_cons]
  by_cases h : ev' = ev <;> simp [h]

/-- The retries record only disruption-budget violations. -/
theorem mem_retryEvents (ev ev' : Eviction) (e : String) (k : Nat)
    (hm : Event.evict ev (some e) ∈ retryEvents ev' k) : e = disruptionBudgetMessage := by
  induction k with
  | zero => simp [retryEvents] at hm
  | succ k ih =>
    simp only [retryEvents, List.mem_cons] at hm
    rcases hm with hm | hm | hm
    · cases hm; rfl
    · cases hm
    · exact ih hm

/-- A run that ends without error evicted every pod, in order. -/
theorem EvictRun.all_of_ok {policy : String} {pods evicted : List Pod}
    {err : Option String} {trace : List Event}
    (h : EvictRun policy pods evicted err trace) : err = none → evicted = pods := by
  induction h with
  | done => intro _; rfl
  | evicted pod rest evicted err trace k _ _ ih => intro he; rw [ih he]
  | failed pod rest k e msg _ _ => intro he; simp at he

/-- In a run that ends without error every eviction response is a success or the
disruption-budget violation. -/
theorem EvictRun.responses_of_ok {policy : String} {pods evicted : List Pod}
    {err : Option String} {trace : List Event}
    (h : EvictRun policy pods evicted err trace) :
    err = none → ∀ ev e, Event.evict ev (some e) ∈ trace → e = disruptionBudgetMessage := by
  induction h with
  | done => intro _ ev e hm; simp at hm
  | evicted pod rest evicted err trace k _ _ ih =>
    intro he ev e hm
    rcases List.mem_append.mp hm with hm | hm
    · exact mem_retryEvents _ _ _ _ hm
    · rcases List.mem_cons.mp hm with hm | hm
      · cases hm
      · exact ih he ev e hm
  | failed pod rest k e msg _ _ => intro he; simp at he

/-- A run makes at most three eviction calls per occurrence of a pod identity in the pod
list. -/
theorem EvictRun.attempts_le {policy : String} {pods evicted : List Pod}
    {err : Option String} {trace : List Event}
    (h : EvictRun policy pods evicted err trace) (ev : Eviction) :
    (evictResponses ev trace).length
      ≤ 3 * pods.countP (fun q => evictionOf q policy = ev) := by
  induction h with
  | done => simp [evictResponses]
  | evicted pod rest evicted err trace k hk _ ih =>
    rw [evictResponses_block, List.countP_cons]
    by_cases hev : evictionOf pod policy = ev
    · simp only [hev, if_true, List.length_append, List.length_replicate, List.length_cons,
        decide_True]
      omega
    · simp only [hev, if_false, decide_False]
      simpa using ih
  | failed pod rest k e msg hk _ =>
    rw [evictResponses_block, List.countP_cons]
    by_cases hev : evictionOf pod policy = ev
    · simp only [hev, if_true, List.length_append, List.length_replicate, List.length_cons,
        decide_True, evictResponses, List.filterMap_nil, List.length_nil]
      omega
    · simp [hev, evictResponses]

/-- In a run that ends without error a pod identity received at most two
disruption-budget violations per occurrence in the pod list. -/
theorem EvictRun.violations_le_of_ok {policy : String} {pods evicted : List Pod}
    {err : Option String} {trace : List Event}
    (h : EvictRun policy pods evicted err trace) (ev : Eviction) :
    err = none →
    (evictResponses ev trace).count (some disruptionBudgetMessage)
      ≤ 2 * pods.countP (fun q => evictionOf q policy = ev) := by
  induction h with
  | done => intro _; simp [evictResponses]
  | evicted pod rest evicted err trace k hk _ ih =>
    intro he
    have ih' := ih he
    rw [evictResponses_block, List.countP_cons]
    by_cases hev : evictionOf pod policy = ev
    · simp only [hev, if_true, List.count_append, List.count_replicate_self,
        decide_True]
      have hc : List.count (some disruptionBudgetMessage)
          (none :: evictResponses ev trace)
          = List.count (some disruptionBudgetMessage) (evictResponses ev trace) := by
        rw [List.count_cons]
        simp
      rw [hc]
      omega
    · simp only [hev, if_false, decide_False]
      simpa using ih'
  | failed pod rest k e msg _ _ => intro he; simp at he

/-- A pod identity is among the evicted pods exactly when its responses start with fewer
than three disruption-budget violations followed by a success. -/
theorem EvictRun.evicted_iff {policy : String} {pods evicted : List Pod}
    {err : Option String} {trace : List Event}
    (h : EvictRun policy pods evicted err trace) (ev : Eviction) :
    (∃ q ∈ evicted, evictionOf q policy = ev) ↔
      ∃ k, k < 3 ∧ ∃ rest, evictResponses ev trace
        = List.replicate k (some disruptionBudgetMessage) ++ none :: rest := by
  induction h with
  | done => simp [evictResponses]
  | evicted pod rest evicted err trace k hk _ ih =>
    rw [evictResponses_block]
    by_cases hev : evictionOf pod policy = ev
    · simp only [hev, if_true]
      constructor
      · intro _
        exact ⟨k, by omega, _, rfl⟩
      · intro _
        exact ⟨pod, List.mem_cons_self _ _, hev⟩
    · simp only [hev, if_false]
      rw [← ih]
      constructor
      · rintro ⟨q, hq, hqe⟩
        rcases List.mem_cons.mp hq with rfl | hq
        · exact absurd hqe hev
        · exact ⟨q, hq, hqe⟩
      · rintro ⟨q, hq, hqe⟩
        exact ⟨q, List.mem_cons_of_mem _ hq, hqe⟩
  | failed pod rest k e msg _ _ =>
    have hblock := evictResponses_block ev (evictionOf pod policy) k (some e) []
    constructor
    · rintro ⟨q, hq, _⟩
      simp at hq
    · rintro ⟨k', _, rest', hk'⟩
      have hmem : (none : Option String) ∈ evictResponses ev
          (retryEvents (evictionOf pod policy) k
            ++ [Event.evict (evictionOf pod policy) (some e)]) := by
        rw [hk']
        simp
      rw [hblock] at hmem
      by_cases hev : evictionOf pod policy = ev
      · simp only [hev, if_true, List.mem_append, List.mem_cons] at hmem
        rcases hmem with hmem | hmem | hmem
        · have := List.eq_of_mem_replicate hmem
          simp at this
        · simp at hmem
        · simp [evictResponses] at hmem
      · simp [hev, evictResponses] at hmem

/-- The responses of the rest of a trace are among the responses of the trace with a
block put in front. -/
theorem mem_evictResponses_block (ev ev' : Eviction) (k : Nat) (r r' : Option String)
    (t : List Event) (h : r ∈ evictResponses ev t) :
    r ∈ evictResponses ev (retryEvents ev' k ++ Event.evict ev' r' :: t) := by
  rw [evictResponses_block]
  by_cases hev : ev' = ev
  · simp only [hev, if_true, List.mem_append, List.mem_cons]
    exact Or.inr (Or.inr h)
  · simp only [hev, if_false]
    exact h

/-- When the responses for one pod identity are two disruption-budget violations and
then a success (or it was not called at all), and every call for another pod of the list
succeeded, the run ends without error. -/
theorem EvictRun.ok_of_twice {policy : String} {pods evicted : List Pod}
    {err : Option String} {trace : List Event}
    (h : EvictRun policy pods evicted err trace) (ev : Eviction) :
    (∀ q ∈ pods, evictionOf q policy ≠ ev →
      ∀ r ∈ evictResponses (evictionOf q policy) trace, r = none) →
    (evictResponses ev trace
        = [some disruptionBudgetMessage, some disruptionBudgetMessage, none]
      ∨ evictResponses ev trace = []) →
    err = none := by
  induction h with
  | done => intro _ _; rfl
  | evicted pod rest evicted err trace k hk _ ih =>
    intro hothers hresp
    have hothers' : ∀ q ∈ rest, evictionOf q policy ≠ ev →
        ∀ r ∈ evictResponses (evictionOf q policy) trace, r = none := by
      intro q hq hne r hr
      exact hothers q (List.mem_cons_of_mem _ hq) hne r
        (mem_evictResponses_block _ _ _ _ _ _ hr)
    rw [evictResponses_block] at hresp
    by_cases hev : evictionOf pod policy = ev
    · simp only [hev, if_true] at hresp
      rcases hresp with hresp | hresp
      · have hk3 : k = 0 ∨ k = 1 ∨ k = 2 := by omega
        rcases hk3 with rfl | rfl | rfl
        · simp at hresp
        · simp [List.replicate] at hresp
        · simp only [List.replicate, List.cons_append, List.nil_append, List.cons.injEq,
            true_and] at hresp
          exact ih hothers' (Or.inr hresp)
      · simp at hresp
    · simp only [hev, if_false] at hresp
      exact ih hothers' hresp
  | failed pod rest k e msg hk _ =>
    intro hothers hresp
    exfalso
    have hblock := evictResponses_block ev (evictionOf pod policy) k (some e) []
    by_cases hev : evictionOf pod policy = ev
    · rw [hblock] at hresp
      simp only [hev, if_true] at hresp
      rcases hresp with hresp | hresp
      · have hk3 : k = 0 ∨ k = 1 ∨ k = 2 := by omega
        rcases hk3 with rfl | rfl | rfl
        · simp [evictResponses] at hresp
        · simp [List.replicate, evictResponses] at hresp
        · simp [List.replicate, evictResponses] at hresp
      · simp at hresp
    · have hself := evictResponses_block (evictionOf pod policy) (evictionOf pod policy) k
        (some e) []
      have := hothers pod (List.mem_cons_self _ _) hev (some e) (by
        rw [hself]
        simp)
      simp at this

/-- A failing run of `evictPods` against recorded services stops at a pod `p`: the pods
before it were evicted, exactly as in the run on those pods alone, and the rest of the
trace is `k ≤ 2` retries on `p` and its failing attempt, which returned another error or
was the third. -/
theorem evictPodsLoop_fail {σ : Type} (api : KubeAPI σ) (policy : String)
    (pods : List Pod) :
    ∀ (acc : List Pod) (w : σ) (log : List Event),
      (evictPodsLoop (traced api) policy pods acc (w, log)).1.2 ≠ none →
      ∃ (pre : List Pod) (p : Pod) (post : List Pod) (k : Nat) (e : String),
        pods = pre ++ p :: post ∧
        (evictPodsLoop (traced api) policy pods acc (w, log)).1.1 = acc ++ pre ∧
        (evictPodsLoop (traced api) policy pre acc (w, log)).1 = (acc ++ pre, none) ∧
        (evictPodsLoop (traced api) policy pods acc (w, log)).2.2
          = (evictPodsLoop (traced api) policy pre acc (w, log)).2.2
            ++ (retryEvents (evictionOf p policy) k
              ++ [Event.evict (evictionOf p policy) (some e)]) ∧
        k ≤ 2 ∧ (e ≠ disruptionBudgetMessage ∨ k = 2) := by
  induction pods with
  | nil => intro acc w log h; simp [evictPodsLoop] at h
  | cons pod rest ih =>
    intro acc w log h
    obtain ⟨k, r, w1, res, hrun, hk, hcase⟩ := evictLoop_traced api pod policy 2 1 rfl w log
    rcases hcase with ⟨hres, hr⟩ | ⟨e, hr, hres, he⟩
    · subst hres hr
      have hstep : evictPodsLoop (traced api) policy (pod :: rest) acc (w, log)
          = evictPodsLoop (traced api) policy rest (acc ++ [pod])
              (w1, log ++ (retryEvents (evictionOf pod policy) k
                ++ [Event.evict (evictionOf pod policy) none])) := by
        rw [evictPodsLoop, hrun]
      rw [hstep] at h ⊢
      obtain ⟨pre, p, post, k', e, hsplit, hev, hpre, htrace, hk', he⟩ := ih _ _ _ h
      refine ⟨pod :: pre, p, post, k', e, by simp [hsplit], by simp [hev], ?_, ?_, hk', he⟩
      · have hstep' : evictPodsLoop (traced api) policy (pod :: pre) acc (w, log)
            = evictPodsLoop (traced api) policy pre (acc ++ [pod])
                (w1, log ++ (retryEvents (evictionOf pod policy) k
                  ++ [Event.evict (evictionOf pod policy) none])) := by
          rw [evictPodsLoop, hrun]
        rw [hstep', hpre]
        simp
      · have hstep' : evictPodsLoop (traced api) policy (pod :: pre) acc (w, log)
            = evictPodsLoop (traced api) policy pre (acc ++ [pod])
                (w1, log ++ (retryEvents (evictionOf pod policy) k
                  ++ [Event.evict (evictionOf pod policy) none])) := by
          rw [evictPodsLoop, hrun]
        rw [hstep', htrace]
    · cases res with
      | none => exact absurd rfl hres
      | some msg =>
        subst hr
        have hstep : evictPodsLoop (traced api) policy (pod :: rest) acc (w, log)
            = ((acc, some msg), (w1, log ++ (retryEvents (evictionOf pod policy) k
                ++ [Event.evict (evictionOf pod policy) (some e)]))) := by
          rw [evictPodsLoop, hrun]
        rw [hstep]
        exact ⟨[], pod, rest, k, e, rfl, by simp, by simp [evictPodsLoop],
          by simp [evictPodsLoop], hk, he⟩

/-- The run of `evictPods` against recorded services from an empty trace has the shape
`EvictRun`. -/
theorem evictPods_traced {σ : Type} (cli : client σ) (node : Node) (policy : String)
    (w : σ) :
    EvictRun policy node.Pods (cli.traced.evictPods node policy (w, [])).1.1
      (cli.traced.evictPods node policy (w, [])).1.2
      (cli.traced.evictPods node policy (w, [])).2.2 := by
  obtain ⟨evicted, err, w', trace, hrun, hshape⟩ :=
    evictPodsLoop_traced cli.api policy node.Pods [] w []
  have hrun' : cli.traced.evictPods node policy (w, [])
      = ((evicted, err), (w', trace)) := by
    simpa [client.evictPods, client.traced] using hrun
  rw [hrun']
  exact hshape

/-- C8. In a run of `evictPods` on a node, with the eviction calls recorded: a pod
identity receives at most three eviction calls per occurrence in `node.Pods`. A call that
returns an error other than the disruption-budget violation, or a third violation for a
pod listed once, makes `evictPods` return an error. When it returns an error it stopped at
a pod `p` of `node.Pods`: it returns exactly the pods before `p`, and its trace is the
trace of evicting those pods alone followed by at most two retries on `p` and the failing
attempt on `p` (another error, or the third violation), so no later pod is attempted. When
it returns no error it returns all of `node.Pods` in order. -/
theorem C8_evict_abort {σ : Type} (cli : client σ) (node : Node) (policy : String)
    (w : σ) :
    (∀ ev : Eviction,
      (evictResponses ev (cli.traced.evictPods node policy (w, [])).2.2).length
        ≤ 3 * node.Pods.countP (fun q => evictionOf q policy = ev)) ∧
    (∀ (ev : Eviction) (e : String),
      Event.evict ev (some e) ∈ (cli.traced.evictPods node policy (w, [])).2.2 →
      e ≠ disruptionBudgetMessage →
      (cli.traced.evictPods node policy (w, [])).1.2 ≠ none) ∧
    (∀ ev : Eviction,
      2 * node.Pods.countP (fun q => evictionOf q policy = ev)
        < (evictResponses ev (cli.traced.evictPods node policy (w, [])).2.2).count
            (some disruptionBudgetMessage) →
      (cli.traced.evictPods node policy (w, [])).1.2 ≠ none) ∧
    ((cli.traced.evictPods node policy (w, [])).1.2 ≠ none →
      ∃ (pre : List Pod) (p : Pod) (post : List Pod) (k : Nat) (e : String),
        node.Pods = pre ++ p :: post ∧
        (cli.traced.evictPods node policy (w, [])).1.1 = pre ∧
        (cli.traced.evictPods { node with Pods := pre } policy (w, [])).1 = (pre, none) ∧
        (cli.traced.evictPods node policy (w, [])).2.2
          = (cli.traced.evictPods { node with Pods := pre } policy (w, [])).2.2
            ++ (retryEvents (evictionOf p policy) k
              ++ [Event.evict (evictionOf p policy) (some e)]) ∧
        k ≤ 2 ∧ (e ≠ disruptionBudgetMessage ∨ k = 2)) ∧
    ((cli.traced.evictPods node policy (w, [])).1.2 = none →
      (cli.traced.evictPods node policy (w, [])).1.1 = node.Pods) := by
  have hshape := evictPods_traced cli node policy w
  refine ⟨fun ev => hshape.attempts_le ev, ?_, ?_, ?_, fun h => hshape.all_of_ok h⟩
  · intro ev e hmem hne herr
    exact hne (hshape.responses_of_ok herr ev e hmem)
  · intro ev hlt herr
    have := hshape.violations_le_of_ok ev herr
    omega
  · intro herr
    have hfail := evictPodsLoop_fail cli.api policy node.Pods [] w []
      (by simpa [client.evictPods, client.traced] using herr)
    obtain ⟨pre, p, post, k, e, hsplit, hev, hpre, htrace, hk, he⟩ := hfail
    refine ⟨pre, p, post, k, e, hsplit, ?_, ?_, ?_, hk, he⟩
    · simpa [client.evictPods, client.traced] using hev
    · simpa [client.evictPods, client.traced] using hpre
    · simpa [client.evictPods, client.traced] using htrace

/-! ### Refresh (`RefreshNode`, `RefreshNodes`) -/

/-- What cordoning or uncordoning a node records: the read of the node and, when the
flag has to change, the write of the requested flag. -/
theorem applyCordonOrUncordon_traced {σ : Type} (cli : client σ) (nodeName : String)
    (cordon : Bool) (s : σ × List Event) :
    ∃ Δ, (cli.traced.applyCordonOrUncordon nodeName cordon s).2.2 = s.2 ++ Δ ∧
      ((∃ e, Δ = [Event.nodesGet nodeName e]) ∨
       (∃ n e, Δ = [Event.nodesGet nodeName none, Event.nodesUpdate n cordon e])) := by
  obtain ⟨w, log⟩ := s
  cases h : cli.api.nodesGet nodeName w with
  | mk r w1 =>
    cases r with
    | error e =>
      refine ⟨[Event.nodesGet nodeName (some e)], ?_, Or.inl ⟨_, rfl⟩⟩
      simp [client.applyCordonOrUncordon, client.traced, traced, h, errorOf]
    | ok n =>
      by_cases hn : n.Unschedulable = cordon
      · refine ⟨[Event.nodesGet nodeName none], ?_, Or.inl ⟨_, rfl⟩⟩
        simp [client.applyCordonOrUncordon, client.traced, traced, h, errorOf, hn]
      · refine ⟨[Event.nodesGet nodeName none,
            Event.nodesUpdate n.Name cordon
              (cli.api.nodesUpdate { n with Unschedulable := cordon } w1).1],
          ?_, Or.inr ⟨_, _, rfl⟩⟩
        simp [client.applyCordonOrUncordon, client.traced, traced, h, errorOf, hn]

/-- The rollback of one node records only uncordon calls and keeps an error an error. -/
theorem rollbackNode_traced {σ : Type} (cli : client σ) (node : Node)
    (err : Option String) (s : σ × List Event) :
    (∃ Δ, (cli.traced.rollbackNode node err s).2.2 = s.2 ++ Δ ∧
      ∀ e ∈ Δ, e.isUncordon = true) ∧
    (err ≠ none → (cli.traced.rollbackNode node err s).1 ≠ none) := by
  obtain ⟨Δ, hΔ, hshape⟩ := applyCordonOrUncordon_traced cli node.Name false s
  have hstate : (cli.traced.rollbackNode node err s).2
      = (cli.traced.applyCordonOrUncordon node.Name false s).2 := by
    unfold client.rollbackNode client.uncordonNode
    split
    · next h => rw [h]
    · next h => rw [h]; cases err <;> rfl
  constructor
  · refine ⟨Δ, by rw [hstate, hΔ], ?_⟩
    intro e he
    rcases hshape with ⟨e', rfl⟩ | ⟨n, e', rfl⟩
    · simp only [List.mem_singleton] at he
      subst he
      rfl
    · simp only [List.mem_cons, List.mem_singleton, List.not_mem_nil, or_false] at he
      rcases he with rfl | rfl <;> rfl
  · intro herr
    unfold client.rollbackNode
    split
    · exact herr
    · cases err <;> simp

/-- The rollback loop records only uncordon calls and keeps an error an error. -/
theorem rollbackLoop_traced {σ : Type} (cli : client σ) (order : List (String × Node)) :
    ∀ (err : Option String) (s : σ × List Event),
      (∃ Δ, (cli.traced.rollbackLoop order err s).2.2 = s.2 ++ Δ ∧
        ∀ e ∈ Δ, e.isUncordon = true) ∧
      (err ≠ none → (cli.traced.rollbackLoop order err s).1 ≠ none) := by
  induction order with
  | nil =>
    intro err s
    exact ⟨⟨[], by simp [client.rollbackLoop], by simp⟩,
      fun h => by simpa [client.rollbackLoop] using h⟩
  | cons kv rest ih =>
    intro err s
    obtain ⟨key, node⟩ := kv
    obtain ⟨⟨Δ1, h1, hu1⟩, hk1⟩ := rollbackNode_traced cli node err s
    obtain ⟨⟨Δ2, h2, hu2⟩, hk2⟩ := ih (cli.traced.rollbackNode node err s).1
      (cli.traced.rollbackNode node err s).2
    have hstep : cli.traced.rollbackLoop ((key, node) :: rest) err s
        = cli.traced.rollbackLoop rest (cli.traced.rollbackNode node err s).1
            (cli.traced.rollbackNode node err s).2 := by
      rw [client.rollbackLoop]
    rw [hstep]
    constructor
    · refine ⟨Δ1 ++ Δ2, by rw [h2, h1, List.append_assoc], ?_⟩
      intro e he
      rcases List.mem_append.mp he with he | he
      · exact hu1 e he
      · exact hu2 e he
    · intro herr
      exact hk2 (hk1 herr)

/-- The deferred rollback records only uncordon calls and keeps an error an error. -/
theorem rollbackNodes_traced {σ : Type} (cli : client σ) (cordonNodes : CordonNodes)
    (err : Option String) (s : σ × List Event) :
    (∃ Δ, (cli.traced.rollbackNodes cordonNodes err s).2.2 = s.2 ++ Δ ∧
      ∀ e ∈ Δ, e.isUncordon = true) ∧
    (err ≠ none → (cli.traced.rollbackNodes cordonNodes err s).1 ≠ none) :=
  rollbackLoop_traced cli _ err s

/-- Targets drained without error are passed by the third loop, which goes on with the
remaining targets, the pods of every drain appended. -/
theorem refreshLoop_of_drained {σ : Type} (cli : client σ) {pre : List Node} {i : Nat}
    {cordonNodes last : CordonNodes} {s s' : σ} {podsPerNode : List (List Pod)}
    (h : Drained cli pre i cordonNodes s podsPerNode last s') :
    ∀ (rest : List Node) (evictedPods : List Pod),
      cli.refreshLoop (pre ++ rest) i evictedPods cordonNodes s
        = cli.refreshLoop rest (i + pre.length) (evictedPods ++ podsPerNode.flatten) last s' := by
  induction h with
  | nil i cordonNodes s => intro rest evictedPods; simp
  | cons node tail i cordonNodes mid last s s1 s2 pods podsPerNode hstep _ ih =>
    intro rest evictedPods
    rw [List.cons_append, client.refreshLoop, hstep]
    simp only
    rw [ih]
    simp [Nat.add_comm, Nat.add_left_comm, List.append_assoc]

/-- The pods a round of the third loop reports are the pods its drain returned. -/
theorem refreshStep_pods {σ : Type} (cli : client σ) (node : Node) (i : Nat)
    (cordonNodes : CordonNodes) (s : σ) :
    (cli.refreshStep node i cordonNodes s).1.1
      = (cli.drainNode node (if i > 0 then cli.api.sleep 60 s else s)).1.1 := by
  unfold client.refreshStep
  simp only
  split
  · next h => rw [h]
  · next h =>
    rw [h]
    split
    · split
      · rfl
      · split <;> rfl
    · rfl

theorem traced_toNode {σ : Type} (cli : client σ) (now : Int) (n : RawNode) :
    cli.traced.toNode now n = cli.toNode now n :=
  rfl

theorem traced_toPods {σ : Type} (cli : client σ) (ps : List RawPod) :
    cli.traced.toPods ps = cli.toPods ps :=
  rfl

theorem traced_now {σ : Type} (cli : client σ) (w : σ) (log : List Event) :
    cli.traced.api.now (w, log) = cli.api.now w :=
  rfl

theorem traced_nodesGet {σ : Type} (cli : client σ) (name : String) (w : σ)
    (log : List Event) :
    cli.traced.api.nodesGet name (w, log)
      = ((cli.api.nodesGet name w).1, ((cli.api.nodesGet name w).2,
          log ++ [Event.nodesGet name (errorOf (cli.api.nodesGet name w).1)])) :=
  rfl

theorem traced_podsList {σ : Type} (cli : client σ) (name : String) (w : σ)
    (log : List Event) :
    cli.traced.api.podsList name (w, log)
      = ((cli.api.podsList name w).1, ((cli.api.podsList name w).2,
          log ++ [Event.podsList name (errorOf (cli.api.podsList name w).1)])) :=
  rfl

/-- Resolving a target records only the read of the node and the listing of its pods. -/
theorem GetNode_traced {σ : Type} (cli : client σ) (nodeName : String)
    (s : σ × List Event) :
    ∃ Δ, (cli.traced.GetNode nodeName s).2.2 = s.2 ++ Δ ∧ ∀ e ∈ Δ, e.isResolve = true := by
  obtain ⟨w, log⟩ := s
  cases h : cli.api.nodesGet nodeName w with
  | mk r w1 =>
    cases r with
    | error e =>
      refine ⟨[Event.nodesGet nodeName (some e)], ?_, by simp [Event.isResolve]⟩
      simp [client.GetNode, traced_nodesGet, h, errorOf]
    | ok res =>
      cases ht : cli.toNode (cli.api.now w1) res with
      | none =>
        refine ⟨[Event.nodesGet nodeName none], ?_, by simp [Event.isResolve]⟩
        simp [client.GetNode, traced_nodesGet, traced_toNode, traced_now, h, errorOf, ht]
      | some node =>
        cases hp : cli.api.podsList node.Name w1 with
        | mk rp w2 =>
          refine ⟨[Event.nodesGet nodeName none, Event.podsList node.Name (errorOf rp)], ?_,
            by simp [Event.isResolve]⟩
          cases rp with
          | error e =>
            simp [client.GetNode, client.GetPodListByNodeName, traced_nodesGet,
              traced_podsList, traced_toNode, traced_now, h, errorOf, ht, hp]
          | ok pods =>
            simp [client.GetNode, client.GetPodListByNodeName, traced_nodesGet,
              traced_podsList, traced_toNode, traced_now, h, errorOf, ht, hp]

/-- The first loop of `RefreshNodes` records only reads of nodes and listings of pods. -/
theorem resolveNodes_traced {σ : Type} (cli : client σ) (nodeNames : List String) :
    ∀ (nodes : List Node) (s : σ × List Event),
      ∃ Δ, (cli.traced.resolveNodes nodeNames nodes s).2.2 = s.2 ++ Δ ∧
        ∀ e ∈ Δ, e.isResolve = true := by
  induction nodeNames with
  | nil => intro nodes s; exact ⟨[], by simp [client.resolveNodes], by simp⟩
  | cons v rest ih =>
    intro nodes s
    obtain ⟨Δ1, h1, hr1⟩ := GetNode_traced cli v s
    rw [client.resolveNodes]
    cases hg : cli.traced.GetNode v s with
    | mk r s1 =>
      rw [hg] at h1
      cases r with
      | panic => exact ⟨Δ1, h1, hr1⟩
      | error e => exact ⟨Δ1, h1, hr1⟩
      | ok node =>
        obtain ⟨Δ2, h2, hr2⟩ := ih (nodes ++ [node]) s1
        refine ⟨Δ1 ++ Δ2, ?_, ?_⟩
        · simp only [h2]
          simp only at h1
          rw [h1, List.append_assoc]
        · intro e he
          rcases List.mem_append.mp he with he | he
          · exact hr1 e he
          · exact hr2 e he

/-- The second loop of `RefreshNodes` records only reads of nodes and writes of the
unschedulable flag. -/
theorem cordonNodes_traced {σ : Type} (cli : client σ) (nodes : List Node) :
    ∀ (cordonNodes : CordonNodes) (s : σ × List Event),
      ∃ Δ, (cli.traced.cordonNodes nodes cordonNodes s).2.2 = s.2 ++ Δ ∧
        ∀ e ∈ Δ, e.isCordon = true := by
  induction nodes with
  | nil => intro cordonNodes s; exact ⟨[], by simp [client.cordonNodes], by simp⟩
  | cons node rest ih =>
    intro cordonNodes s
    obtain ⟨Δ1, h1, hshape⟩ := applyCordonOrUncordon_traced cli node.Name true s
    have hc1 : ∀ e ∈ Δ1, e.isCordon = true := by
      intro e he
      rcases hshape with ⟨e', rfl⟩ | ⟨n, e', rfl⟩
      · simp only [List.mem_singleton] at he
        subst he
        rfl
      · simp only [List.mem_cons, List.mem_singleton, List.not_mem_nil, or_false] at he
        rcases he with rfl | rfl <;> rfl
    rw [client.cordonNodes]
    cases hg : cli.traced.cordonNode node.Name s with
    | mk r s1 =>
      have h1' : s1.2 = s.2 ++ Δ1 := by
        have : cli.traced.applyCordonOrUncordon node.Name true s = (r, s1) := hg
        rw [this] at h1
        exact h1
      cases r with
      | some e => exact ⟨Δ1, h1', hc1⟩
      | none =>
        obtain ⟨Δ2, h2, hc2⟩ := ih (cordonNodes.set node.Name node) s1
        refine ⟨Δ1 ++ Δ2, ?_, ?_⟩
        · simp only [h2]
          rw [h1', List.append_assoc]
        · intro e he
          rcases List.mem_append.mp he with he | he
          · exact hc1 e he
          · exact hc2 e he

/-- C9 (what the code does). In every run of `RefreshNode` in which the node resolves,
the cordon succeeds and the drain fails, `RefreshNode` returns an error and no pods at
all, whatever pods the drain had evicted before it failed. -/
theorem C9_RefreshNode_drops_evicted_pods {σ : Type} (cli : client σ)
    (nodeName : String) (s s1 s2 s3 : σ) (node : Node) (pods : List Pod) (err : String)
    (hget : cli.GetNode nodeName s = (.ok node, s1))
    (hcordon : cli.cordonNode node.Name s1 = (none, s2))
    (hdrain : cli.drainNode node s2 = ((pods, some err), s3)) :
    ∃ e, (cli.RefreshNode nodeName s).1 = RefreshResult.returned [] (some e) := by
  unfold client.RefreshNode
  simp only [hget, hcordon, hdrain]
  unfold client.rollbackNode
  cases (cli.uncordonNode node.Name s3) with
  | mk r s4 =>
    cases r with
    | none => exact ⟨_, rfl⟩
    | some e => exact ⟨_, rfl⟩

/-! ### Runs on the demonstration services -/

/-- The retry loop unfolded once, with a plain conditional. -/
theorem evictLoop_eq {σ : Type} (api : KubeAPI σ) (pod : Pod) (policy : String) (i : Nat)
    (s : σ) :
    evictLoop api pod policy i s
      = match api.evict (evictionOf pod policy) s with
        | (none, s) => (none, s)
        | (some err, s) =>
          if err ≠ disruptionBudgetMessage then
            (some ("failed to evict pod " ++ pod.Name ++ ". count=" ++ toString i ++ ": "
              ++ err), s)
          else if i > 2 then
            (some ("failed to evict pod " ++ pod.Name ++ " because give up. count="
              ++ toString i ++ ": " ++ err), s)
          else evictLoop api pod policy (i + 1) (api.sleep 30 s) := by
  rw [evictLoop]
  split <;> simp

/-- The eviction calls recorded when the pods `a`, `slow`, `c` are evicted. -/
theorem demoSlow_trace :
    (demoClient.traced.evictPods demoSlowNode "policy/v1beta1" (demoStart, [])).2.2
      = [Event.evict (evictionOf (mkPod "a" "gke-c-spot-1") "policy/v1beta1") none,
         Event.evict (evictionOf (mkPod "slow" "gke-c-spot-1") "policy/v1beta1")
           (some disruptionBudgetMessage),
         Event.sleep 30,
         Event.evict (evictionOf (mkPod "slow" "gke-c-spot-1") "policy/v1beta1")
           (some disruptionBudgetMessage),
         Event.sleep 30,
         Event.evict (evictionOf (mkPod "slow" "gke-c-spot-1") "policy/v1beta1") none,
         Event.evict (evictionOf (mkPod "c" "gke-c-spot-1") "policy/v1beta1") none] := by
  simp [client.evictPods, client.traced, demoClient, demoSlowNode, mkNode, mkPod,
    evictPodsLoop, evictLoop_eq, traced, demoAPI, evictionOf, demoStart,
    disruptionBudgetMessage]

/-- When the API accepts the request after `k` violations, the retry loop entered at
attempt `i` with `i + k ≤ 3` makes exactly those calls and reports the pod evicted. -/
theorem Attempts.evictLoop {σ : Type} {api : KubeAPI σ} {pod : Pod} {policy : String}
    {k : Nat} {s s1 : σ} (h : Attempts api (evictionOf pod policy) k s s1) :
    ∀ i, i + k ≤ 3 → GkeNodeOptimizer.evictLoop api pod policy i s = (none, s1) := by
  induction h with
  | accepted s s1 h =>
    intro i _
    rw [evictLoop_eq, h]
  | refused k s s0 s1 h _ ih =>
    intro i hi
    rw [evictLoop_eq, h]
    simp only [ne_eq, not_true_eq_false, if_false]
    rw [if_neg (by omega)]
    exact ih (i + 1) (by omega)

/-- When the retry loop entered at attempt `i ≤ 3` reports the pod evicted, the API
accepted the request after at most `3 - i` violations. -/
theorem evictLoop_accepted {σ : Type} (api : KubeAPI σ) (pod : Pod) (policy : String) :
    ∀ (d i : Nat), i + d = 3 → ∀ (s s1 : σ),
      evictLoop api pod policy i s = (none, s1) →
      ∃ k, k ≤ d ∧ Attempts api (evictionOf pod policy) k s s1 := by
  intro d
  induction d with
  | zero =>
    intro i hi s s1 hrun
    rw [evictLoop_eq] at hrun
    cases hr : api.evict (evictionOf pod policy) s with
    | mk r s0 =>
      rw [hr] at hrun
      cases r with
      | none =>
        simp only [Prod.mk.injEq, true_and] at hrun
        subst hrun
        exact ⟨0, le_refl _, Attempts.accepted s s0 hr⟩
      | some e =>
        exfalso
        by_cases he : e = disruptionBudgetMessage
        · simp [he, show i > 2 by omega] at hrun
        · simp [he] at hrun
  | succ d ih =>
    intro i hi s s1 hrun
    rw [evictLoop_eq] at hrun
    cases hr : api.evict (evictionOf pod policy) s with
    | mk r s0 =>
      rw [hr] at hrun
      cases r with
      | none =>
        simp only [Prod.mk.injEq, true_and] at hrun
        subst hrun
        exact ⟨0, Nat.zero_le _, Attempts.accepted s s0 hr⟩
      | some e =>
        by_cases he : e = disruptionBudgetMessage
        · subst he
          simp only [ne_eq, not_true_eq_false, if_false] at hrun
          rw [if_neg (by omega)] at hrun
          obtain ⟨k, hk, hat⟩ := ih (i + 1) (by omega) _ _ hrun
          exact ⟨k + 1, by omega, Attempts.refused k s s0 s1 hr hat⟩
        · exfalso
          simp [he] at hrun

/-- The recorded calls of accepted attempts: the violations with their waits, then the
call that succeeds. -/
theorem Attempts.recorded {σ : Type} {api : KubeAPI σ} {ev : Eviction} {k : Nat} {s s1 : σ}
    (h : Attempts api ev k s s1) :
    ∀ log : List Event,
      Attempts (GkeNodeOptimizer.traced api) ev k (s, log)
        (s1, log ++ (retryEvents ev k ++ [Event.evict ev none])) := by
  induction h with
  | accepted s s1 h =>
    intro log
    refine Attempts.accepted _ _ ?_
    rw [traced_evict, h]
    rfl
  | refused k s s0 s1 h _ ih =>
    intro log
    refine Attempts.refused k _ (s0, log ++ [Event.evict ev (some disruptionBudgetMessage)])
      _ ?_ ?_
    · rw [traced_evict, h]
    · rw [traced_sleep]
      have h2 := ih (log ++ [Event.evict ev (some disruptionBudgetMessage)]
        ++ [Event.sleep 30])
      have hlog : log ++ [Event.evict ev (some disruptionBudgetMessage)] ++ [Event.sleep 30]
            ++ (retryEvents ev k ++ [Event.evict ev none])
          = log ++ (retryEvents ev (k + 1) ++ [Event.evict ev none]) := by
        simp [retryEvents]
      rw [hlog] at h2
      exact h2

/-- Pods the API lets go are let go by the recorded API too, which appends their calls. -/
theorem Yielding.recorded_run {σ : Type} {api : KubeAPI σ} {policy : String} {pods : List Pod}
    {s s1 : σ} (h : Yielding api policy pods s s1) :
    ∀ log : List Event, ∃ calls : List Event,
      Yielding (GkeNodeOptimizer.traced api) policy pods (s, log) (s1, log ++ calls) := by
  induction h with
  | nil s =>
    intro log
    exact ⟨[], by rw [List.append_nil]; exact Yielding.nil _⟩
  | cons pod rest k s s1 s2 hk hat _ ih =>
    intro log
    obtain ⟨calls, hrest⟩ :=
      ih (log ++ (retryEvents (evictionOf pod policy) k
        ++ [Event.evict (evictionOf pod policy) none]))
    refine ⟨(retryEvents (evictionOf pod policy) k
        ++ [Event.evict (evictionOf pod policy) none]) ++ calls, ?_⟩
    rw [← List.append_assoc]
    exact Yielding.cons pod rest k _ _ _ hk (hat.recorded log) hrest

/-- The loop of `evictPods` evicts the pods the API lets go and goes on with the rest. -/
theorem Yielding.evictPodsLoop {σ : Type} {api : KubeAPI σ} {policy : String}
    {pods : List Pod} {s s1 : σ} (h : Yielding api policy pods s s1) :
    ∀ (rest acc : List Pod),
      GkeNodeOptimizer.evictPodsLoop api policy (pods ++ rest) acc s
        = GkeNodeOptimizer.evictPodsLoop api policy rest (acc ++ pods) s1 := by
  induction h with
  | nil s =>
    intro rest acc
    simp
  | cons pod pods k s s1 s2 hk hat _ ih =>
    intro rest acc
    rw [List.cons_append, GkeNodeOptimizer.evictPodsLoop, hat.evictLoop 1 (by omega)]
    simp only []
    rw [ih rest (acc ++ [pod])]
    simp

/-- The list the loop of `evictPods` returns starts with the pods evicted so far. -/
theorem evictPodsLoop_prefix {σ : Type} (api : KubeAPI σ) (policy : String)
    (pods : List Pod) :
    ∀ (acc : List Pod) (s : σ), acc <+: (evictPodsLoop api policy pods acc s).1.1 := by
  induction pods with
  | nil =>
    intro acc s
    simp [evictPodsLoop]
  | cons pod rest ih =>
    intro acc s
    rw [evictPodsLoop]
    cases hr : evictLoop api pod policy 1 s with
    | mk r s0 =>
      cases r with
      | none =>
        exact (List.prefix_append acc [pod]).trans (ih (acc ++ [pod]) s0)
      | some e => exact List.prefix_refl acc

/-- The run of `evictPods` over pods that are let go one after the other. -/
theorem Yielding.append {σ : Type} {api : KubeAPI σ} {policy : String}
    {pre post : List Pod} {s s1 s2 : σ} (h : Yielding api policy pre s s1)
    (h2 : Yielding api policy post s1 s2) : Yielding api policy (pre ++ post) s s2 := by
  induction h with
  | nil s => exact h2
  | cons pod rest k s s1 s3 hk hat _ ih =>
    exact Yielding.cons pod (rest ++ post) k _ _ _ hk hat (ih h2)

/-- C7. The premise is on the answers of the eviction API, `Attempts` and `Yielding`. In
a run of `evictPods` on a node whose pods are `pre ++ p :: post`: (1) if the API lets the
pods of `pre` go, answers the request for `p` with the disruption-budget violation exactly
twice and then accepts it, and lets the pods of `post` go, then `evictPods` returns all
the pods of the node, `p` among them, and no error, ends in the state the last accepted
call left, and its recorded calls contain the three attempts on `p` with the two waits of
30 seconds between them. (2) If the API lets the pods of `pre` go, then `p` is returned
after them iff the API accepts its request after fewer than three violations, that is,
one of its first three attempts succeeds and every earlier one returned the violation;
otherwise `evictPods` returns `pre` alone with an error. (3) In the recorded run a pod
(namespace and name) is in the evicted list iff the responses to its calls start with
fewer than three disruption-budget violations followed by a success. -/
theorem C7_evict_retry {σ : Type} (cli : client σ) (node : Node) (policy : String)
    (w : σ) :
    (∀ (pre : List Pod) (p : Pod) (post : List Pod) (s1 s2 s3 : σ),
      node.Pods = pre ++ p :: post →
      Yielding cli.api policy pre w s1 →
      Attempts cli.api (evictionOf p policy) 2 s1 s2 →
      Yielding cli.api policy post s2 s3 →
      cli.evictPods node policy w = ((node.Pods, none), s3) ∧
      p ∈ (cli.evictPods node policy w).1.1 ∧
      (cli.traced.evictPods node policy (w, [])).1 = (node.Pods, none) ∧
      ∃ before after,
        (cli.traced.evictPods node policy (w, [])).2.2
          = before
            ++ [Event.evict (evictionOf p policy) (some disruptionBudgetMessage),
                Event.sleep 30,
                Event.evict (evictionOf p policy) (some disruptionBudgetMessage),
                Event.sleep 30,
                Event.evict (evictionOf p policy) none]
            ++ after) ∧
    (∀ (pre : List Pod) (p : Pod) (post : List Pod) (s1 : σ),
      node.Pods = pre ++ p :: post →
      Yielding cli.api policy pre w s1 →
      ((pre ++ [p]) <+: (cli.evictPods node policy w).1.1 ↔
        ∃ k, k < 3 ∧ ∃ s2, Attempts cli.api (evictionOf p policy) k s1 s2) ∧
      ((¬ ∃ k, k < 3 ∧ ∃ s2, Attempts cli.api (evictionOf p policy) k s1 s2) →
        (cli.evictPods node policy w).1.1 = pre ∧
        (cli.evictPods node policy w).1.2 ≠ none)) ∧
    (∀ p : Pod,
      (∃ q ∈ (cli.traced.evictPods node policy (w, [])).1.1,
          evictionOf q policy = evictionOf p policy) ↔
        ∃ k, k < 3 ∧ ∃ rest,
          evictResponses (evictionOf p policy)
              (cli.traced.evictPods node policy (w, [])).2.2
            = List.replicate k (some disruptionBudgetMessage) ++ none :: rest) := by
  refine ⟨?_, ?_, ?_⟩
  · intro pre p post s1 s2 s3 hpods hpre hp hpost
    have hall : Yielding cli.api policy node.Pods w s3 := by
      rw [hpods]
      exact hpre.append (Yielding.cons p post 2 _ _ _ (le_refl _) hp hpost)
    have hrun : cli.evictPods node policy w = ((node.Pods, none), s3) := by
      have h := hall.evictPodsLoop [] []
      simpa [client.evictPods, evictPodsLoop] using h
    obtain ⟨calls1, hpre'⟩ := hpre.recorded_run []
    have hp' := hp.recorded ([] ++ calls1)
    obtain ⟨calls3, hpost'⟩ := hpost.recorded_run
      ([] ++ calls1 ++ (retryEvents (evictionOf p policy) 2
        ++ [Event.evict (evictionOf p policy) none]))
    have hall' : Yielding cli.traced.api policy node.Pods (w, [])
        (s3, [] ++ calls1 ++ (retryEvents (evictionOf p policy) 2
          ++ [Event.evict (evictionOf p policy) none]) ++ calls3) := by
      rw [hpods]
      exact hpre'.append (Yielding.cons p post 2 _ _ _ (le_refl _) hp' hpost')
    have hrun' : cli.traced.evictPods node policy (w, [])
        = ((node.Pods, none), (s3, [] ++ calls1 ++ (retryEvents (evictionOf p policy) 2
          ++ [Event.evict (evictionOf p policy) none]) ++ calls3)) := by
      have h := hall'.evictPodsLoop [] []
      simpa [client.evictPods, evictPodsLoop] using h
    refine ⟨hrun, ?_, ?_, calls1, calls3, ?_⟩
    · rw [hrun, hpods]
      simp
    · rw [hrun']
    · rw [hrun']
      simp [retryEvents]
  · intro pre p post s1 hpods hpre
    have hrun : cli.evictPods node policy w
        = evictPodsLoop cli.api policy (p :: post) pre s1 := by
      have h := hpre.evictPodsLoop (p :: post) []
      rw [client.evictPods, hpods, h, List.nil_append]
    rw [hrun, evictPodsLoop]
    cases hr : evictLoop cli.api p policy 1 s1 with
    | mk r s0 =>
      cases r with
      | none =>
        obtain ⟨k, hk, hat⟩ := evictLoop_accepted cli.api p policy 2 1 rfl s1 s0 hr
        have hex : ∃ k, k < 3 ∧ ∃ s2, Attempts cli.api (evictionOf p policy) k s1 s2 :=
          ⟨k, by omega, s0, hat⟩
        refine ⟨⟨fun _ => hex, fun _ => ?_⟩, fun hno => absurd hex hno⟩
        exact evictPodsLoop_prefix cli.api policy post (pre ++ [p]) s0
      | some e =>
        have hno : ¬ ∃ k, k < 3 ∧ ∃ s2, Attempts cli.api (evictionOf p policy) k s1 s2 := by
          rintro ⟨k, hk, s2, hat⟩
          have h := hat.evictLoop 1 (by omega)
          rw [hr] at h
          simp at h
        refine ⟨⟨fun hpfx => ?_, fun hex => absurd hex hno⟩, fun _ => ⟨rfl, by simp⟩⟩
        exfalso
        have hlen := hpfx.length_le
        simp at hlen
  · have hshape := evictPods_traced cli node policy w
    intro p
    exact hshape.evicted_iff (evictionOf p policy)

/-- C7, on the demonstration services, whose eviction API answers the request for the pod
`slow` with the disruption-budget violation twice and then accepts it, and accepts the
requests for `a` and `c` at once: `evictPods` returns the three pods and no error, after
three attempts on `slow`. -/
theorem C7_witness :
    Yielding demoClient.api "policy/v1beta1" [mkPod "a" "gke-c-spot-1"] demoStart
      { cordoned := [], deleted := [], evictions := ["a"] } ∧
    Attempts demoClient.api (evictionOf (mkPod "slow" "gke-c-spot-1") "policy/v1beta1") 2
      { cordoned := [], deleted := [], evictions := ["a"] }
      { cordoned := [], deleted := [], evictions := ["slow", "slow", "slow", "a"] } ∧
    Yielding demoClient.api "policy/v1beta1" [mkPod "c" "gke-c-spot-1"]
      { cordoned := [], deleted := [], evictions := ["slow", "slow", "slow", "a"] }
      { cordoned := [], deleted := [], evictions := ["c", "slow", "slow", "slow", "a"] } ∧
    demoClient.evictPods demoSlowNode "policy/v1beta1" demoStart
      = (([mkPod "a" "gke-c-spot-1", mkPod "slow" "gke-c-spot-1", mkPod "c" "gke-c-spot-1"],
          none),
         { cordoned := [], deleted := [], evictions := ["c", "slow", "slow", "slow", "a"] }) ∧
    mkPod "slow" "gke-c-spot-1"
      ∈ (demoClient.evictPods demoSlowNode "policy/v1beta1" demoStart).1.1 ∧
    ∃ before after,
      (demoClient.traced.evictPods demoSlowNode "policy/v1beta1" (demoStart, [])).2.2
        = before
          ++ [Event.evict (evictionOf (mkPod "slow" "gke-c-spot-1") "policy/v1beta1")
                (some disruptionBudgetMessage),
              Event.sleep 30,
              Event.evict (evictionOf (mkPod "slow" "gke-c-spot-1") "policy/v1beta1")
                (some disruptionBudgetMessage),
              Event.sleep 30,
              Event.evict (evictionOf (mkPod "slow" "gke-c-spot-1") "policy/v1beta1") none]
          ++ after :=
  have ha : Yielding demoClient.api "policy/v1beta1" [mkPod "a" "gke-c-spot-1"] demoStart
      { cordoned := [], deleted := [], evictions := ["a"] } :=
    Yielding.cons _ [] 0 _ _ _ (by decide) (Attempts.accepted _ _ rfl) (Yielding.nil _)
  have hslow : Attempts demoClient.api
      (evictionOf (mkPod "slow" "gke-c-spot-1") "policy/v1beta1") 2
      { cordoned := [], deleted := [], evictions := ["a"] }
      { cordoned := [], deleted := [], evictions := ["slow", "slow", "slow", "a"] } :=
    Attempts.refused 1 _
      { cordoned := [], deleted := [], evictions := ["slow", "a"] } _ (by rfl)
      (Attempts.refused 0 _
        { cordoned := [], deleted := [], evictions := ["slow", "slow", "a"] } _ (by rfl)
        (Attempts.accepted _ _ (by rfl)))
  have hc : Yielding demoClient.api "policy/v1beta1" [mkPod "c" "gke-c-spot-1"]
      { cordoned := [], deleted := [], evictions := ["slow", "slow", "slow", "a"] }
      { cordoned := [], deleted := [], evictions := ["c", "slow", "slow", "slow", "a"] } :=
    Yielding.cons _ [] 0 _ _ _ (by decide) (Attempts.accepted _ _ rfl) (Yielding.nil _)
  have h := (C7_evict_retry demoClient demoSlowNode "policy/v1beta1" demoStart).1
    [mkPod "a" "gke-c-spot-1"] (mkPod "slow" "gke-c-spot-1") [mkPod "c" "gke-c-spot-1"]
    _ _ _ rfl ha hslow hc
  ⟨ha, hslow, hc, h.1, h.2.1, h.2.2.2⟩

/-- The drain of `gke-c-spot-2` evicts `d` and gives up on `stuck`. -/
theorem demoStuck_drain :
    demoClient.drainNode demoStuckNode
        { cordoned := ["gke-c-spot-2"], deleted := [], evictions := [] }
      = (([mkPod "d" "gke-c-spot-2"],
          some ("failed to evict pod stuck because give up. count=3: "
            ++ disruptionBudgetMessage)),
         { cordoned := ["gke-c-spot-2"], deleted := [],
           evictions := ["stuck", "stuck", "stuck", "d"] }) := by
  simp [client.drainNode, client.policyVersion, findPolicyGroup, hasEvictionResource,
    client.evictPods, demoClient, demoStuckNode, mkNode, mkPod,
    evictPodsLoop, evictLoop_eq, demoAPI, evictionOf,
    disruptionBudgetMessage, ResourceEvictionName, ResourceEvictionKind]
  decide

/-- C8, on the demonstration services: evicting `d`, `stuck`, `e` fails at `stuck`; the
run returns `d` alone and its trace ends with the attempts on `stuck`. -/
theorem C8_witness :
    ∃ (pre : List Pod) (p : Pod) (post : List Pod) (k : Nat) (e : String),
      demoStuckNode.Pods = pre ++ p :: post ∧
      (demoClient.traced.evictPods demoStuckNode "policy/v1beta1" (demoStart, [])).1.1
        = pre ∧
      (demoClient.traced.evictPods { demoStuckNode with Pods := pre } "policy/v1beta1"
        (demoStart, [])).1 = (pre, none) ∧
      (demoClient.traced.evictPods demoStuckNode "policy/v1beta1" (demoStart, [])).2.2
        = (demoClient.traced.evictPods { demoStuckNode with Pods := pre } "policy/v1beta1"
            (demoStart, [])).2.2
          ++ (retryEvents (evictionOf p "policy/v1beta1") k
            ++ [Event.evict (evictionOf p "policy/v1beta1") (some e)]) ∧
      k ≤ 2 ∧ (e ≠ disruptionBudgetMessage ∨ k = 2) :=
  (C8_evict_abort demoClient demoStuckNode "policy/v1beta1" demoStart).2.2.2.1 (by
    simp [client.evictPods, client.traced, demoClient, demoStuckNode, mkNode, mkPod,
      evictPodsLoop, evictLoop_eq, traced, demoAPI, evictionOf, demoStart,
      disruptionBudgetMessage])

/-- C9, on the demonstration services: the node `gke-c-spot-2` resolves and cordons, its
drain evicts the pod `d` and then gives up on `stuck`; `RefreshNode` returns the error
with an empty pod list. -/
theorem C9_witness :
    (demoClient.drainNode demoStuckNode
        { cordoned := ["gke-c-spot-2"], deleted := [], evictions := [] }).1.1
      = [mkPod "d" "gke-c-spot-2"] ∧
    ∃ e, (demoClient.RefreshNode "gke-c-spot-2" demoStart).1
      = RefreshResult.returned [] (some e) :=
  ⟨by rw [demoStuck_drain],
   C9_RefreshNode_drops_evicted_pods demoClient "gke-c-spot-2" demoStart demoStart
     { cordoned := ["gke-c-spot-2"], deleted := [], evictions := [] }
     { cordoned := ["gke-c-spot-2"], deleted := [],
       evictions := ["stuck", "stuck", "stuck", "d"] }
     demoStuckNode [mkPod "d" "gke-c-spot-2"]
     ("failed to evict pod stuck because give up. count=3: " ++ disruptionBudgetMessage)
     (by decide) (by decide) demoStuck_drain⟩

/-- The three targets resolve. -/
theorem demo_resolve :
    demoClient.traced.resolveNodes demoTargets [] (demoStart, [])
      = (.ok [demoSlowNode, demoStuckNode, demoOndemandNode], demoResolved) :=
  rfl

/-- The three targets cordon. -/
theorem demo_cordon :
    demoClient.traced.cordonNodes [demoSlowNode, demoStuckNode, demoOndemandNode] []
        demoResolved
      = ((none, demoCordonMap), demoCordoned) :=
  rfl

/-- The first target is drained of `a`, `slow`, `c` and terminated. -/
theorem demo_first :
    demoClient.traced.refreshStep demoSlowNode 0 demoCordonMap demoCordoned
      = (([mkPod "a" "gke-c-spot-1", mkPod "slow" "gke-c-spot-1", mkPod "c" "gke-c-spot-1"],
          none, demoCordonMap.delete "gke-c-spot-1"), demoAfterFirst) := by
  refine Prod.ext ?_ rfl
  simp [client.refreshStep, client.drainNode, client.policyVersion, findPolicyGroup,
    hasEvictionResource, client.evictPods, client.deleteNode, client.traced, demoClient,
    demoSlowNode, demoStuckNode, demoOndemandNode, mkNode, mkPod, evictPodsLoop,
    evictLoop_eq, traced, demoAPI, evictionOf, demoStart, disruptionBudgetMessage,
    ResourceEvictionName, ResourceEvictionKind, demoCordoned, demoResolved, demoTargets,
    demoCordonMap, client.cordonNodes, client.cordonNode, client.applyCordonOrUncordon,
    client.resolveNodes, client.GetNode, client.toNode, client.GetPodListByNodeName,
    demoNodes, demoRawNode, demoPods, demoRawPod, CordonNodes.set, CordonNodes.delete,
    NodePoolLabel, NodeRegionLabel, NodeZoneLabel, PreemptibleLabel, List.lookup,
    client.toPods, client.toPod]

/-- The drain of the second target evicts `d` and gives up on `stuck`. -/
theorem demo_second :
    demoClient.traced.refreshStep demoStuckNode 1 (demoCordonMap.delete "gke-c-spot-1")
        demoAfterFirst
      = (([mkPod "d" "gke-c-spot-2"],
          some ("failed to drain node gke-c-spot-2: "
            ++ ("failed to evict pod stuck because give up. count=3: "
              ++ disruptionBudgetMessage)),
          demoCordonMap.delete "gke-c-spot-1"), demoAfterFailure) := by
  refine Prod.ext ?_ rfl
  simp [client.refreshStep, client.drainNode, client.policyVersion, findPolicyGroup,
    hasEvictionResource, client.evictPods, client.deleteNode, client.traced, demoClient,
    demoSlowNode, demoStuckNode, demoOndemandNode, mkNode, mkPod, evictPodsLoop,
    evictLoop_eq, traced, demoAPI, evictionOf, demoStart, disruptionBudgetMessage,
    ResourceEvictionName, ResourceEvictionKind, demoCordoned, demoResolved, demoTargets,
    demoCordonMap, client.cordonNodes, client.cordonNode, client.applyCordonOrUncordon,
    client.resolveNodes, client.GetNode, client.toNode, client.GetPodListByNodeName,
    demoNodes, demoRawNode, demoPods, demoRawPod, CordonNodes.set, CordonNodes.delete,
    NodePoolLabel, NodeRegionLabel, NodeZoneLabel, PreemptibleLabel, List.lookup,
    client.toPods, client.toPod, demoAfterFirst]
  decide

/-! ### The outcome of the refresh in `Optimize` -/

/-- The error the refresh step returns wraps the error of `RefreshNodes`. -/
theorem refreshTargets_err (o : Optimizer) (R : Result) (T : List String) (hT : T ≠ [])
    (e : String) (he : (o.client.RefreshNodes T).2 = some e) :
    (refreshTargets o R T).err = some ("failed to refresh nodes: " ++ e) := by
  have hlen : ¬ T.length = 0 := fun h0 => hT (List.length_eq_zero.mp h0)
  unfold refreshTargets
  simp only [hlen, if_false, he]

/-- C17. For every run of `Optimize` that invokes `RefreshNodes`, on the target list `T`
with result `(pods, err)`: the recorded `EvictedPods` is `pods` whether or not `err` is
nil, `Optimize` returns an error iff `err` is not nil, and the returned error is
"failed to refresh nodes: " followed by `err`. -/
theorem C17_refresh_outcome (o : Optimizer) (h : (Optimize o).refreshCalls ≠ []) :
    ∃ T : List String, (Optimize o).refreshCalls = [T] ∧
      (Optimize o).result.EvictedPods = (o.client.RefreshNodes T).1 ∧
      ((Optimize o).err = none ↔ (o.client.RefreshNodes T).2 = none) ∧
      (∀ e, (o.client.RefreshNodes T).2 = some e →
        (Optimize o).err = some ("failed to refresh nodes: " ++ e)) := by
  have hsel : SelectionSucceeds o := Or.inr h
  obtain ⟨cluster, nodes, hc, _, _, _, hn, _, _⟩ := Optimize_reach o hsel
  obtain ⟨R, hrun, _, _⟩ := Optimize_selected o cluster nodes hsel hc hn
  obtain ⟨hnil, hcons⟩ := refreshTargets_spec o R
    (gatedName (selectOldest (preemptibleNodesInOrder cluster nodes) none)
        o.option.OptimizePreemptibleNode
      ++ gatedName (selectFewestPods (ondemandAutoscaleNodesInOrder cluster nodes) none)
        o.option.OptimizeAutoscaleOndemandNode)
  by_cases hT : gatedName (selectOldest (preemptibleNodesInOrder cluster nodes) none)
        o.option.OptimizePreemptibleNode
      ++ gatedName (selectFewestPods (ondemandAutoscaleNodesInOrder cluster nodes) none)
        o.option.OptimizeAutoscaleOndemandNode = []
  · have := (hnil hT).1
    rw [← hrun] at this
    exact absurd this h
  · obtain ⟨h1, h2, h3⟩ := hcons hT
    rw [← hrun] at h1 h2 h3
    refine ⟨_, h1, ?_, h3, ?_⟩
    · rw [h2]
    · intro e he
      rw [hrun]
      exact refreshTargets_err o R _ hT e he

/-- C17, on the scenario against a gateway whose `RefreshNodes` evicts the pod `x` and
fails: the pod is recorded and the wrapped error is returned. -/
theorem C17_witness :
    (Optimize scenarioFailingOptimizer).result.EvictedPods = [mkPod "x" "gke-c-spot-3"] ∧
    (Optimize scenarioFailingOptimizer).err
      = some "failed to refresh nodes: drain failed" ∧
    ∃ T : List String, (Optimize scenarioFailingOptimizer).refreshCalls = [T] ∧
      (Optimize scenarioFailingOptimizer).result.EvictedPods
        = (scenarioFailingOptimizer.client.RefreshNodes T).1 ∧
      ((Optimize scenarioFailingOptimizer).err = none
        ↔ (scenarioFailingOptimizer.client.RefreshNodes T).2 = none) ∧
      (∀ e, (scenarioFailingOptimizer.client.RefreshNodes T).2 = some e →
        (Optimize scenarioFailingOptimizer).err = some ("failed to refresh nodes: " ++ e)) :=
  ⟨by decide, by decide, C17_refresh_outcome scenarioFailingOptimizer (by decide)⟩

/-! ### Termination (`deleteNode`) -/

theorem traced_nodesDelete {σ : Type} (cli : client σ) (name : String) (w : σ)
    (log : List Event) :
    cli.traced.api.nodesDelete name (w, log)
      = ((cli.api.nodesDelete name w).1, ((cli.api.nodesDelete name w).2,
          log ++ [Event.nodesDelete name (cli.api.nodesDelete name w).1])) :=
  rfl

theorem traced_instancesStop {σ : Type} (cli : client σ) (project zone name : String)
    (w : σ) (log : List Event) :
    cli.traced.api.instancesStop project zone name (w, log)
      = ((cli.api.instancesStop project zone name w).1,
          ((cli.api.instancesStop project zone name w).2,
            log ++ [Event.instancesStop project zone name
              (cli.api.instancesStop project zone name w).1])) :=
  rfl

theorem traced_project {σ : Type} (cli : client σ) : cli.traced.project = cli.project :=
  rfl

/-- C15. For every node, if the re-fetch inside `deleteNode` fails or reports the node as
schedulable, `deleteNode` returns an error and the only call it records is the re-fetch:
neither a node-object deletion nor an instance stop is requested. -/
theorem C15_deleteNode_guard {σ : Type} (cli : client σ) (node : Node) (w : σ)
    (log : List Event)
    (h : (∃ e, (cli.api.nodesGet node.Name w).1 = .error e) ∨
         (∃ n, (cli.api.nodesGet node.Name w).1 = .ok n ∧ n.Unschedulable = false)) :
    (cli.traced.deleteNode node (w, log)).1 ≠ none ∧
    (cli.traced.deleteNode node (w, log)).2.2
      = log ++ [Event.nodesGet node.Name (errorOf (cli.api.nodesGet node.Name w).1)] ∧
    (∀ ev ∈ [Event.nodesGet node.Name (errorOf (cli.api.nodesGet node.Name w).1)],
      ev.isDestructive = false) := by
  refine ⟨?_, ?_, by simp [Event.isDestructive]⟩
  · rcases h with ⟨e, he⟩ | ⟨n, hn, hu⟩
    · simp [client.deleteNode, traced_nodesGet, he]
    · simp [client.deleteNode, traced_nodesGet, hn, hu]
  · rcases h with ⟨e, he⟩ | ⟨n, hn, hu⟩
    · simp [client.deleteNode, traced_nodesGet, he]
    · simp [client.deleteNode, traced_nodesGet, hn, hu]

/-- C15, on the demonstration services: the node `gke-c-spot-1` is schedulable at the
start, so `deleteNode` fails after the re-fetch alone. -/
theorem C15_witness :
    (demoClient.traced.deleteNode demoSlowNode (demoStart, [])).1 ≠ none ∧
    (demoClient.traced.deleteNode demoSlowNode (demoStart, [])).2.2
      = [] ++ [Event.nodesGet demoSlowNode.Name
          (errorOf (demoClient.api.nodesGet demoSlowNode.Name demoStart).1)] :=
  ⟨(C15_deleteNode_guard demoClient demoSlowNode demoStart []
      (Or.inr ⟨demoRawNode "gke-c-spot-1" "spot" true false, rfl, rfl⟩)).1,
   (C15_deleteNode_guard demoClient demoSlowNode demoStart []
      (Or.inr ⟨demoRawNode "gke-c-spot-1" "spot" true false, rfl, rfl⟩)).2.1⟩

/-! ### Conversion of raw nodes (`toNodes`) -/

/-- The conversion keeps a raw node exactly when the three labels are present and,
unless the cluster name is empty, the name follows the naming convention. -/
theorem toNode_isSome {σ : Type} (cli : client σ) (now : Int) (n : RawNode) :
    (cli.toNode now n).isSome = keptRawNode cli.clusterName n := by
  unfold client.toNode keptRawNode hasRequiredLabels matchesNaming
  cases hp : n.Labels.lookup NodePoolLabel with
  | none => simp
  | some pool =>
    by_cases hc : cli.clusterName = ""
    · cases hr : n.Labels.lookup NodeRegionLabel with
      | none => simp [hc]
      | some region =>
        cases hz : n.Labels.lookup NodeZoneLabel with
        | none => simp [hc]
        | some zone => simp [hc]
    · simp only []
      by_cases hpre : ("gke-" ++ cli.clusterName ++ "-" ++ pool).data <+: n.Name.data
      · have hd : decide (("gke-" ++ cli.clusterName ++ "-" ++ pool).data <+: n.Name.data)
            = true := decide_eq_true hpre
        rw [if_neg (fun h => h.2 hpre), hd]
        cases hr : n.Labels.lookup NodeRegionLabel with
        | none => simp
        | some region =>
          cases hz : n.Labels.lookup NodeZoneLabel with
          | none => simp
          | some zone => simp
      · have hd : decide (("gke-" ++ cli.clusterName ++ "-" ++ pool).data <+: n.Name.data)
            = false := decide_eq_false hpre
        rw [if_pos ⟨hc, hpre⟩, hd]
        simp [hc]

/-- The fields a converted node takes from the raw node and its labels. -/
theorem toNode_fields {σ : Type} (cli : client σ) (now : Int) (n : RawNode) (node : Node)
    (h : cli.toNode now n = some node) :
    node.Name = n.Name ∧ node.ClusterName = cli.clusterName ∧
    n.Labels.lookup NodePoolLabel = some node.NodePool ∧
    n.Labels.lookup NodeRegionLabel = some node.Region ∧
    n.Labels.lookup NodeZoneLabel = some node.Zone ∧
    node.Preemptible = decide ((n.Labels.lookup PreemptibleLabel).getD "" = "true") ∧
    node.Age = timeSub now n.CreationTimestamp ∧
    (node.Ready = true ↔
      (n.Conditions.getLast? = some "Ready" ∧ n.Unschedulable = false)) := by
  unfold client.toNode at h
  cases hp : n.Labels.lookup NodePoolLabel with
  | none => simp [hp] at h
  | some pool =>
    simp only [hp] at h
    split at h
    · simp at h
    · cases hr : n.Labels.lookup NodeRegionLabel with
      | none => simp [hr] at h
      | some region =>
        cases hz : n.Labels.lookup NodeZoneLabel with
        | none => simp [hr, hz] at h
        | some zone =>
          simp only [hr, hz, Option.some.injEq] at h
          subst h
          refine ⟨rfl, rfl, rfl, rfl, rfl, rfl, rfl, ?_⟩
          cases hcond : n.Conditions with
          | nil => simp
          | cons c cs =>
            cases hu : n.Unschedulable <;> simp

/-- Filtering a list through a partial function lists, in order, the images of the
elements on which the function is defined. -/
theorem forall₂_filter_filterMap {α β : Type} (f : α → Option β) (l : List α) :
    List.Forall₂ (fun a b => f a = some b) (l.filter fun a => (f a).isSome)
      (l.filterMap f) := by
  induction l with
  | nil => simp
  | cons a rest ih =>
    cases h : f a with
    | none => simpa [List.filter_cons, List.filterMap_cons, h] using ih
    | some b =>
      simp only [List.filter_cons, List.filterMap_cons, h, Option.isSome_some, if_true]
      exact List.Forall₂.cons h ih

/-- C19 (as amended). For every list of raw nodes and every cluster name, `toNodes`
returns, in input order, exactly the conversions of the raw nodes that carry the
node-pool, region and zone labels and, when the cluster name is not empty, whose name
starts with `gke-<clusterName>-<pool>`; every other raw node is dropped. With a non-empty
cluster name the raw nodes kept are those with the three labels and a name that follows
the naming convention. -/
theorem C19_toNodes_keeps_valid {σ : Type} (cli : client σ) (now : Int)
    (ns : List RawNode) :
    List.Forall₂ (fun raw node => cli.toNode now raw = some node)
      (ns.filter (keptRawNode cli.clusterName)) (cli.toNodes now ns) ∧
    (∀ n ∈ ns, keptRawNode cli.clusterName n = false → cli.toNode now n = none) ∧
    (∀ raw node, cli.toNode now raw = some node →
      node.Name = raw.Name ∧ raw.Labels.lookup NodePoolLabel = some node.NodePool ∧
      raw.Labels.lookup NodeRegionLabel = some node.Region ∧
      raw.Labels.lookup NodeZoneLabel = some node.Zone) ∧
    (cli.clusterName ≠ "" →
      ∀ n, keptRawNode cli.clusterName n = validRawNode cli.clusterName n) := by
  refine ⟨?_, ?_, ?_, ?_⟩
  · have h := forall₂_filter_filterMap (cli.toNode now) ns
    have hf : (fun a => (cli.toNode now a).isSome) = keptRawNode cli.clusterName := by
      funext a
      exact toNode_isSome cli now a
    rw [hf] at h
    exact h
  · intro n _ hk
    have h := toNode_isSome cli now n
    rw [hk] at h
    cases ht : cli.toNode now n with
    | none => rfl
    | some node => simp [ht] at h
  · intro raw node h
    obtain ⟨h1, _, h3, h4, h5, _⟩ := toNode_fields cli now raw node h
    exact ⟨h1, h3, h4, h5⟩
  · intro hc n
    simp [keptRawNode, validRawNode, hc]

/-- C19, on three raw nodes under the cluster name `c`: the node that follows the
convention is kept, the stray name and the node without zone label are dropped. -/
theorem C19_witness :
    (demoClient.toNodes 0
        [strayRawNode, demoRawNode "gke-c-spot-1" "spot" true false, zonelessRawNode]).map
      (fun n => n.Name) = ["gke-c-spot-1"] ∧
    List.Forall₂ (fun raw node => demoClient.toNode 0 raw = some node)
      ([strayRawNode, demoRawNode "gke-c-spot-1" "spot" true false, zonelessRawNode].filter
        (keptRawNode demoClient.clusterName))
      (demoClient.toNodes 0
        [strayRawNode, demoRawNode "gke-c-spot-1" "spot" true false, zonelessRawNode]) :=
  ⟨by decide,
   (C19_toNodes_keeps_valid demoClient 0
     [strayRawNode, demoRawNode "gke-c-spot-1" "spot" true false, zonelessRawNode]).1⟩

/-- C19 as stated fails for the empty cluster name: the raw node `stray` carries the
three labels, its name does not start with `gke--spot`, and `toNodes` keeps it. -/
theorem C19_counterexample :
    hasRequiredLabels strayRawNode = true ∧
    matchesNaming namelessClient.clusterName strayRawNode = false ∧
    validRawNode namelessClient.clusterName strayRawNode = false ∧
    (namelessClient.toNodes 0 [strayRawNode]).map (fun n => n.Name) = ["stray"] := by
  refine ⟨by decide, by decide, by decide, by decide⟩

/-! ### What each step records -/

theorem TraceExt.refl {σ : Type} (P : Event → Prop) (s : σ × List Event) :
    TraceExt P s s :=
  ⟨[], by simp, by simp⟩

theorem TraceExt.trans {σ : Type} {P : Event → Prop} {s s' s'' : σ × List Event}
    (h1 : TraceExt P s s') (h2 : TraceExt P s' s'') : TraceExt P s s'' := by
  obtain ⟨Δ1, e1, p1⟩ := h1
  obtain ⟨Δ2, e2, p2⟩ := h2
  refine ⟨Δ1 ++ Δ2, by rw [e2, e1, List.append_assoc], ?_⟩
  intro e he
  rcases List.mem_append.mp he with he | he
  · exact p1 e he
  · exact p2 e he

theorem TraceExt.mono {σ : Type} {P Q : Event → Prop} {s s' : σ × List Event}
    (h : TraceExt P s s') (hPQ : ∀ e, P e → Q e) : TraceExt Q s s' := by
  obtain ⟨Δ, e1, p1⟩ := h
  exact ⟨Δ, e1, fun e he => hPQ e (p1 e he)⟩

theorem TraceExt.single {σ : Type} {P : Event → Prop} {s s' : σ × List Event}
    (e : Event) (h : s'.2 = s.2 ++ [e]) (hP : P e) : TraceExt P s s' :=
  ⟨[e], h, by simpa using hP⟩

theorem traced_serverGroups {σ : Type} (cli : client σ) (w : σ) (log : List Event) :
    cli.traced.api.serverGroups (w, log)
      = ((cli.api.serverGroups w).1, ((cli.api.serverGroups w).2,
          log ++ [Event.serverGroups (errorOf (cli.api.serverGroups w).1)])) :=
  rfl

theorem traced_serverResources {σ : Type} (cli : client σ) (gv : String) (w : σ)
    (log : List Event) :
    cli.traced.api.serverResources gv (w, log)
      = ((cli.api.serverResources gv w).1, ((cli.api.serverResources gv w).2,
          log ++ [Event.serverResources gv (errorOf (cli.api.serverResources gv w).1)])) :=
  rfl

theorem traced_api_sleep {σ : Type} (cli : client σ) (n : Nat) (w : σ)
    (log : List Event) :
    cli.traced.api.sleep n (w, log) = (cli.api.sleep n w, log ++ [Event.sleep n]) :=
  rfl

/-- The discovery of the eviction API records only discovery calls. -/
theorem policyVersion_traced {σ : Type} (cli : client σ) (s : σ × List Event) :
    TraceExt (fun e => e.isDrain = true) s (cli.traced.policyVersion s).2 := by
  obtain ⟨w, log⟩ := s
  unfold client.policyVersion
  rw [traced_serverGroups]
  cases hg : (cli.api.serverGroups w).1 with
  | error e => exact TraceExt.single _ rfl rfl
  | ok groups =>
    simp only
    cases hf : findPolicyGroup groups with
    | none => exact TraceExt.single _ rfl rfl
    | some version =>
      simp only
      rw [traced_serverResources]
      have h1 : TraceExt (fun e => e.isDrain = true) (w, log)
          ((cli.api.serverGroups w).2,
            log ++ [Event.serverGroups (errorOf (Except.ok groups : Except String _))]) :=
        TraceExt.single _ rfl rfl
      refine h1.trans ?_
      cases hr : (cli.api.serverResources "v1" (cli.api.serverGroups w).2).1 with
      | error e => exact TraceExt.single _ rfl rfl
      | ok resources =>
        simp only
        split <;> exact TraceExt.single _ rfl rfl

/-- The trace of a run of `evictPods` holds only evictions and waits. -/
theorem EvictRun.isDrain {policy : String} {pods evicted : List Pod}
    {err : Option String} {trace : List Event}
    (h : EvictRun policy pods evicted err trace) : ∀ e ∈ trace, e.isDrain = true := by
  have hretry : ∀ (ev : Eviction) (k : Nat), ∀ e ∈ retryEvents ev k, e.isDrain = true := by
    intro ev k
    induction k with
    | zero => intro e he; simp [retryEvents] at he
    | succ k ih =>
      intro e he
      simp only [retryEvents, List.mem_cons] at he
      rcases he with rfl | rfl | he
      · rfl
      · rfl
      · exact ih e he
  induction h with
  | done => intro e he; simp at he
  | evicted pod rest evicted err trace k _ _ ih =>
    intro e he
    rcases List.mem_append.mp he with he | he
    · exact hretry _ _ e he
    · rcases List.mem_cons.mp he with rfl | he
      · rfl
      · exact ih e he
  | failed pod rest k e' msg _ _ =>
    intro e he
    rcases List.mem_append.mp he with he | he
    · exact hretry _ _ e he
    · simp only [List.mem_singleton] at he
      subst he
      rfl

/-- A drain records only discovery calls, evictions and waits. -/
theorem drainNode_traced {σ : Type} (cli : client σ) (node : Node) (s : σ × List Event) :
    TraceExt (fun e => e.isDrain = true) s (cli.traced.drainNode node s).2 := by
  have hp := policyVersion_traced cli s
  unfold client.drainNode
  cases hpv : cli.traced.policyVersion s with
  | mk r s1 =>
    rw [hpv] at hp
    cases r with
    | error e => exact hp
    | ok policy =>
      simp only
      refine hp.trans ?_
      obtain ⟨w1, log1⟩ := s1
      obtain ⟨evicted, err, w', trace, hrun, hshape⟩ :=
        evictPodsLoop_traced cli.api policy node.Pods [] w1 log1
      have hrun' : cli.traced.evictPods node policy (w1, log1)
          = (([] ++ evicted, err), (w', log1 ++ trace)) := hrun
      rw [hrun']
      exact ⟨trace, rfl, hshape.isDrain⟩

/-- What `deleteNode` records, by the step at which it ends: the re-fetch alone (it
failed, or the node is schedulable), the re-fetch and a failed deletion, the re-fetch, the
deletion and a failed stop, or all three calls with success. It returns no error in the
last case only. -/
theorem deleteNode_cases {σ : Type} (cli : client σ) (node : Node) (w : σ)
    (log : List Event) :
    ((cli.traced.deleteNode node (w, log)).1 ≠ none ∧
      ∃ e, (cli.traced.deleteNode node (w, log)).2.2
        = log ++ [Event.nodesGet node.Name e]) ∨
    ((cli.traced.deleteNode node (w, log)).1 ≠ none ∧
      ∃ e, (cli.traced.deleteNode node (w, log)).2.2
        = log ++ [Event.nodesGet node.Name none, Event.nodesDelete node.Name (some e)]) ∨
    ((cli.traced.deleteNode node (w, log)).1 ≠ none ∧
      ∃ e, (cli.traced.deleteNode node (w, log)).2.2
        = log ++ [Event.nodesGet node.Name none, Event.nodesDelete node.Name none,
            Event.instancesStop cli.project node.Zone node.Name (some e)]) ∨
    ((cli.traced.deleteNode node (w, log)).1 = none ∧
      (cli.traced.deleteNode node (w, log)).2.2
        = log ++ [Event.nodesGet node.Name none, Event.nodesDelete node.Name none,
            Event.instancesStop cli.project node.Zone node.Name none]) := by
  cases hg : cli.api.nodesGet node.Name w with
  | mk r w1 =>
    cases r with
    | error e =>
      refine Or.inl ⟨?_, some e, ?_⟩ <;>
        simp [client.deleteNode, traced_nodesGet, hg, errorOf]
    | ok n =>
      cases hu : n.Unschedulable with
      | false =>
        refine Or.inl ⟨?_, none, ?_⟩ <;>
          simp [client.deleteNode, traced_nodesGet, hg, errorOf, hu]
      | true =>
        cases hd : cli.api.nodesDelete node.Name w1 with
        | mk rd w2 =>
          cases rd with
          | some e =>
            refine Or.inr (Or.inl ⟨?_, e, ?_⟩) <;>
              simp [client.deleteNode, traced_nodesGet, traced_nodesDelete, hg, errorOf, hu,
                hd]
          | none =>
            cases hs : cli.api.instancesStop cli.project node.Zone node.Name w2 with
            | mk rs w3 =>
              cases rs with
              | some e =>
                refine Or.inr (Or.inr (Or.inl ⟨?_, e, ?_⟩)) <;>
                  simp [client.deleteNode, traced_nodesGet, traced_nodesDelete,
                    traced_instancesStop, traced_project, hg, errorOf, hu, hd, hs]
              | none =>
                refine Or.inr (Or.inr (Or.inr ⟨?_, ?_⟩)) <;>
                  simp [client.deleteNode, traced_nodesGet, traced_nodesDelete,
                    traced_instancesStop, traced_project, hg, errorOf, hu, hd, hs]

/-- The body of the third loop, written out. -/
theorem refreshStep_eq {σ : Type} (cli : client σ) (node : Node) (i : Nat)
    (cordonNodes : CordonNodes) (s : σ) :
    cli.refreshStep node i cordonNodes s
      = match cli.drainNode node (if i > 0 then cli.api.sleep 60 s else s) with
        | ((pods, some err), s) =>
          ((pods, some ("failed to drain node " ++ node.Name ++ ": " ++ err), cordonNodes), s)
        | ((pods, none), s) =>
          if node.Preemptible then
            match cli.deleteNode node s with
            | (some err, s) =>
              ((pods, some ("failed to delete node " ++ node.Name ++ ": " ++ err),
                cordonNodes), s)
            | (none, s) =>
              match cli.api.instancesStop cli.project node.Zone node.Name s with
              | (some err, s) =>
                ((pods, some ("failed to stop instance " ++ node.Name ++ ": " ++ err),
                  cordonNodes.delete node.Name), s)
              | (none, s) => ((pods, none, cordonNodes.delete node.Name), s)
          else ((pods, none, cordonNodes), s) :=
  rfl

/-- C20 (what the code does). For every preemptible target that a round of the third
loop of `RefreshNodes` terminates without error, the calls recorded after its drain are
one re-fetch of the node, one node-object deletion and two instance-stop requests: the stop
made by `deleteNode` and the stop `RefreshNodes` makes after it. -/
theorem C20_termination_stops_twice {σ : Type} (cli : client σ) (node : Node) (i : Nat)
    (cordonNodes : CordonNodes) (s : σ × List Event)
    (hpre : node.Preemptible = true)
    (hok : (cli.traced.refreshStep node i cordonNodes s).1.2.1 = none) :
    (cli.traced.refreshStep node i cordonNodes s).2.2
      = (cli.traced.drainNode node
            (if i > 0 then cli.traced.api.sleep 60 s else s)).2.2
          ++ [Event.nodesGet node.Name none, Event.nodesDelete node.Name none,
              Event.instancesStop cli.project node.Zone node.Name none,
              Event.instancesStop cli.project node.Zone node.Name none] := by
  revert hok
  rw [refreshStep_eq]
  cases hd : cli.traced.drainNode node (if i > 0 then cli.traced.api.sleep 60 s else s) with
  | mk r sd =>
    obtain ⟨pods, derr⟩ := r
    cases derr with
    | some e => intro hok; simp at hok
    | none =>
      simp only [hpre, if_true]
      obtain ⟨wd, logd⟩ := sd
      have hcases := deleteNode_cases cli node wd logd
      cases hdel : cli.traced.deleteNode node (wd, logd) with
      | mk rdel sdel =>
        rw [hdel] at hcases
        cases rdel with
        | some e => intro hok; simp at hok
        | none =>
          simp only
          have hlog : sdel.2 = logd ++ [Event.nodesGet node.Name none,
              Event.nodesDelete node.Name none,
              Event.instancesStop cli.project node.Zone node.Name none] := by
            rcases hcases with ⟨h, _⟩ | ⟨h, _⟩ | ⟨h, _⟩ | ⟨_, h⟩
            · exact absurd rfl h
            · exact absurd rfl h
            · exact absurd rfl h
            · exact h
          obtain ⟨wdel, logdel⟩ := sdel
          simp only at hlog
          rw [traced_project, traced_instancesStop]
          cases hs : (cli.api.instancesStop cli.project node.Zone node.Name wdel).1 with
          | some e => intro hok; simp at hok
          | none =>
            intro _
            simp only
            rw [hlog]
            simp

/-- C20, on the demonstration services: the round that terminates `gke-c-spot-1` records,
after the drain, one re-fetch, one deletion and two stops of the instance. -/
theorem C20_witness :
    demoSlowNode.Preemptible = true ∧
    (demoClient.traced.refreshStep demoSlowNode 0 demoCordonMap demoCordoned).1.2.1 = none ∧
    (demoClient.traced.refreshStep demoSlowNode 0 demoCordonMap demoCordoned).2.2
      = (demoClient.traced.drainNode demoSlowNode demoCordoned).2.2
          ++ [Event.nodesGet "gke-c-spot-1" none, Event.nodesDelete "gke-c-spot-1" none,
              Event.instancesStop "p" "z" "gke-c-spot-1" none,
              Event.instancesStop "p" "z" "gke-c-spot-1" none] :=
  ⟨rfl, by rw [demo_first],
   C20_termination_stops_twice demoClient demoSlowNode 0 demoCordonMap demoCordoned rfl
     (by rw [demo_first])⟩

/-- The calls `deleteNode` records that delete or stop something name its node. -/
theorem deleteNode_traced {σ : Type} (cli : client σ) (node : Node)
    (s : σ × List Event) :
    TraceExt (fun e => ∀ name, e.terminates name = true → name = node.Name) s
      (cli.traced.deleteNode node s).2 := by
  obtain ⟨w, log⟩ := s
  have hP : ∀ e ∈ [Event.nodesGet node.Name none, Event.nodesDelete node.Name none],
      ∀ name, e.terminates name = true → name = node.Name := by
    intro e he name ht
    simp only [List.mem_cons, List.mem_singleton, List.not_mem_nil, or_false] at he
    rcases he with rfl | rfl
    · simp [Event.terminates] at ht
    · simpa [Event.terminates, eq_comm] using ht
  rcases deleteNode_cases cli node w log with ⟨_, e, h⟩ | ⟨_, e, h⟩ | ⟨_, e, h⟩ | ⟨_, h⟩
  · refine ⟨_, h, ?_⟩
    intro ev hev name ht
    simp only [List.mem_singleton] at hev
    subst hev
    simp [Event.terminates] at ht
  · refine ⟨_, h, ?_⟩
    intro ev hev name ht
    simp only [List.mem_cons, List.mem_singleton, List.not_mem_nil, or_false] at hev
    rcases hev with rfl | rfl
    · simp [Event.terminates] at ht
    · simpa [Event.terminates, eq_comm] using ht
  · refine ⟨_, h, ?_⟩
    intro ev hev name ht
    simp only [List.mem_cons, List.mem_singleton, List.not_mem_nil, or_false] at hev
    rcases hev with rfl | rfl | rfl
    · simp [Event.terminates] at ht
    · simpa [Event.terminates, eq_comm] using ht
    · simpa [Event.terminates, eq_comm] using ht
  · refine ⟨_, h, ?_⟩
    intro ev hev name ht
    simp only [List.mem_cons, List.mem_singleton, List.not_mem_nil, or_false] at hev
    rcases hev with rfl | rfl | rfl
    · simp [Event.terminates] at ht
    · simpa [Event.terminates, eq_comm] using ht
    · simpa [Event.terminates, eq_comm] using ht

/-- A call of a drain deletes and stops nothing. -/
theorem not_terminates_of_isDrain (e : Event) (name : String) (h : e.isDrain = true) :
    e.terminates name = false := by
  cases e <;> simp_all [Event.isDrain, Event.terminates]

/-- A call of a cordon, an uncordon or a resolution deletes and stops nothing. -/
theorem not_terminates_of_benign (e : Event) (name : String)
    (h : e.isResolve = true ∨ e.isCordon = true ∨ e.isUncordon = true) :
    e.terminates name = false := by
  cases e <;> simp_all [Event.isResolve, Event.isCordon, Event.isUncordon, Event.terminates]

/-- A round of the third loop requests a deletion or a stop only for its own node, and
only when the node is preemptible and its drain returned no error. -/
theorem refreshStep_traced {σ : Type} (cli : client σ) (node : Node) (i : Nat)
    (cordonNodes : CordonNodes) (s : σ × List Event) :
    TraceExt
      (fun e => ∀ name, e.terminates name = true →
        name = node.Name ∧ node.Preemptible = true ∧
        (cli.traced.drainNode node
          (if i > 0 then cli.traced.api.sleep 60 s else s)).1.2 = none)
      s (cli.traced.refreshStep node i cordonNodes s).2 := by
  have hsleep : TraceExt (fun e => e.isDrain = true) s
      (if i > 0 then cli.traced.api.sleep 60 s else s) := by
    by_cases hi : i > 0
    · simp only [hi, if_true]
      obtain ⟨w, log⟩ := s
      exact TraceExt.single (Event.sleep 60) rfl rfl
    · simp only [hi, if_false]
      exact TraceExt.refl _ _
  have hdrain := hsleep.trans
    (drainNode_traced cli node (if i > 0 then cli.traced.api.sleep 60 s else s))
  have hdrain' := hdrain.mono (Q := fun e => ∀ name, e.terminates name = true →
      name = node.Name ∧ node.Preemptible = true ∧
      (cli.traced.drainNode node
        (if i > 0 then cli.traced.api.sleep 60 s else s)).1.2 = none) (by
    intro e he name ht
    rw [not_terminates_of_isDrain e name he] at ht
    simp at ht)
  rw [refreshStep_eq]
  cases hd : cli.traced.drainNode node (if i > 0 then cli.traced.api.sleep 60 s else s) with
  | mk r sd =>
    obtain ⟨pods, derr⟩ := r
    rw [hd] at hdrain'
    cases derr with
    | some e => exact hdrain'
    | none =>
      simp only
      by_cases hpre : node.Preemptible = true
      · rw [if_pos hpre]
        have hdel' : TraceExt (fun e => ∀ name, e.terminates name = true →
            name = node.Name ∧ node.Preemptible = true ∧
            ((pods, (none : Option String)), sd).1.2 = none) sd
            (cli.traced.deleteNode node sd).2 :=
          (deleteNode_traced cli node sd).mono (fun e he name ht => ⟨he name ht, hpre, rfl⟩)
        cases hdn : cli.traced.deleteNode node sd with
        | mk rdel sdel =>
          rw [hdn] at hdel'
          cases rdel with
          | some e => exact (hdrain'.trans hdel').mono (fun e he name ht => by
              have h3 := he name ht
              simpa using h3)
          | none =>
            simp only
            have hstop : TraceExt (fun e => ∀ name, e.terminates name = true →
                name = node.Name ∧ node.Preemptible = true ∧
                ((pods, (none : Option String)), sd).1.2 = none) sdel
                (cli.traced.api.instancesStop cli.traced.project node.Zone node.Name
                  sdel).2 := by
              obtain ⟨wdel, logdel⟩ := sdel
              rw [traced_instancesStop]
              refine TraceExt.single _ rfl ?_
              intro name ht
              refine ⟨?_, hpre, rfl⟩
              simpa [Event.terminates, eq_comm] using ht
            have hall := (hdrain'.trans hdel').trans hstop
            cases hs : cli.traced.api.instancesStop cli.traced.project node.Zone node.Name
                sdel with
            | mk r s2 =>
              rw [hs] at hall
              cases r with
              | some e => exact hall.mono (fun e he name ht => by
                  have h3 := he name ht
                  simpa using h3)
              | none => exact hall.mono (fun e he name ht => by
                  have h3 := he name ht
                  simpa using h3)
      · rw [if_neg hpre]
        exact hdrain'.mono (fun e he name ht => by
          have h3 := he name ht
          simpa using h3)

/-- The third loop requests a deletion or a stop only for a preemptible node of its list
whose drain returned no error. -/
theorem refreshLoop_traced {σ : Type} (cli : client σ) (nodes : List Node) :
    ∀ (i : Nat) (evictedPods : List Pod) (cordonNodes : CordonNodes) (s : σ × List Event),
      TraceExt
        (fun e => ∀ name, e.terminates name = true →
          ∃ node ∈ nodes, node.Name = name ∧ node.Preemptible = true ∧
            ∃ s0, (cli.traced.drainNode node s0).1.2 = none)
        s (cli.traced.refreshLoop nodes i evictedPods cordonNodes s).2 := by
  induction nodes with
  | nil =>
    intro i evictedPods cordonNodes s
    exact TraceExt.refl _ _
  | cons node rest ih =>
    intro i evictedPods cordonNodes s
    have hstep := (refreshStep_traced cli node i cordonNodes s).mono
      (Q := fun e => ∀ name, e.terminates name = true →
          ∃ n ∈ node :: rest, n.Name = name ∧ n.Preemptible = true ∧
            ∃ s0, (cli.traced.drainNode n s0).1.2 = none) (by
      intro e he name ht
      obtain ⟨h1, h2, h3⟩ := he name ht
      exact ⟨node, List.mem_cons_self _ _, h1.symm, h2, _, h3⟩)
    rw [client.refreshLoop]
    cases hs : cli.traced.refreshStep node i cordonNodes s with
    | mk r s1 =>
      rw [hs] at hstep
      obtain ⟨pods, err, cm⟩ := r
      cases err with
      | some e => exact hstep
      | none =>
        refine hstep.trans ((ih (i + 1) (evictedPods ++ pods) cm s1).mono ?_)
        intro e he name ht
        obtain ⟨n, hn, h⟩ := he name ht
        exact ⟨n, List.mem_cons_of_mem _ hn, h⟩

/-- The run of `RefreshNodes` on the three targets of the demonstration services: its
results, the final state and the calls made, in order. -/
theorem demo_run :
    demoClient.traced.RefreshNodes demoTargets (demoStart, [])
      = (RefreshResult.returned
          [mkPod "a" "gke-c-spot-1", mkPod "slow" "gke-c-spot-1", mkPod "c" "gke-c-spot-1",
           mkPod "d" "gke-c-spot-2"]
          (some ("failed to drain node gke-c-spot-2: "
            ++ ("failed to evict pod stuck because give up. count=3: "
              ++ disruptionBudgetMessage))),
         ({ cordoned := ["gke-c-spot-1"], deleted := ["gke-c-spot-1"],
            evictions := ["stuck", "stuck", "stuck", "d", "c", "slow", "slow", "slow", "a"] },
          [Event.nodesGet "gke-c-spot-1" none, Event.podsList "gke-c-spot-1" none,
           Event.nodesGet "gke-c-spot-2" none, Event.podsList "gke-c-spot-2" none,
           Event.nodesGet "gke-c-ondemand-1" none, Event.podsList "gke-c-ondemand-1" none,
           Event.nodesGet "gke-c-spot-1" none, Event.nodesUpdate "gke-c-spot-1" true none,
           Event.nodesGet "gke-c-spot-2" none, Event.nodesUpdate "gke-c-spot-2" true none,
           Event.nodesGet "gke-c-ondemand-1" none,
           Event.nodesUpdate "gke-c-ondemand-1" true none,
           Event.serverGroups none, Event.serverResources "v1" none,
           Event.evict (evictionOf (mkPod "a" "gke-c-spot-1") "policy/v1beta1") none,
           Event.evict (evictionOf (mkPod "slow" "gke-c-spot-1") "policy/v1beta1")
             (some disruptionBudgetMessage),
           Event.sleep 30,
           Event.evict (evictionOf (mkPod "slow" "gke-c-spot-1") "policy/v1beta1")
             (some disruptionBudgetMessage),
           Event.sleep 30,
           Event.evict (evictionOf (mkPod "slow" "gke-c-spot-1") "policy/v1beta1") none,
           Event.evict (evictionOf (mkPod "c" "gke-c-spot-1") "policy/v1beta1") none,
           Event.nodesGet "gke-c-spot-1" none, Event.nodesDelete "gke-c-spot-1" none,
           Event.instancesStop "p" "z" "gke-c-spot-1" none,
           Event.instancesStop "p" "z" "gke-c-spot-1" none,
           Event.sleep 60,
           Event.serverGroups none, Event.serverResources "v1" none,
           Event.evict (evictionOf (mkPod "d" "gke-c-spot-2") "policy/v1beta1") none,
           Event.evict (evictionOf (mkPod "stuck" "gke-c-spot-2") "policy/v1beta1")
             (some disruptionBudgetMessage),
           Event.sleep 30,
           Event.evict (evictionOf (mkPod "stuck" "gke-c-spot-2") "policy/v1beta1")
             (some disruptionBudgetMessage),
           Event.sleep 30,
           Event.evict (evictionOf (mkPod "stuck" "gke-c-spot-2") "policy/v1beta1")
             (some disruptionBudgetMessage),
           Event.nodesGet "gke-c-spot-2" none, Event.nodesUpdate "gke-c-spot-2" false none,
           Event.nodesGet "gke-c-ondemand-1" none,
           Event.nodesUpdate "gke-c-ondemand-1" false none])) := by
  simp [client.RefreshNodes, client.refreshLoop, client.rollbackNodes, client.rollbackNode,
    client.uncordonNode, errorOf,
    client.refreshStep, client.drainNode, client.policyVersion, findPolicyGroup,
    hasEvictionResource, client.evictPods, client.deleteNode, client.traced, demoClient,
    demoSlowNode, demoStuckNode, demoOndemandNode, mkNode, mkPod, evictPodsLoop,
    evictLoop_eq, traced, demoAPI, evictionOf, demoStart, disruptionBudgetMessage,
    ResourceEvictionName, ResourceEvictionKind, demoTargets,
    client.cordonNodes, client.cordonNode, client.applyCordonOrUncordon,
    client.resolveNodes, client.GetNode, client.toNode, client.GetPodListByNodeName,
    demoNodes, demoRawNode, demoPods, demoRawPod, CordonNodes.set, CordonNodes.delete,
    NodePoolLabel, NodeRegionLabel, NodeZoneLabel, PreemptibleLabel, List.lookup,
    client.toPods, client.toPod]
  decide

/-- Cordoning a node records only the read of the node and the write of its flag. -/
theorem cordonNode_traced {σ : Type} (cli : client σ) (nodeName : String)
    (s : σ × List Event) :
    TraceExt (fun e => e.isCordon = true) s (cli.traced.cordonNode nodeName s).2 := by
  obtain ⟨Δ, h1, hshape⟩ := applyCordonOrUncordon_traced cli nodeName true s
  refine ⟨Δ, h1, ?_⟩
  intro e he
  rcases hshape with ⟨e1, rfl⟩ | ⟨n, e1, rfl⟩
  · simp only [List.mem_singleton] at he
    subst he
    rfl
  · simp only [List.mem_cons, List.mem_singleton, List.not_mem_nil, or_false] at he
    rcases he with rfl | rfl <;> rfl

/-! ### Resolve and cordon first (`RefreshNodes`) -/

/-- A failed resolution ends `RefreshNodes` with a panic or with an error and no pods. -/
theorem resolveNodes_error {σ : Type} (cli : client σ) (nodeNames : List String) :
    ∀ (nodes : List Node) (s s1 : σ) (r : RefreshResult),
      cli.resolveNodes nodeNames nodes s = (.error r, s1) →
      r = .panicked ∨ ∃ e, r = .returned [] (some e) := by
  induction nodeNames with
  | nil => intro nodes s s1 r h; simp [client.resolveNodes] at h
  | cons v rest ih =>
    intro nodes s s1 r h
    rw [client.resolveNodes] at h
    cases hg : cli.GetNode v s with
    | mk g s0 =>
      rw [hg] at h
      cases g with
      | panic =>
        simp only [Prod.mk.injEq, Except.error.injEq] at h
        exact Or.inl h.1.symm
      | error e =>
        simp only [Prod.mk.injEq, Except.error.injEq] at h
        exact Or.inr ⟨_, h.1.symm⟩
      | ok node => exact ih _ _ _ _ h

/-- A successful resolution yields one node for each target. -/
theorem resolveNodes_length {σ : Type} (cli : client σ) (nodeNames : List String) :
    ∀ (nodes out : List Node) (s s1 : σ),
      cli.resolveNodes nodeNames nodes s = (.ok out, s1) →
      out.length = nodes.length + nodeNames.length := by
  induction nodeNames with
  | nil =>
    intro nodes out s s1 h
    simp only [client.resolveNodes, Prod.mk.injEq, Except.ok.injEq] at h
    simp [← h.1]
  | cons v rest ih =>
    intro nodes out s s1 h
    rw [client.resolveNodes] at h
    cases hg : cli.GetNode v s with
    | mk g s0 =>
      rw [hg] at h
      cases g with
      | panic => simp at h
      | error e => simp at h
      | ok node =>
        have := ih _ _ _ _ h
        simp only [List.length_append, List.length_singleton, List.length_cons,
          List.length_nil] at this ⊢
        omega

/-- A cordon loop that fails has cordoned and noted a prefix of the nodes and failed at
the next node. -/
theorem cordonNodes_fail {σ : Type} (cli : client σ) (nodes : List Node) :
    ∀ (start : CordonNodes) (s : σ) (err : String) (cm : CordonNodes) (s2 : σ),
      cli.cordonNodes nodes start s = ((some err, cm), s2) →
      ∃ pre n post sMid e,
        nodes = pre ++ n :: post ∧
        cli.cordonNodes pre start s = ((none, cm), sMid) ∧
        cli.cordonNode n.Name sMid = (some e, s2) ∧
        cm = cordonMapOf pre start ∧
        err = "failed to cordon node " ++ n.Name ++ ": " ++ e := by
  induction nodes with
  | nil => intro start s err cm s2 h; simp [client.cordonNodes] at h
  | cons node rest ih =>
    intro start s err cm s2 h
    rw [client.cordonNodes] at h
    cases hc : cli.cordonNode node.Name s with
    | mk r s0 =>
      rw [hc] at h
      cases r with
      | some e =>
        simp only [Prod.mk.injEq, Option.some.injEq] at h
        obtain ⟨⟨h1, h2⟩, h3⟩ := h
        subst h2 h3
        exact ⟨[], node, rest, s, e, rfl, rfl, hc, rfl, h1.symm⟩
      | none =>
        obtain ⟨pre, n, post, sMid, e, h1, h2, h3, h4, h5⟩ := ih _ _ _ _ _ h
        refine ⟨node :: pre, n, post, sMid, e, by rw [h1]; rfl, ?_, h3, ?_, h5⟩
        · rw [client.cordonNodes, hc]
          exact h2
        · rw [h4]
          rfl

/-- The keys of the map after `cordonNodes[name] = node`. -/
theorem CordonNodes.keys_set (m : CordonNodes) (name : String) (node : Node) (k : String) :
    k ∈ (m.set name node).map Prod.fst ↔ k = name ∨ k ∈ m.map Prod.fst := by
  induction m with
  | nil => simp [CordonNodes.set]
  | cons kv rest ih =>
    obtain ⟨k0, old⟩ := kv
    by_cases h : k0 = name
    · simp only [CordonNodes.set, h, if_true, List.map_cons, List.mem_cons]
      tauto
    · simp only [CordonNodes.set, h, if_false, List.map_cons, List.mem_cons, ih]
      tauto

/-- The assignment `cordonNodes[name] = node` keeps the keys distinct. -/
theorem CordonNodes.nodup_set (m : CordonNodes) (name : String) (node : Node)
    (h : (m.map Prod.fst).Nodup) : ((m.set name node).map Prod.fst).Nodup := by
  induction m with
  | nil => simp [CordonNodes.set]
  | cons kv rest ih =>
    obtain ⟨k0, old⟩ := kv
    simp only [List.map_cons, List.nodup_cons] at h
    by_cases hk : k0 = name
    · simp only [CordonNodes.set, hk, if_true, List.map_cons, List.nodup_cons]
      rw [← hk]
      exact h
    · simp only [CordonNodes.set, hk, if_false, List.map_cons, List.nodup_cons]
      refine ⟨?_, ih h.2⟩
      rw [CordonNodes.keys_set]
      rintro (h1 | h1)
      · exact hk h1
      · exact h.1 h1

/-- An entry of the map after `cordonNodes[name] = node` is the new entry or an old one. -/
theorem CordonNodes.mem_set (m : CordonNodes) (name : String) (node : Node)
    (kv : String × Node) (h : kv ∈ m.set name node) : kv = (name, node) ∨ kv ∈ m := by
  induction m with
  | nil => simpa [CordonNodes.set] using h
  | cons kv0 rest ih =>
    obtain ⟨k0, old⟩ := kv0
    by_cases hk : k0 = name
    · simp only [CordonNodes.set, hk, if_true, List.mem_cons] at h
      rcases h with h | h
      · exact Or.inl h
      · exact Or.inr (List.mem_cons_of_mem _ h)
    · simp only [CordonNodes.set, hk, if_false, List.mem_cons] at h
      rcases h with h | h
      · exact Or.inr (by rw [h]; exact List.mem_cons_self _ _)
      · rcases ih h with h1 | h1
        · exact Or.inl h1
        · exact Or.inr (List.mem_cons_of_mem _ h1)

/-- The map noted by the cordon loop: its keys are distinct, they are the names of the
nodes noted (and the keys it started from), and every entry holds a node under its own
name. -/
theorem cordonMapOf_spec (pre : List Node) :
    ∀ (start : CordonNodes), (start.map Prod.fst).Nodup →
      (∀ kv ∈ start, kv.2.Name = kv.1) →
      ((cordonMapOf pre start).map Prod.fst).Nodup ∧
      (∀ kv ∈ cordonMapOf pre start, kv.2.Name = kv.1) ∧
      (∀ name, name ∈ (cordonMapOf pre start).map Prod.fst
        ↔ name ∈ start.map Prod.fst ∨ ∃ m ∈ pre, m.Name = name) := by
  induction pre with
  | nil =>
    intro start h1 h2
    exact ⟨h1, h2, fun name => by simp [cordonMapOf]⟩
  | cons node rest ih =>
    intro start h1 h2
    have hstep : cordonMapOf (node :: rest) start
        = cordonMapOf rest (start.set node.Name node) := rfl
    rw [hstep]
    obtain ⟨i1, i2, i3⟩ := ih (start.set node.Name node)
      (CordonNodes.nodup_set start node.Name node h1)
      (by
        intro kv hkv
        rcases CordonNodes.mem_set start node.Name node kv hkv with h | h
        · rw [h]
        · exact h2 kv h)
    refine ⟨i1, i2, ?_⟩
    intro name
    rw [i3, CordonNodes.keys_set]
    simp only [List.mem_cons, exists_eq_or_imp]
    constructor
    · rintro ((h | h) | h)
      · exact Or.inr (Or.inl h.symm)
      · exact Or.inl h
      · exact Or.inr (Or.inr h)
    · rintro (h | h | h)
      · exact Or.inl (Or.inr h)
      · exact Or.inl (Or.inl h.symm)
      · exact Or.inr h

/-- The rollback of one node records one uncordon request for it. -/
theorem rollbackNode_block {σ : Type} (cli : client σ) (node : Node)
    (err : Option String) (s : σ × List Event) :
    ∃ Δ, (cli.traced.rollbackNode node err s).2.2 = s.2 ++ Δ ∧ UncordonBlock node.Name Δ := by
  obtain ⟨Δ, hΔ, hshape⟩ := applyCordonOrUncordon_traced cli node.Name false s
  have hstate : (cli.traced.rollbackNode node err s).2
      = (cli.traced.applyCordonOrUncordon node.Name false s).2 := by
    unfold client.rollbackNode client.uncordonNode
    split
    · next h => rw [h]
    · next h => rw [h]; cases err <;> rfl
  exact ⟨Δ, by rw [hstate, hΔ], hshape⟩

/-- The rollback loop records one uncordon request for each entry it visits, in the
order of the visit, and nothing else. -/
theorem rollbackLoop_run {σ : Type} (cli : client σ) (order : List (String × Node)) :
    ∀ (err : Option String) (s : σ × List Event),
      ∃ Δ, (cli.traced.rollbackLoop order err s).2.2 = s.2 ++ Δ ∧
        UncordonRun order Δ := by
  induction order with
  | nil =>
    intro err s
    exact ⟨[], by simp [client.rollbackLoop], UncordonRun.nil⟩
  | cons kv rest ih =>
    intro err s
    obtain ⟨key, node⟩ := kv
    obtain ⟨Δ1, h1, hb⟩ := rollbackNode_block cli node err s
    obtain ⟨Δ2, h2, hr⟩ := ih (cli.traced.rollbackNode node err s).1
      (cli.traced.rollbackNode node err s).2
    have hstep : cli.traced.rollbackLoop ((key, node) :: rest) err s
        = cli.traced.rollbackLoop rest (cli.traced.rollbackNode node err s).1
            (cli.traced.rollbackNode node err s).2 := by
      rw [client.rollbackLoop]
    rw [hstep]
    exact ⟨Δ1 ++ Δ2, by rw [h2, h1, List.append_assoc], UncordonRun.cons _ _ _ _ _ hb hr⟩

/-- The deferred rollback records one uncordon request for each node of the map, in the
order in which the map is visited, which is some permutation of its entries, and nothing
else. -/
theorem rollbackNodes_run {σ : Type} (cli : client σ) (cordonNodes : CordonNodes)
    (err : Option String) (s : σ × List Event) :
    ∃ order Δ, List.Perm order cordonNodes ∧
      (cli.traced.rollbackNodes cordonNodes err s).2.2 = s.2 ++ Δ ∧
      UncordonRun order Δ := by
  obtain ⟨Δ, h1, h2⟩ := rollbackLoop_run cli (cli.rangeOrder cordonNodes).val err s
  exact ⟨(cli.rangeOrder cordonNodes).val, Δ, (cli.rangeOrder cordonNodes).property, h1, h2⟩

/-- A call of an uncordon request is a read of a node or a write of the schedulable
flag. -/
theorem UncordonRun.isUncordon {cordonNodes : CordonNodes} {trace : List Event}
    (h : UncordonRun cordonNodes trace) : ∀ e ∈ trace, e.isUncordon = true := by
  induction h with
  | nil => intro e he; simp at he
  | cons key node rest calls trace hb _ ih =>
    intro e he
    rcases List.mem_append.mp he with he | he
    · rcases hb with ⟨e1, rfl⟩ | ⟨n, e1, rfl⟩
      · simp only [List.mem_singleton] at he
        subst he
        rfl
      · simp only [List.mem_cons, List.mem_singleton, List.not_mem_nil, or_false] at he
        rcases he with rfl | rfl <;> rfl
    · exact ih e he

/-- A call of a resolution, a cordon or an uncordon evicts, deletes and stops nothing. -/
theorem not_destructive_of_benign (e : Event)
    (h : e.isResolve = true ∨ e.isCordon = true ∨ e.isUncordon = true) :
    e.isDestructive = false := by
  cases e <;> simp_all [Event.isResolve, Event.isCordon, Event.isUncordon, Event.isDestructive]

/-- The calls of an extended trace at the positions of the old trace are the old calls. -/
theorem TraceExt.get_old {σ : Type} {P : Event → Prop} {s s1 : σ × List Event}
    (h : TraceExt P s s1) (k : Nat) (hk : k < s.2.length) : s1.2[k]? = s.2[k]? := by
  obtain ⟨Δ, hΔ, _⟩ := h
  rw [hΔ, List.getElem?_append_left hk]

/-- The calls of an extended trace at the positions past the old trace satisfy the
property of the extension. -/
theorem TraceExt.get_new {σ : Type} {P : Event → Prop} {s s1 : σ × List Event}
    (h : TraceExt P s s1) (k : Nat) (ev : Event) (hget : s1.2[k]? = some ev)
    (hk : s.2.length ≤ k) : P ev := by
  obtain ⟨Δ, hΔ, hP⟩ := h
  rw [hΔ, List.getElem?_append_right hk] at hget
  exact hP ev (List.getElem?_mem hget)

/-- A cordon that returns no error has read the node without error and, unless it was
read as unschedulable already, has written it as unschedulable without error. -/
theorem cordonNode_ok_traced {σ : Type} (cli : client σ) (name : String)
    (s s1 : σ × List Event) (h : cli.traced.cordonNode name s = (none, s1)) :
    ∃ Δ, s1.2 = s.2 ++ Δ ∧ CordonBlock name Δ := by
  obtain ⟨w, log⟩ := s
  cases hg : cli.api.nodesGet name w with
  | mk r w1 =>
    cases r with
    | error e =>
      simp [client.cordonNode, client.applyCordonOrUncordon, client.traced, traced, hg] at h
    | ok n =>
      by_cases hn : n.Unschedulable = true
      · simp [client.cordonNode, client.applyCordonOrUncordon, client.traced, traced, hg,
          errorOf, hn] at h
        exact ⟨[Event.nodesGet name none], by rw [← h], Or.inl rfl⟩
      · simp [client.cordonNode, client.applyCordonOrUncordon, client.traced, traced, hg,
          errorOf, hn] at h
        obtain ⟨h1, h2⟩ := h
        refine ⟨[Event.nodesGet name none, Event.nodesUpdate n.Name true none], ?_,
          Or.inr ⟨_, rfl⟩⟩
        rw [← h2, h1]

/-- A cordon loop that succeeds has made one successful cordon request for each node, in
order, and no other call. -/
theorem cordonNodes_ok_traced {σ : Type} (cli : client σ) (nodes : List Node) :
    ∀ (start : CordonNodes) (s : σ × List Event) (cm : CordonNodes) (s2 : σ × List Event),
      cli.traced.cordonNodes nodes start s = ((none, cm), s2) →
      ∃ Δ, s2.2 = s.2 ++ Δ ∧ CordonRun nodes Δ := by
  induction nodes with
  | nil =>
    intro start s cm s2 h
    simp only [client.cordonNodes, Prod.mk.injEq, true_and] at h
    exact ⟨[], by rw [← h.2]; simp, CordonRun.nil⟩
  | cons node rest ih =>
    intro start s cm s2 h
    rw [client.cordonNodes] at h
    cases hc : cli.traced.cordonNode node.Name s with
    | mk r s0 =>
      rw [hc] at h
      cases r with
      | some e => simp at h
      | none =>
        obtain ⟨Δ1, h1, hb⟩ := cordonNode_ok_traced cli node.Name s s0 hc
        obtain ⟨Δ2, h2, hr⟩ := ih _ _ _ _ h
        exact ⟨Δ1 ++ Δ2, by rw [h2, h1, List.append_assoc], CordonRun.cons _ _ _ _ hb hr⟩

/-- A resolution that succeeds has read the target and listed the pods of the node,
both without error. -/
theorem GetNode_ok_traced {σ : Type} (cli : client σ) (v : String)
    (s s1 : σ × List Event) (node : Node) (h : cli.traced.GetNode v s = (.ok node, s1)) :
    s1.2 = s.2 ++ [Event.nodesGet v none, Event.podsList node.Name none] := by
  obtain ⟨w, log⟩ := s
  cases hg : cli.api.nodesGet v w with
  | mk r w1 =>
    cases r with
    | error e => simp [client.GetNode, traced_nodesGet, hg] at h
    | ok res =>
      cases ht : cli.toNode (cli.api.now w1) res with
      | none => simp [client.GetNode, traced_nodesGet, traced_toNode, traced_now, hg, ht] at h
      | some node0 =>
        cases hp : cli.api.podsList node0.Name w1 with
        | mk rp w2 =>
          cases rp with
          | error e =>
            simp [client.GetNode, client.GetPodListByNodeName, traced_nodesGet,
              traced_podsList, traced_toNode, traced_now, hg, ht, hp] at h
          | ok pods =>
            simp [client.GetNode, client.GetPodListByNodeName, traced_nodesGet,
              traced_podsList, traced_toNode, traced_now, hg, errorOf, ht, hp] at h
            obtain ⟨h1, h2⟩ := h
            rw [← h2, ← h1]

/-- A resolution loop that succeeds has made one successful resolution for each target
name, in order, and no other call. -/
theorem resolveNodes_ok_traced {σ : Type} (cli : client σ) (nodeNames : List String) :
    ∀ (acc out : List Node) (s s1 : σ × List Event),
      cli.traced.resolveNodes nodeNames acc s = (.ok out, s1) →
      ∃ nodes Δ, out = acc ++ nodes ∧ s1.2 = s.2 ++ Δ ∧ ResolveRun nodeNames nodes Δ := by
  induction nodeNames with
  | nil =>
    intro acc out s s1 h
    simp only [client.resolveNodes, Prod.mk.injEq, Except.ok.injEq] at h
    exact ⟨[], [], by rw [← h.1]; simp, by rw [← h.2]; simp, ResolveRun.nil⟩
  | cons v rest ih =>
    intro acc out s s1 h
    rw [client.resolveNodes] at h
    cases hg : cli.traced.GetNode v s with
    | mk g s0 =>
      rw [hg] at h
      cases g with
      | panic => simp at h
      | error e => simp at h
      | ok node =>
        have h0 := GetNode_ok_traced cli v s s0 node hg
        obtain ⟨nodes, Δ, h1, h2, h3⟩ := ih _ _ _ _ h
        refine ⟨node :: nodes, _, ?_, ?_, ResolveRun.cons v node rest nodes Δ h3⟩
        · rw [h1]; simp
        · rw [h2, h0]; simp

/-- C16. In every run of `RefreshNodes` with the calls recorded: if resolving a target
fails, the run ends there with a panic or an error and no pods, and only reads of nodes and
listings of pods were made (no write of a flag, no eviction, deletion or stop); if the
cordon of a target fails, a successful cordon request was made for each target `pre`
before it, the run returns an error and no pods, what follows the failed cordon is one
uncordon request for each entry of the map, in the order the map is visited, the keys of
the map being the names of `pre`, and no eviction, deletion or stop is made; and an
eviction, deletion or stop is made only in a run whose trace begins with a successful
resolution of every target followed by a successful cordon request for every target, at
a position after all those calls. -/
theorem C16_resolve_and_cordon_first {σ : Type} (cli : client σ) (nodeNames : List String)
    (w : σ) :
    (∀ r s1, cli.traced.resolveNodes nodeNames [] (w, []) = (.error r, s1) →
      cli.traced.RefreshNodes nodeNames (w, []) = (r, s1) ∧
      (r = .panicked ∨ ∃ e, r = .returned [] (some e)) ∧
      ∀ ev ∈ s1.2, ev.isResolve = true ∧ ev.isDestructive = false ∧
        ∀ n b e, ev ≠ Event.nodesUpdate n b e) ∧
    (∀ nodes s1 err cm s2,
      cli.traced.resolveNodes nodeNames [] (w, []) = (.ok nodes, s1) →
      cli.traced.cordonNodes nodes [] s1 = ((some err, cm), s2) →
      ∃ pre n post sMid e Δc order Δ,
        nodes = pre ++ n :: post ∧
        cli.traced.cordonNodes pre [] s1 = ((none, cm), sMid) ∧
        sMid.2 = s1.2 ++ Δc ∧ CordonRun pre Δc ∧
        cli.traced.cordonNode n.Name sMid = (some e, s2) ∧
        (cm.map Prod.fst).Nodup ∧ (∀ kv ∈ cm, kv.2.Name = kv.1) ∧
        (∀ name, name ∈ cm.map Prod.fst ↔ ∃ m ∈ pre, m.Name = name) ∧
        (∃ e1, (cli.traced.RefreshNodes nodeNames (w, [])).1 = .returned [] (some e1)) ∧
        List.Perm order cm ∧
        (cli.traced.RefreshNodes nodeNames (w, [])).2.2 = s2.2 ++ Δ ∧
        UncordonRun order Δ ∧
        ∀ ev ∈ (cli.traced.RefreshNodes nodeNames (w, [])).2.2, ev.isDestructive = false) ∧
    (∀ k ev, (cli.traced.RefreshNodes nodeNames (w, [])).2.2[k]? = some ev →
      ev.isDestructive = true →
      ∃ nodes s1 cm s2 Δr Δc,
        cli.traced.resolveNodes nodeNames [] (w, []) = (.ok nodes, s1) ∧
        s1.2 = Δr ∧ ResolveRun nodeNames nodes Δr ∧
        cli.traced.cordonNodes nodes [] s1 = ((none, cm), s2) ∧
        s2.2 = Δr ++ Δc ∧ CordonRun nodes Δc ∧
        (∃ rest, (cli.traced.RefreshNodes nodeNames (w, [])).2.2 = s2.2 ++ rest) ∧
        s2.2.length ≤ k) := by
  have hres : TraceExt (fun e => e.isResolve = true) (w, [])
      (cli.traced.resolveNodes nodeNames [] (w, [])).2 :=
    resolveNodes_traced cli nodeNames [] (w, [])
  have hresolved : ∀ r s1, cli.traced.resolveNodes nodeNames [] (w, []) = (r, s1) →
      ∀ ev ∈ s1.2, ev.isResolve = true := by
    intro r s1 h ev hev
    rw [h] at hres
    obtain ⟨Δ, hΔ, hP⟩ := hres
    simp only [List.nil_append] at hΔ
    rw [hΔ] at hev
    exact hP ev hev
  have hcordoned : ∀ nodes s1 r s2,
      cli.traced.resolveNodes nodeNames [] (w, []) = (.ok nodes, s1) →
      cli.traced.cordonNodes nodes [] s1 = (r, s2) →
      ∀ ev ∈ s2.2, ev.isDestructive = false := by
    intro nodes s1 r s2 h1 h2 ev hev
    obtain ⟨Δ, hΔ, hP⟩ := cordonNodes_traced cli nodes [] s1
    rw [h2] at hΔ
    simp only at hΔ
    rw [hΔ] at hev
    rcases List.mem_append.mp hev with hev | hev
    · exact not_destructive_of_benign ev (Or.inl (hresolved _ _ h1 ev hev))
    · exact not_destructive_of_benign ev (Or.inr (Or.inl (hP ev hev)))
  have hfailed : ∀ nodes s1 err cm s2,
      cli.traced.resolveNodes nodeNames [] (w, []) = (.ok nodes, s1) →
      cli.traced.cordonNodes nodes [] s1 = ((some err, cm), s2) →
      cli.traced.RefreshNodes nodeNames (w, [])
        = (.returned [] (cli.traced.rollbackNodes cm (some err) s2).1,
           (cli.traced.rollbackNodes cm (some err) s2).2) := by
    intro nodes s1 err cm s2 h1 h2
    rw [client.RefreshNodes, h1]
    simp only
    rw [h2]
  refine ⟨?_, ?_, ?_⟩
  · intro r s1 h
    refine ⟨by rw [client.RefreshNodes, h], resolveNodes_error _ _ _ _ _ _ h, ?_⟩
    intro ev hev
    have hr := hresolved _ _ h ev hev
    refine ⟨hr, not_destructive_of_benign ev (Or.inl hr), ?_⟩
    intro n b e hne
    rw [hne] at hr
    simp [Event.isResolve] at hr
  · intro nodes s1 err cm s2 h1 h2
    obtain ⟨pre, n, post, sMid, e, hsplit, hpre, hfail, hcm, _⟩ :=
      cordonNodes_fail cli.traced nodes [] s1 err cm s2 h2
    obtain ⟨k1, k2, k3⟩ := cordonMapOf_spec pre [] (by simp) (by simp)
    obtain ⟨order, Δ, hperm, hΔ, hrun⟩ := rollbackNodes_run cli cm (some err) s2
    obtain ⟨Δc, hc1, hc2⟩ := cordonNodes_ok_traced cli pre [] s1 cm sMid hpre
    have hrun2 := hfailed nodes s1 err cm s2 h1 h2
    refine ⟨pre, n, post, sMid, e, Δc, order, Δ, hsplit, hpre, hc1, hc2, hfail, ?_, ?_, ?_,
      ?_, hperm, ?_, hrun, ?_⟩
    · rw [hcm]; exact k1
    · rw [hcm]; exact k2
    · intro name
      rw [hcm, k3]
      simp
    · have hkeep := (rollbackNodes_traced cli cm (some err) s2).2 (by simp)
      rw [hrun2]
      cases hr : (cli.traced.rollbackNodes cm (some err) s2).1 with
      | none => exact absurd hr hkeep
      | some e1 => exact ⟨e1, rfl⟩
    · rw [hrun2]
      exact hΔ
    · intro ev hev
      rw [hrun2] at hev
      simp only at hev
      rw [hΔ] at hev
      rcases List.mem_append.mp hev with hev | hev
      · exact hcordoned _ _ _ _ h1 h2 ev hev
      · exact not_destructive_of_benign ev (Or.inr (Or.inr (hrun.isUncordon ev hev)))
  · intro k ev hget hd
    have hev : ev ∈ (cli.traced.RefreshNodes nodeNames (w, [])).2.2 :=
      List.getElem?_mem hget
    cases h1 : cli.traced.resolveNodes nodeNames [] (w, []) with
    | mk r s1 =>
      cases r with
      | error r =>
        have hrun : (cli.traced.RefreshNodes nodeNames (w, [])).2 = s1 := by
          rw [client.RefreshNodes, h1]
        rw [hrun] at hev
        have := not_destructive_of_benign ev (Or.inl (hresolved _ _ h1 ev hev))
        rw [this] at hd
        exact absurd hd (by simp)
      | ok nodes =>
        cases h2 : cli.traced.cordonNodes nodes [] s1 with
        | mk rc s2 =>
          obtain ⟨cerr, cm⟩ := rc
          cases cerr with
          | some err =>
            have hrun2 := hfailed nodes s1 err cm s2 h1 h2
            obtain ⟨order, Δ, _, hΔ, hrun⟩ := rollbackNodes_run cli cm (some err) s2
            rw [hrun2] at hev
            simp only at hev
            rw [hΔ] at hev
            have hnd : ev.isDestructive = false := by
              rcases List.mem_append.mp hev with hev | hev
              · exact hcordoned _ _ _ _ h1 h2 ev hev
              · exact not_destructive_of_benign ev
                  (Or.inr (Or.inr (hrun.isUncordon ev hev)))
            rw [hnd] at hd
            exact absurd hd (by simp)
          | none =>
            have hext : TraceExt (fun _ => True) s2
                (cli.traced.RefreshNodes nodeNames (w, [])).2 := by
              rw [client.RefreshNodes, h1]
              simp only
              rw [h2]
              simp only
              have hloop := (refreshLoop_traced cli nodes 0 [] cm s2).mono
                (Q := fun _ => True) (fun _ _ => trivial)
              cases hl : cli.traced.refreshLoop nodes 0 [] cm s2 with
              | mk rl s3 =>
                rw [hl] at hloop
                obtain ⟨pods, lerr, cm2⟩ := rl
                have hroll : TraceExt (fun e => e.isUncordon = true) s3
                    (cli.traced.rollbackNodes cm2 lerr s3).2 :=
                  (rollbackNodes_traced cli cm2 lerr s3).1
                exact hloop.trans (hroll.mono (fun _ _ => trivial))
            have hpre := hcordoned _ _ _ _ h1 h2
            obtain ⟨nodes1, Δr, hn1, hr1, hr2⟩ :=
              resolveNodes_ok_traced cli nodeNames [] nodes (w, []) s1 h1
            obtain ⟨Δc, hc1, hc2⟩ := cordonNodes_ok_traced cli nodes [] s1 cm s2 h2
            simp only [List.nil_append] at hn1 hr1
            subst hn1
            refine ⟨nodes, s1, cm, s2, Δr, Δc, rfl, hr1, hr2, h2, by rw [hc1, hr1], hc2,
              ?_, ?_⟩
            · obtain ⟨rest, hrest, _⟩ := hext
              exact ⟨rest, hrest⟩
            · by_contra hlt
              have hk : k < s2.2.length := Nat.lt_of_not_le hlt
              have hold := hext.get_old k hk
              rw [hget] at hold
              have hmem : ev ∈ s2.2 := List.getElem?_mem hold.symm
              have := hpre ev hmem
              rw [this] at hd
              exact absurd hd (by simp)

/-- C16, on the services that refuse to write `gke-c-ondemand-1`: the three targets
resolve, the first two are cordoned and the cordon of the third fails; the run returns an
error and no pods, makes no eviction, deletion or stop, and after the failed cordon it
uncordons `gke-c-spot-1` and `gke-c-spot-2` and nothing else. -/
theorem C16_witness :
    (∃ e1, (refusingClient.traced.RefreshNodes demoTargets (demoStart, [])).1
      = RefreshResult.returned [] (some e1)) ∧
    (∀ ev ∈ (refusingClient.traced.RefreshNodes demoTargets (demoStart, [])).2.2,
      ev.isDestructive = false) ∧
    (refusingClient.traced.RefreshNodes demoTargets (demoStart, [])).2.2
      = (refusingClient.traced.cordonNodes [demoSlowNode, demoStuckNode, demoOndemandNode] []
          (refusingClient.traced.resolveNodes demoTargets [] (demoStart, [])).2).2.2
        ++ [Event.nodesGet "gke-c-spot-1" none, Event.nodesUpdate "gke-c-spot-1" false none,
            Event.nodesGet "gke-c-spot-2" none,
            Event.nodesUpdate "gke-c-spot-2" false none] := by
  obtain ⟨_, _, _, _, _, _, _, _, _, _, _, _, _, _, _, _, h1, _, _, _, h2⟩ :=
    (C16_resolve_and_cordon_first refusingClient demoTargets demoStart).2.1
      [demoSlowNode, demoStuckNode, demoOndemandNode]
      (refusingClient.traced.resolveNodes demoTargets [] (demoStart, [])).2
      "failed to cordon node gke-c-ondemand-1: update refused"
      [("gke-c-spot-1", demoSlowNode), ("gke-c-spot-2", demoStuckNode)]
      (refusingClient.traced.cordonNodes [demoSlowNode, demoStuckNode, demoOndemandNode] []
        (refusingClient.traced.resolveNodes demoTargets [] (demoStart, [])).2).2
      rfl rfl
  exact ⟨h1, h2, by decide⟩

/-! ### Rollback after a failed termination (`RefreshNode`, `RefreshNodes`) -/

/-- C13 (what the code does). In every run of `RefreshNode` with the calls recorded in
which the node resolves, the cordon succeeds, the drain succeeds, the node is preemptible
and `deleteNode` returns an error (the re-fetch failed, the node was read as schedulable,
the delete request failed or the stop failed), `RefreshNode` returns the pods and the
error in the very state `deleteNode` left: no uncordon is requested after it. -/
theorem C13_RefreshNode_skips_rollback {σ : Type} (cli : client σ) (nodeName : String)
    (w : σ) (node : Node) (s1 s2 s3 s4 : σ × List Event) (pods : List Pod) (err : String)
    (hget : cli.traced.GetNode nodeName (w, []) = (.ok node, s1))
    (hcordon : cli.traced.cordonNode node.Name s1 = (none, s2))
    (hdrain : cli.traced.drainNode node s2 = ((pods, none), s3))
    (hpre : node.Preemptible = true)
    (hdel : cli.traced.deleteNode node s3 = (some err, s4)) :
    cli.traced.RefreshNode nodeName (w, [])
      = (RefreshResult.returned pods
          (some ("failed to delete node " ++ node.Name ++ ": " ++ err)), s4) := by
  unfold client.RefreshNode
  simp only [hget, hcordon, hdrain, hpre, if_true, hdel]

/-- The drain of `gke-c-spot-1` on the services that refuse to delete a node. -/
theorem stubborn_drain :
    stubbornClient.traced.drainNode demoSlowNode soloCordoned
      = (([mkPod "a" "gke-c-spot-1", mkPod "slow" "gke-c-spot-1", mkPod "c" "gke-c-spot-1"],
          none), soloDrained) := by
  simp [client.drainNode, client.policyVersion, findPolicyGroup,
    hasEvictionResource, client.evictPods, client.traced, stubbornClient, stubbornAPI,
    demoSlowNode, mkNode, mkPod, evictPodsLoop,
    evictLoop_eq, traced, demoAPI, evictionOf, disruptionBudgetMessage,
    ResourceEvictionName, ResourceEvictionKind, soloCordoned, soloResolved, soloDrained,
    errorOf]

/-- C13, on the services that refuse to delete a node: `gke-c-spot-1` is cordoned and
drained, the delete request fails, and `RefreshNode` returns the error with the node not
deleted, still cordoned, and the refused deletion as the last call of the run. -/
theorem C13_witness :
    stubbornClient.traced.RefreshNode "gke-c-spot-1" (demoStart, [])
      = (RefreshResult.returned
          [mkPod "a" "gke-c-spot-1", mkPod "slow" "gke-c-spot-1", mkPod "c" "gke-c-spot-1"]
          (some ("failed to delete node " ++ demoSlowNode.Name ++ ": "
            ++ "detect schedulable flag, aborting deleteNode node gke-c-spot-1: delete refused")),
         soloRefused) ∧
    soloRefused.1.cordoned = ["gke-c-spot-1"] ∧ soloRefused.1.deleted = [] ∧
    soloRefused.2.getLast? = some (Event.nodesDelete "gke-c-spot-1" (some "delete refused")) :=
  ⟨C13_RefreshNode_skips_rollback stubbornClient "gke-c-spot-1" demoStart demoSlowNode
     soloResolved soloCordoned soloDrained soloRefused
     [mkPod "a" "gke-c-spot-1", mkPod "slow" "gke-c-spot-1", mkPod "c" "gke-c-spot-1"]
     "detect schedulable flag, aborting deleteNode node gke-c-spot-1: delete refused"
     rfl rfl stubborn_drain rfl rfl,
   rfl, rfl, by decide⟩

/-- The deferred rollback reads, as the first call of an uncordon request, every node of
the map. -/
theorem UncordonRun.requests {cordonNodes : CordonNodes} {trace : List Event}
    (h : UncordonRun cordonNodes trace) :
    ∀ kv ∈ cordonNodes, ∃ e, Event.nodesGet kv.2.Name e ∈ trace := by
  induction h with
  | nil => intro kv hkv; simp at hkv
  | cons key node rest calls trace hb _ ih =>
    intro kv hkv
    rcases List.mem_cons.mp hkv with hkv | hkv
    · subst hkv
      rcases hb with ⟨e1, rfl⟩ | ⟨n, e1, rfl⟩
      · exact ⟨e1, by simp⟩
      · exact ⟨none, by simp⟩
    · obtain ⟨e1, he1⟩ := ih kv hkv
      exact ⟨e1, List.mem_append_right _ he1⟩

/-- C12 (what the code does). In a run of `RefreshNodes` with the calls recorded in which
all targets resolve and cordon, the targets before `n` are processed without error, and
the round of `n` ends with an error after the deletion of the node object of `n` has
succeeded (the stop of the instance inside `deleteNode` failed) and with `n` still in the
map `cordonNodes`: the deferred rollback that follows requests an uncordon for every node
of the map, in the order the map is visited, `n` included, so the run reads `n` for an
uncordon after its deletion. -/
theorem C12_uncordon_after_deletion {σ : Type} (cli : client σ)
    (nodeNames : List String) (w : σ) (nodes pre post : List Node) (n : Node)
    (s1 s2 s3 s4 : σ × List Event) (cordonNodes mid last : CordonNodes)
    (podsPerNode : List (List Pod)) (pods : List Pod) (e key : String)
    (hres : cli.traced.resolveNodes nodeNames [] (w, []) = (.ok nodes, s1))
    (hcor : cli.traced.cordonNodes nodes [] s1 = ((none, cordonNodes), s2))
    (hsplit : nodes = pre ++ n :: post)
    (hpre : Drained cli.traced pre 0 cordonNodes s2 podsPerNode mid s3)
    (hfail : cli.traced.refreshStep n pre.length mid s3 = ((pods, some e, last), s4))
    (hdeleted : Event.nodesDelete n.Name none ∈ s4.2)
    (hin : (key, n) ∈ last) :
    ∃ (order : CordonNodes) (Δ : List Event) (e1 : Option String),
      List.Perm order last ∧
      (cli.traced.RefreshNodes nodeNames (w, [])).2.2 = s4.2 ++ Δ ∧
      Event.nodesDelete n.Name none ∈ s4.2 ∧
      UncordonRun order Δ ∧
      Event.nodesGet n.Name e1 ∈ Δ := by
  have hloop : cli.traced.refreshLoop nodes 0 [] cordonNodes s2
      = ((podsPerNode.flatten ++ pods, some e, last), s4) := by
    rw [hsplit, refreshLoop_of_drained cli.traced hpre, client.refreshLoop]
    simp [hfail]
  obtain ⟨order, Δ, hperm, hΔ, hrun⟩ := rollbackNodes_run cli last (some e) s4
  obtain ⟨e1, he1⟩ := hrun.requests (key, n) (hperm.mem_iff.mpr hin)
  refine ⟨order, Δ, e1, hperm, ?_, hdeleted, hrun, he1⟩
  rw [← hΔ]
  unfold client.RefreshNodes
  simp only [hres, hcor, hloop]

/-- The round of `gke-c-spot-1` on the services that refuse to stop an instance: the
node is drained and deleted, and the refused stop ends the round with an error. -/
theorem halting_step :
    haltingClient.traced.refreshStep demoSlowNode 0 [("gke-c-spot-1", demoSlowNode)]
        soloCordoned
      = (([mkPod "a" "gke-c-spot-1", mkPod "slow" "gke-c-spot-1", mkPod "c" "gke-c-spot-1"],
          some ("failed to delete node gke-c-spot-1: "
            ++ "failed to stop instance gke-c-spot-1: stop refused"),
          [("gke-c-spot-1", demoSlowNode)]), soloHalted) := by
  simp [client.refreshStep, client.drainNode, client.policyVersion, findPolicyGroup,
    hasEvictionResource, client.evictPods, client.deleteNode, client.traced, haltingClient,
    haltingAPI, demoSlowNode, mkNode, mkPod, evictPodsLoop,
    evictLoop_eq, traced, demoAPI, evictionOf, disruptionBudgetMessage,
    ResourceEvictionName, ResourceEvictionKind, soloCordoned, soloResolved, soloDrained,
    soloHalted, errorOf, demoNodes, demoRawNode]

/-- C12, on the services that refuse to stop an instance, with the single target
`gke-c-spot-1`: the node object is deleted, the stop fails, and the rollback then reads
`gke-c-spot-1` to uncordon it. -/
theorem C12_witness :
    ∃ (order : CordonNodes) (Δ : List Event) (e1 : Option String),
      List.Perm order [("gke-c-spot-1", demoSlowNode)] ∧
      (haltingClient.traced.RefreshNodes ["gke-c-spot-1"] (demoStart, [])).2.2
        = soloHalted.2 ++ Δ ∧
      Event.nodesDelete "gke-c-spot-1" none ∈ soloHalted.2 ∧
      UncordonRun order Δ ∧
      Event.nodesGet "gke-c-spot-1" e1 ∈ Δ :=
  C12_uncordon_after_deletion haltingClient ["gke-c-spot-1"] demoStart [demoSlowNode] []
    [] demoSlowNode soloResolved soloCordoned soloCordoned soloHalted
    [("gke-c-spot-1", demoSlowNode)] [("gke-c-spot-1", demoSlowNode)]
    [("gke-c-spot-1", demoSlowNode)] []
    [mkPod "a" "gke-c-spot-1", mkPod "slow" "gke-c-spot-1", mkPod "c" "gke-c-spot-1"]
    ("failed to delete node gke-c-spot-1: "
      ++ "failed to stop instance gke-c-spot-1: stop refused")
    "gke-c-spot-1" rfl rfl rfl (Drained.nil _ _ _) halting_step
    (by simp [soloHalted, demoSlowNode, mkNode]) (by simp)

/-! ### Cordon and uncordon on a node store (`applyCordonOrUncordon`) -/

/-- The demonstration services are a node store. -/
theorem demo_store : NodeStore demoAPI demoFlag where
  get_ok := by
    intro name s n h
    simp only [demoAPI] at h
    cases hf : demoNodes.find? (fun n => n.1 = name) with
    | none => simp [hf] at h
    | some entry =>
      obtain ⟨n0, pool, preemptible⟩ := entry
      have hname : n0 = name := by
        have := List.find?_some hf
        simpa using this
      rw [hf] at h
      by_cases hd : name ∈ s.deleted
      · simp [hd] at h
      · simp only [hd, if_false, Except.ok.injEq] at h
        subst h
        exact ⟨hname, rfl⟩
  get_frame := by
    intro name s
    simp only [demoAPI]
    cases hf : demoNodes.find? (fun n => n.1 = name) with
    | none => rfl
    | some entry =>
      obtain ⟨n0, pool, preemptible⟩ := entry
      by_cases hd : name ∈ s.deleted
      · simp [hd]
      · simp [hd]
  update_ok := by
    intro n s _
    funext k
    by_cases hk : k = n.Name
    · subst hk
      cases hu : n.Unschedulable <;> simp [demoAPI, demoFlag, hu, List.mem_filter]
    · cases hu : n.Unschedulable <;>
        simp [demoAPI, demoFlag, hu, List.mem_filter, hk, Function.update]
  update_error := by
    intro n s e h
    simp [demoAPI] at h

/-- What cordoning or uncordoning does to the flags of a node store: a call that returns
no error leaves the requested flag on the node; every call leaves the flags as they were
or sets the flag of the node to the requested value; a call on a node that already holds
the requested flag changes no flag. -/
theorem applyCordonOrUncordon_flag {σ : Type} (cli : client σ) (flag : σ → String → Bool)
    (hstore : NodeStore cli.api flag) (name : String) (cordon : Bool) (s : σ) :
    ((cli.applyCordonOrUncordon name cordon s).1 = none →
      flag (cli.applyCordonOrUncordon name cordon s).2 name = cordon) ∧
    (flag (cli.applyCordonOrUncordon name cordon s).2 = flag s ∨
      flag (cli.applyCordonOrUncordon name cordon s).2
        = Function.update (flag s) name cordon) ∧
    (flag s name = cordon → flag (cli.applyCordonOrUncordon name cordon s).2 = flag s) := by
  have hframe := hstore.get_frame name s
  have hok := hstore.get_ok name s
  unfold client.applyCordonOrUncordon
  cases hg : cli.api.nodesGet name s with
  | mk r s1 =>
    rw [hg] at hframe hok
    simp only at hframe hok
    cases r with
    | error e => exact ⟨by simp, Or.inl hframe, fun _ => hframe⟩
    | ok n =>
      obtain ⟨hname, hflag⟩ := hok n rfl
      simp only
      by_cases hn : n.Unschedulable = cordon
      · rw [if_pos hn]
        refine ⟨fun _ => ?_, Or.inl hframe, fun _ => hframe⟩
        simp only
        rw [hframe, ← hflag, hn]
      · rw [if_neg hn]
        have huo := hstore.update_ok { n with Unschedulable := cordon } s1
        have hue := hstore.update_error { n with Unschedulable := cordon } s1
        simp only at huo hue
        cases hu : cli.api.nodesUpdate { n with Unschedulable := cordon } s1 with
        | mk ru s2 =>
          rw [hu] at huo hue
          simp only at huo hue
          cases ru with
          | some e =>
            have h2 := hue e rfl
            refine ⟨by simp, Or.inl (by rw [h2, hframe]), fun hc => ?_⟩
            exact absurd (hflag.trans hc) hn
          | none =>
            have h2 := huo rfl
            rw [hname, hframe] at h2
            refine ⟨fun _ => ?_, Or.inr h2, fun hc => ?_⟩
            · simp only
              rw [h2]
              simp
            · exact absurd (hflag.trans hc) hn

/-- C18 (amended). On a node store, for every node name, requested flag and state: a cordon or
uncordon of a node that already holds the requested flag makes the read of the node and
no other call, returns no error unless that read fails, and changes no flag; after a call
that returns no error the node holds the requested flag; a second call after a call that
returned no error changes no flag; and if a failed call leaves the services as they were,
two calls in sequence leave the flags that one call leaves, in every case. -/
theorem C18_cordon_idempotent {σ : Type} (cli : client σ) (flag : σ → String → Bool)
    (hstore : NodeStore cli.api flag) (name : String) (cordon : Bool) (w : σ)
    (log : List Event) :
    (flag w name = cordon →
      ∃ e, cli.traced.applyCordonOrUncordon name cordon (w, log)
          = (e, ((cli.api.nodesGet name w).2, log ++ [Event.nodesGet name e])) ∧
        e = errorOf (cli.api.nodesGet name w).1 ∧
        flag (cli.api.nodesGet name w).2 = flag w) ∧
    ((cli.applyCordonOrUncordon name cordon w).1 = none →
      flag (cli.applyCordonOrUncordon name cordon w).2 name = cordon) ∧
    ((cli.applyCordonOrUncordon name cordon w).1 = none →
      flag (cli.applyCordonOrUncordon name cordon
          (cli.applyCordonOrUncordon name cordon w).2).2
        = flag (cli.applyCordonOrUncordon name cordon w).2) ∧
    (((cli.applyCordonOrUncordon name cordon w).1 ≠ none →
        (cli.applyCordonOrUncordon name cordon w).2 = w) →
      flag (cli.applyCordonOrUncordon name cordon
          (cli.applyCordonOrUncordon name cordon w).2).2
        = flag (cli.applyCordonOrUncordon name cordon w).2) := by
  have hafter := (applyCordonOrUncordon_flag cli flag hstore name cordon w).1
  have hsecond : (cli.applyCordonOrUncordon name cordon w).1 = none →
      flag (cli.applyCordonOrUncordon name cordon
          (cli.applyCordonOrUncordon name cordon w).2).2
        = flag (cli.applyCordonOrUncordon name cordon w).2 := fun h =>
    (applyCordonOrUncordon_flag cli flag hstore name cordon
      (cli.applyCordonOrUncordon name cordon w).2).2.2 (hafter h)
  refine ⟨?_, hafter, hsecond, ?_⟩
  · intro hflag
    have hok := hstore.get_ok name w
    refine ⟨errorOf (cli.api.nodesGet name w).1, ?_, rfl, hstore.get_frame name w⟩
    cases hg : cli.api.nodesGet name w with
    | mk r w1 =>
      rw [hg] at hok
      cases r with
      | error e =>
        simp [client.applyCordonOrUncordon, client.traced, traced, hg, errorOf]
      | ok n =>
        have hn : n.Unschedulable = cordon := ((hok n rfl).2).trans hflag
        simp [client.applyCordonOrUncordon, client.traced, traced, hg, errorOf, hn]
  · intro hquiet
    by_cases h : (cli.applyCordonOrUncordon name cordon w).1 = none
    · exact hsecond h
    · rw [hquiet h, hquiet h]

/-- C18, on the demonstration services: cordoning `gke-c-spot-1` twice from the initial
state leaves the flags that cordoning it once leaves, the node then holds the flag, and
the second cordon makes the read and no other call. -/
theorem C18_witness :
    (demoClient.applyCordonOrUncordon "gke-c-spot-1" true demoStart).1 = none ∧
    demoFlag (demoClient.applyCordonOrUncordon "gke-c-spot-1" true demoStart).2
      "gke-c-spot-1" = true ∧
    demoFlag (demoClient.applyCordonOrUncordon "gke-c-spot-1" true
        (demoClient.applyCordonOrUncordon "gke-c-spot-1" true demoStart).2).2
      = demoFlag (demoClient.applyCordonOrUncordon "gke-c-spot-1" true demoStart).2 ∧
    (demoClient.traced.applyCordonOrUncordon "gke-c-spot-1" true
        ((demoClient.applyCordonOrUncordon "gke-c-spot-1" true demoStart).2, [])).2.2
      = [Event.nodesGet "gke-c-spot-1" none] := by
  have h1 := C18_cordon_idempotent demoClient demoFlag demo_store "gke-c-spot-1" true
    demoStart []
  have h2 := C18_cordon_idempotent demoClient demoFlag demo_store "gke-c-spot-1" true
    (demoClient.applyCordonOrUncordon "gke-c-spot-1" true demoStart).2 []
  obtain ⟨e, he, he2, _⟩ := h2.1 (h1.2.1 (by decide))
  refine ⟨by decide, h1.2.1 (by decide), h1.2.2.1 (by decide), ?_⟩
  rw [he, he2]
  decide

/-- The refusing services are a node store. -/
theorem flaky_store : NodeStore flakyAPI flakyFlag where
  get_ok := by
    intro name s n h
    simp only [flakyAPI, Except.ok.injEq] at h
    subst h
    exact ⟨rfl, rfl⟩
  get_frame := fun _ _ => rfl
  update_ok := by
    intro n s h
    by_cases hr : s.refusals > 0
    · simp [flakyAPI, hr] at h
    · funext k
      by_cases hk : k = n.Name
      · subst hk
        cases hu : n.Unschedulable <;> simp [flakyAPI, flakyFlag, hr, hu, List.mem_filter]
      · cases hu : n.Unschedulable <;>
          simp [flakyAPI, flakyFlag, hr, hu, List.mem_filter, hk, Function.update]
  update_error := by
    intro n s e h
    by_cases hr : s.refusals > 0
    · simp only [flakyAPI, hr, if_true]
      rfl
    · simp [flakyAPI, hr] at h

/-- C18 as claimed fails on a node store that refuses a write: from a state in which the
node `n` is schedulable and the next write is refused, one cordon returns the error and
leaves `n` schedulable, whereas two cordons in sequence leave `n` unschedulable; so two
cordons do not leave the node state that one cordon leaves. -/
theorem C18_counterexample :
    NodeStore flakyAPI flakyFlag ∧
    (flakyClient.applyCordonOrUncordon "n" true { refusals := 1, cordoned := [] }).1
      = some "conflict" ∧
    flakyFlag (flakyClient.applyCordonOrUncordon "n" true
        { refusals := 1, cordoned := [] }).2 "n" = false ∧
    flakyFlag (flakyClient.applyCordonOrUncordon "n" true
        (flakyClient.applyCordonOrUncordon "n" true
          { refusals := 1, cordoned := [] }).2).2 "n" = true ∧
    flakyFlag (flakyClient.applyCordonOrUncordon "n" true
        (flakyClient.applyCordonOrUncordon "n" true
          { refusals := 1, cordoned := [] }).2).2
      ≠ flakyFlag (flakyClient.applyCordonOrUncordon "n" true
          { refusals := 1, cordoned := [] }).2 := by
  refine ⟨flaky_store, by decide, by decide, by decide, ?_⟩
  intro h
  have := congrFun h "n"
  revert this
  decide

/-! ### Rollback after a failed drain (`RefreshNodes`) -/

/-- A cordon loop that succeeds has noted every node. -/
theorem cordonNodes_ok {σ : Type} (cli : client σ) (nodes : List Node) :
    ∀ (start : CordonNodes) (s : σ) (cm : CordonNodes) (s2 : σ),
      cli.cordonNodes nodes start s = ((none, cm), s2) → cm = cordonMapOf nodes start := by
  induction nodes with
  | nil =>
    intro start s cm s2 h
    simp only [client.cordonNodes, Prod.mk.injEq, true_and] at h
    exact h.1.symm
  | cons node rest ih =>
    intro start s cm s2 h
    rw [client.cordonNodes] at h
    cases hc : cli.cordonNode node.Name s with
    | mk r s0 =>
      rw [hc] at h
      cases r with
      | some e => simp at h
      | none => exact ih _ _ _ _ h

/-- The map a round of the third loop leaves when it ends without error: the node is
dropped from the map if it is preemptible, and the map is kept otherwise. -/
theorem refreshStep_map {σ : Type} (cli : client σ) (node : Node) (i : Nat)
    (cordonNodes : CordonNodes) (s : σ)
    (h : (cli.refreshStep node i cordonNodes s).1.2.1 = none) :
    (cli.refreshStep node i cordonNodes s).1.2.2
      = if node.Preemptible then cordonNodes.delete node.Name else cordonNodes := by
  revert h
  rw [refreshStep_eq]
  cases hd : cli.drainNode node (if i > 0 then cli.api.sleep 60 s else s) with
  | mk r sd =>
    obtain ⟨pods, derr⟩ := r
    cases derr with
    | some e => intro h; simp at h
    | none =>
      simp only
      by_cases hpre : node.Preemptible = true
      · rw [if_pos hpre, if_pos hpre]
        cases hdel : cli.deleteNode node sd with
        | mk rdel sdel =>
          cases rdel with
          | some e => intro h; simp at h
          | none =>
            simp only
            cases hstop : cli.api.instancesStop cli.project node.Zone node.Name sdel with
            | mk rs ss =>
              cases rs with
              | some e => intro h; simp at h
              | none => intro _; rfl
      · rw [if_neg hpre, if_neg hpre]
        intro _
        rfl

/-- An uncordon never sets a flag: a node that holds the schedulable flag still holds it
after a cordon-or-uncordon call with the value `false`. -/
theorem uncordonNode_keeps {σ : Type} (cli : client σ) (flag : σ → String → Bool)
    (hstore : NodeStore cli.api flag) (name k : String) (s : σ) (h : flag s k = false) :
    flag (cli.uncordonNode name s).2 k = false := by
  rcases (applyCordonOrUncordon_flag cli flag hstore name false s).2.1 with h1 | h1
  · unfold client.uncordonNode
    rw [h1, h]
  · unfold client.uncordonNode
    rw [h1]
    by_cases hk : k = name
    · subst hk
      exact Function.update_same _ _ _
    · rw [Function.update_noteq hk]
      exact h

/-- The recorded services obey the laws of a node store that the services obey. -/
theorem NodeStore.traced {σ : Type} {api : KubeAPI σ} {flag : σ → String → Bool}
    (h : NodeStore api flag) :
    NodeStore (GkeNodeOptimizer.traced api) (fun s => flag s.1) where
  get_ok := fun name s n hn => h.get_ok name s.1 n hn
  get_frame := fun name s => h.get_frame name s.1
  update_ok := fun n s hn => h.update_ok n s.1 hn
  update_error := fun n s e hn => h.update_error n s.1 e hn

/-- When every uncordon request of the rollback loop succeeds, the loop returns the
error it was given and every node it visits ends schedulable. -/
theorem rollbackLoop_of_uncordoned {σ : Type} (cli : client σ)
    (flag : σ → String → Bool) (hstore : NodeStore cli.api flag)
    {order : CordonNodes} {s s1 : σ} (h : Uncordoned cli order s s1) :
    (∀ err, cli.rollbackLoop order err s = (err, s1)) ∧
    (∀ k, flag s k = false → flag s1 k = false) ∧
    (∀ kv ∈ order, flag s1 kv.2.Name = false) := by
  induction h with
  | nil s => exact ⟨fun err => rfl, fun k hk => hk, fun kv hkv => by simp at hkv⟩
  | cons key node rest s s1 s2 hun _ ih =>
    obtain ⟨ih1, ih2, ih3⟩ := ih
    have hkeep : ∀ k, flag s k = false → flag s1 k = false := by
      intro k hk
      have := uncordonNode_keeps cli flag hstore node.Name k s hk
      rw [hun] at this
      exact this
    have hset : flag s1 node.Name = false := by
      have := (applyCordonOrUncordon_flag cli flag hstore node.Name false s).1
      have hun2 : cli.applyCordonOrUncordon node.Name false s = (none, s1) := hun
      rw [hun2] at this
      exact this rfl
    refine ⟨?_, fun k hk => ih2 k (hkeep k hk), ?_⟩
    · intro err
      rw [client.rollbackLoop]
      simp only [client.rollbackNode, hun]
      exact ih1 err
    · intro kv hkv
      rcases List.mem_cons.mp hkv with hkv | hkv
      · subst hkv
        exact ih2 _ hset
      · exact ih3 kv hkv

/-- The calls of a round that terminates a preemptible node without error: the calls
of its drain, the re-fetch, the deletion, and the two stops of the instance. -/
theorem refreshStep_terminated {σ : Type} (cli : client σ) (node : Node) (i : Nat)
    (cordonNodes : CordonNodes) (s : σ × List Event)
    (hpre : node.Preemptible = true)
    (hok : (cli.traced.refreshStep node i cordonNodes s).1.2.1 = none) :
    (cli.traced.refreshStep node i cordonNodes s).2.2
      = (cli.traced.drainNode node
            (if i > 0 then cli.traced.api.sleep 60 s else s)).2.2
          ++ [Event.nodesGet node.Name none, Event.nodesDelete node.Name none,
              Event.instancesStop cli.project node.Zone node.Name none,
              Event.instancesStop cli.project node.Zone node.Name none] := by
  revert hok
  rw [refreshStep_eq]
  cases hd : cli.traced.drainNode node (if i > 0 then cli.traced.api.sleep 60 s else s) with
  | mk r sd =>
    obtain ⟨pods, derr⟩ := r
    cases derr with
    | some e => intro hok; simp at hok
    | none =>
      simp only [hpre, if_true]
      obtain ⟨wd, logd⟩ := sd
      have hcases := deleteNode_cases cli node wd logd
      cases hdel : cli.traced.deleteNode node (wd, logd) with
      | mk rdel sdel =>
        rw [hdel] at hcases
        cases rdel with
        | some e => intro hok; simp at hok
        | none =>
          simp only
          have hlog : sdel.2 = logd ++ [Event.nodesGet node.Name none,
              Event.nodesDelete node.Name none,
              Event.instancesStop cli.project node.Zone node.Name none] := by
            rcases hcases with ⟨h, _⟩ | ⟨h, _⟩ | ⟨h, _⟩ | ⟨_, h⟩
            · exact absurd rfl h
            · exact absurd rfl h
            · exact absurd rfl h
            · exact h
          obtain ⟨wdel, logdel⟩ := sdel
          simp only at hlog
          rw [traced_project, traced_instancesStop]
          cases hs : (cli.api.instancesStop cli.project node.Zone node.Name wdel).1 with
          | some e => intro hok; simp at hok
          | none =>
            intro _
            simp only
            rw [hlog]
            simp

/-- C11 (amended). On a node store, in a run of `RefreshNodes` with the calls recorded,
on two targets that resolve to the nodes `A` and `B` of different names, in which both
cordons succeed, the round of `A` ends without error, the drain of `B` fails and every
uncordon request of the rollback succeeds, in whatever order the map is visited: the run
returns the pods evicted from `A`, followed by those evicted from `B`, with the drain
error; `B` ends schedulable; if `A` is not preemptible the rollback covers `A` and `B`
and `A` ends schedulable; if `A` is preemptible, its node object was deleted and its
instance stopped in its round, the rollback covers `B` alone, and what follows the failed
drain is one uncordon request for `B`, in which `A` is never read. -/
theorem C11_rollback_after_failed_drain {σ : Type} (cli : client σ)
    (flag : σ → String → Bool) (hstore : NodeStore cli.api flag) (a b : String) (w : σ)
    (A B : Node) (s1 s2 s3 s4 s5 : σ × List Event) (cm mid : CordonNodes)
    (podsA podsB : List Pod) (e : String)
    (hres : cli.traced.resolveNodes [a, b] [] (w, []) = (.ok [A, B], s1))
    (hcor : cli.traced.cordonNodes [A, B] [] s1 = ((none, cm), s2))
    (hA : cli.traced.refreshStep A 0 cm s2 = ((podsA, none, mid), s3))
    (hB : cli.traced.drainNode B (cli.traced.api.sleep 60 s3) = ((podsB, some e), s4))
    (hunc : Uncordoned cli.traced (cli.rangeOrder mid).val s4 s5)
    (hne : A.Name ≠ B.Name) :
    cli.traced.RefreshNodes [a, b] (w, [])
      = (RefreshResult.returned (podsA ++ podsB)
          (some ("failed to drain node " ++ B.Name ++ ": " ++ e)), s5) ∧
    podsA = (cli.traced.drainNode A s2).1.1 ∧
    flag s5.1 B.Name = false ∧
    (A.Preemptible = false → mid = [(A.Name, A), (B.Name, B)] ∧ flag s5.1 A.Name = false) ∧
    (A.Preemptible = true →
      mid = [(B.Name, B)] ∧
      s3.2 = (cli.traced.drainNode A s2).2.2
        ++ [Event.nodesGet A.Name none, Event.nodesDelete A.Name none,
            Event.instancesStop cli.project A.Zone A.Name none,
            Event.instancesStop cli.project A.Zone A.Name none] ∧
      ∃ Δ, s5.2 = s4.2 ++ Δ ∧ UncordonBlock B.Name Δ ∧
        ∀ e1, Event.nodesGet A.Name e1 ∉ Δ) := by
  obtain ⟨hroll, _, hflags⟩ :=
    rollbackLoop_of_uncordoned cli.traced (fun s => flag s.1) hstore.traced hunc
  have hcm : cm = [(A.Name, A), (B.Name, B)] := by
    rw [cordonNodes_ok cli.traced _ _ _ _ _ hcor]
    simp [cordonMapOf, CordonNodes.set, hne]
  have hmid : mid = if A.Preemptible then cm.delete A.Name else cm := by
    have := refreshStep_map cli.traced A 0 cm s2 (by rw [hA])
    rw [hA] at this
    exact this
  have hBstep : cli.traced.refreshStep B 1 mid s3
      = ((podsB, some ("failed to drain node " ++ B.Name ++ ": " ++ e), mid), s4) := by
    rw [refreshStep_eq]
    simp only [gt_iff_lt, Nat.lt_one_iff, Nat.one_ne_zero, Nat.zero_lt_one, if_true, hB]
  have hmidB : (B.Name, B) ∈ mid := by
    rw [hmid, hcm]
    by_cases hp : A.Preemptible = true
    · rw [if_pos hp]
      simp [CordonNodes.delete, Ne.symm hne]
    · rw [if_neg hp]
      simp
  have hmem : ∀ kv, kv ∈ mid → kv ∈ (cli.rangeOrder mid).val := fun kv hkv =>
    (cli.rangeOrder mid).property.mem_iff.mpr hkv
  refine ⟨?_, ?_, hflags _ (hmem _ hmidB), ?_, ?_⟩
  · unfold client.RefreshNodes
    simp only [hres, hcor]
    rw [client.refreshLoop, hA]
    simp only
    rw [client.refreshLoop, hBstep]
    simp only [List.nil_append]
    have hr : cli.traced.rollbackNodes mid
        (some ("failed to drain node " ++ B.Name ++ ": " ++ e)) s4
        = (some ("failed to drain node " ++ B.Name ++ ": " ++ e), s5) := hroll _
    rw [hr]
  · have := refreshStep_pods cli.traced A 0 cm s2
    rw [hA] at this
    simpa using this
  · intro hp
    have hm : mid = [(A.Name, A), (B.Name, B)] := by
      rw [hmid, hp, hcm]
      simp
    refine ⟨hm, hflags (A.Name, A) (hmem _ ?_)⟩
    rw [hm]
    simp
  · intro hp
    have hm : mid = [(B.Name, B)] := by
      rw [hmid, hp, hcm]
      simp [CordonNodes.delete, Ne.symm hne]
    have htrace := refreshStep_terminated cli A 0 cm s2 hp (by rw [hA])
    rw [hA] at htrace
    simp only [gt_iff_lt, Nat.lt_irrefl, if_false] at htrace
    refine ⟨hm, htrace, ?_⟩
    have horder : (cli.rangeOrder mid).val = [(B.Name, B)] := by
      exact List.perm_singleton.mp
        ((cli.rangeOrder mid).property.trans (List.Perm.of_eq hm))
    rw [horder] at hunc
    cases hunc with
    | cons _ _ _ _ sm _ hun hrest =>
      cases hrest
      obtain ⟨Δ, hΔ, hshape⟩ := applyCordonOrUncordon_traced cli B.Name false s4
      have hun2 : cli.traced.applyCordonOrUncordon B.Name false s4 = (none, s5) := hun
      rw [hun2] at hΔ
      refine ⟨Δ, hΔ, hshape, ?_⟩
      intro e1 he1
      rcases hshape with ⟨e2, rfl⟩ | ⟨n, e2, rfl⟩
      · simp only [List.mem_singleton, Event.nodesGet.injEq] at he1
        exact hne he1.1
      · simp only [List.mem_cons, List.mem_singleton, Event.nodesGet.injEq,
          List.not_mem_nil, or_false] at he1
        rcases he1 with he1 | he1
        · exact hne he1.1
        · cases he1

/-- The round of `gke-c-spot-1` as the first of two targets: its pods are evicted and the
node is deleted and dropped from the map. -/
theorem duo_first_spot :
    demoClient.refreshStep demoSlowNode 0
        [("gke-c-spot-1", demoSlowNode), ("gke-c-spot-2", demoStuckNode)]
        (duoCordoned "gke-c-spot-1")
      = (([mkPod "a" "gke-c-spot-1", mkPod "slow" "gke-c-spot-1", mkPod "c" "gke-c-spot-1"],
          none, [("gke-c-spot-2", demoStuckNode)]),
         { cordoned := ["gke-c-spot-2", "gke-c-spot-1"], deleted := ["gke-c-spot-1"],
           evictions := ["c", "slow", "slow", "slow", "a"] }) := by
  simp [client.refreshStep, client.drainNode, client.policyVersion, findPolicyGroup,
    hasEvictionResource, client.evictPods, client.deleteNode, demoClient,
    demoSlowNode, demoStuckNode, mkNode, mkPod, evictPodsLoop,
    evictLoop_eq, demoAPI, evictionOf, disruptionBudgetMessage,
    ResourceEvictionName, ResourceEvictionKind, duoCordoned, demoNodes, demoRawNode,
    CordonNodes.delete]

/-- The drain of `gke-c-spot-2` as the second of two targets evicts `d` and gives up on
`stuck`. -/
theorem duo_second_stuck (first : String) (deleted evictions : List String) :
    demoClient.drainNode demoStuckNode
        (demoClient.api.sleep 60
          { cordoned := ["gke-c-spot-2", first], deleted := deleted,
            evictions := evictions })
      = (([mkPod "d" "gke-c-spot-2"],
          some ("failed to evict pod stuck because give up. count=3: "
            ++ disruptionBudgetMessage)),
         { cordoned := ["gke-c-spot-2", first], deleted := deleted,
           evictions := "stuck" :: "stuck" :: "stuck" :: "d" :: evictions }) := by
  simp [client.drainNode, client.policyVersion, findPolicyGroup,
    hasEvictionResource, client.evictPods, demoClient,
    demoStuckNode, mkNode, mkPod, evictPodsLoop,
    evictLoop_eq, demoAPI, evictionOf, disruptionBudgetMessage,
    ResourceEvictionName, ResourceEvictionKind]
  decide

/-- The round of `gke-c-ondemand-1` as the first of the two targets, with the calls
recorded: it ends without error, with its pod evicted and the map kept. -/
theorem duo_first_traced :
    reversingClient.traced.refreshStep demoOndemandNode 0 duoMap duoReady
      = (([mkPod "f" "gke-c-ondemand-1"], none, duoMap), duoAfterFirst) := by
  refine Prod.ext ?_ rfl
  simp [client.refreshStep, client.drainNode, client.policyVersion, findPolicyGroup,
    hasEvictionResource, client.evictPods, client.traced, reversingClient,
    demoOndemandNode, demoStuckNode, mkNode, mkPod, evictPodsLoop,
    evictLoop_eq, traced, demoAPI, evictionOf, demoStart, disruptionBudgetMessage,
    ResourceEvictionName, ResourceEvictionKind, duoReady, duoMap,
    client.cordonNodes, client.cordonNode, client.applyCordonOrUncordon,
    client.resolveNodes, client.GetNode, client.toNode, client.GetPodListByNodeName,
    demoNodes, demoRawNode, demoPods, demoRawPod, CordonNodes.set,
    NodePoolLabel, NodeRegionLabel, NodeZoneLabel, PreemptibleLabel, List.lookup,
    client.toPods, client.toPod]

/-- The drain of `gke-c-spot-2` as the second of the two targets, with the calls
recorded: it evicts `d` and gives up on `stuck`. -/
theorem duo_second_traced :
    reversingClient.traced.drainNode demoStuckNode
        (reversingClient.traced.api.sleep 60 duoAfterFirst)
      = (([mkPod "d" "gke-c-spot-2"],
          some ("failed to evict pod stuck because give up. count=3: "
            ++ disruptionBudgetMessage)), duoAfterFailure) := by
  refine Prod.ext ?_ rfl
  simp [client.refreshStep, client.drainNode, client.policyVersion, findPolicyGroup,
    hasEvictionResource, client.evictPods, client.traced, reversingClient,
    demoOndemandNode, demoStuckNode, mkNode, mkPod, evictPodsLoop,
    evictLoop_eq, traced, demoAPI, evictionOf, demoStart, disruptionBudgetMessage,
    ResourceEvictionName, ResourceEvictionKind, duoReady, duoMap, duoAfterFirst,
    client.cordonNodes, client.cordonNode, client.applyCordonOrUncordon,
    client.resolveNodes, client.GetNode, client.toNode, client.GetPodListByNodeName,
    demoNodes, demoRawNode, demoPods, demoRawPod, CordonNodes.set,
    NodePoolLabel, NodeRegionLabel, NodeZoneLabel, PreemptibleLabel, List.lookup,
    client.toPods, client.toPod]
  decide

/-- The rollback of the two targets, visited in reverse order: both uncordon requests
return no error. -/
theorem duo_uncordoned :
    Uncordoned reversingClient.traced
      [("gke-c-spot-2", demoStuckNode), ("gke-c-ondemand-1", demoOndemandNode)]
      duoAfterFailure duoFinal := by
  refine Uncordoned.cons _ _ _ _ duoAfterUncordon _ (Prod.ext ?_ rfl)
    (Uncordoned.cons _ _ _ _ duoFinal _ (Prod.ext ?_ rfl) (Uncordoned.nil _))
  · simp [client.uncordonNode, duoAfterFailure, duoAfterFirst,
      client.refreshStep, client.drainNode, client.policyVersion, findPolicyGroup,
      hasEvictionResource, client.evictPods, client.traced, reversingClient,
      demoOndemandNode, demoStuckNode, mkNode, mkPod, evictPodsLoop,
      evictLoop_eq, traced, demoAPI, evictionOf, demoStart, disruptionBudgetMessage,
      ResourceEvictionName, ResourceEvictionKind, duoReady, duoMap,
      client.cordonNodes, client.cordonNode, client.applyCordonOrUncordon,
      client.resolveNodes, client.GetNode, client.toNode, client.GetPodListByNodeName,
      demoNodes, demoRawNode, demoPods, demoRawPod, CordonNodes.set,
      NodePoolLabel, NodeRegionLabel, NodeZoneLabel, PreemptibleLabel, List.lookup,
      client.toPods, client.toPod]
  · simp [client.uncordonNode, duoAfterUncordon, duoAfterFailure, duoAfterFirst,
      client.refreshStep, client.drainNode, client.policyVersion, findPolicyGroup,
      hasEvictionResource, client.evictPods, client.traced, reversingClient,
      demoOndemandNode, demoStuckNode, mkNode, mkPod, evictPodsLoop,
      evictLoop_eq, traced, demoAPI, evictionOf, demoStart, disruptionBudgetMessage,
      ResourceEvictionName, ResourceEvictionKind, duoReady, duoMap,
      client.cordonNodes, client.cordonNode, client.applyCordonOrUncordon,
      client.resolveNodes, client.GetNode, client.toNode, client.GetPodListByNodeName,
      demoNodes, demoRawNode, demoPods, demoRawPod, CordonNodes.set,
      NodePoolLabel, NodeRegionLabel, NodeZoneLabel, PreemptibleLabel, List.lookup,
      client.toPods, client.toPod]

/-- C11 (amended), on the demonstration services whose runtime visits the map in reverse
order, with the targets `gke-c-ondemand-1`, which is not preemptible, and `gke-c-spot-2`,
whose drain fails: the run returns the pod `f` evicted from the first target and `d` with
the drain error, and both nodes end schedulable. -/
theorem C11_witness :
    reversingClient.traced.RefreshNodes ["gke-c-ondemand-1", "gke-c-spot-2"] (demoStart, [])
      = (RefreshResult.returned ([mkPod "f" "gke-c-ondemand-1"] ++ [mkPod "d" "gke-c-spot-2"])
          (some ("failed to drain node " ++ demoStuckNode.Name ++ ": "
            ++ ("failed to evict pod stuck because give up. count=3: "
              ++ disruptionBudgetMessage))), duoFinal) ∧
    demoFlag duoFinal.1 "gke-c-spot-2" = false ∧
    demoFlag duoFinal.1 "gke-c-ondemand-1" = false := by
  obtain ⟨h1, _, h3, h4, _⟩ :=
    C11_rollback_after_failed_drain reversingClient demoFlag demo_store
      "gke-c-ondemand-1" "gke-c-spot-2" demoStart demoOndemandNode demoStuckNode
      (reversingClient.traced.resolveNodes ["gke-c-ondemand-1", "gke-c-spot-2"] []
        (demoStart, [])).2
      duoReady duoAfterFirst duoAfterFailure duoFinal duoMap duoMap
      [mkPod "f" "gke-c-ondemand-1"] [mkPod "d" "gke-c-spot-2"]
      ("failed to evict pod stuck because give up. count=3: " ++ disruptionBudgetMessage)
      rfl rfl duo_first_traced duo_second_traced duo_uncordoned (by decide)
  exact ⟨h1, h3, (h4 rfl).2⟩

/-- C11 as claimed fails when the first target is preemptible. On the demonstration
services with the targets `gke-c-spot-1` and `gke-c-spot-2`: both resolve, both cordons
succeed, the round of `gke-c-spot-1` ends without error, the drain of `gke-c-spot-2`
fails and the only uncordon request of the rollback succeeds; the run returns the pods of
`gke-c-spot-1`, yet `gke-c-spot-1` does not end schedulable: it is deleted and the flag
held for it is still the unschedulable one. -/
theorem C11_counterexample :
    demoClient.resolveNodes ["gke-c-spot-1", "gke-c-spot-2"] [] demoStart
      = (.ok [demoSlowNode, demoStuckNode], demoStart) ∧
    demoClient.cordonNodes [demoSlowNode, demoStuckNode] [] demoStart
      = ((none, [("gke-c-spot-1", demoSlowNode), ("gke-c-spot-2", demoStuckNode)]),
         duoCordoned "gke-c-spot-1") ∧
    (demoClient.drainNode demoStuckNode
        (demoClient.api.sleep 60
          { cordoned := ["gke-c-spot-2", "gke-c-spot-1"], deleted := ["gke-c-spot-1"],
            evictions := ["c", "slow", "slow", "slow", "a"] })).1.2 ≠ none ∧
    Uncordoned demoClient [("gke-c-spot-2", demoStuckNode)]
      { cordoned := ["gke-c-spot-2", "gke-c-spot-1"], deleted := ["gke-c-spot-1"],
        evictions := ["stuck", "stuck", "stuck", "d", "c", "slow", "slow", "slow", "a"] }
      { cordoned := ["gke-c-spot-1"], deleted := ["gke-c-spot-1"],
        evictions := ["stuck", "stuck", "stuck", "d", "c", "slow", "slow", "slow", "a"] } ∧
    demoClient.RefreshNodes ["gke-c-spot-1", "gke-c-spot-2"] demoStart
      = (RefreshResult.returned
          [mkPod "a" "gke-c-spot-1", mkPod "slow" "gke-c-spot-1", mkPod "c" "gke-c-spot-1",
           mkPod "d" "gke-c-spot-2"]
          (some ("failed to drain node gke-c-spot-2: "
            ++ ("failed to evict pod stuck because give up. count=3: "
              ++ disruptionBudgetMessage))),
         { cordoned := ["gke-c-spot-1"], deleted := ["gke-c-spot-1"],
           evictions := ["stuck", "stuck", "stuck", "d", "c", "slow", "slow", "slow",
             "a"] }) ∧
    demoFlag { cordoned := ["gke-c-spot-1"], deleted := ["gke-c-spot-1"],
               evictions := ["stuck", "stuck", "stuck", "d", "c", "slow", "slow", "slow",
                 "a"] } "gke-c-spot-1" = true := by
  have hB := duo_second_stuck "gke-c-spot-1" ["gke-c-spot-1"]
    ["c", "slow", "slow", "slow", "a"]
  have hstep : demoClient.refreshStep demoStuckNode 1 [("gke-c-spot-2", demoStuckNode)]
      { cordoned := ["gke-c-spot-2", "gke-c-spot-1"], deleted := ["gke-c-spot-1"],
        evictions := ["c", "slow", "slow", "slow", "a"] }
      = (([mkPod "d" "gke-c-spot-2"],
          some ("failed to drain node gke-c-spot-2: "
            ++ ("failed to evict pod stuck because give up. count=3: "
              ++ disruptionBudgetMessage)),
          [("gke-c-spot-2", demoStuckNode)]),
         { cordoned := ["gke-c-spot-2", "gke-c-spot-1"], deleted := ["gke-c-spot-1"],
           evictions := ["stuck", "stuck", "stuck", "d", "c", "slow", "slow", "slow",
             "a"] }) := by
    rw [refreshStep_eq]
    simp only [gt_iff_lt, Nat.zero_lt_one, if_true, hB]
    rfl
  refine ⟨rfl, rfl, by rw [hB]; simp,
    Uncordoned.cons _ _ _ _ _ _
      (show demoClient.uncordonNode "gke-c-spot-2"
          { cordoned := ["gke-c-spot-2", "gke-c-spot-1"], deleted := ["gke-c-spot-1"],
            evictions := ["stuck", "stuck", "stuck", "d", "c", "slow", "slow", "slow",
              "a"] }
        = (none, { cordoned := ["gke-c-spot-1"], deleted := ["gke-c-spot-1"],
                   evictions := ["stuck", "stuck", "stuck", "d", "c", "slow", "slow",
                     "slow", "a"] }) from rfl)
      (Uncordoned.nil _), ?_, by decide⟩
  have hres : demoClient.resolveNodes ["gke-c-spot-1", "gke-c-spot-2"] [] demoStart
      = (.ok [demoSlowNode, demoStuckNode], demoStart) := rfl
  have hcor : demoClient.cordonNodes [demoSlowNode, demoStuckNode] [] demoStart
      = ((none, [("gke-c-spot-1", demoSlowNode), ("gke-c-spot-2", demoStuckNode)]),
         duoCordoned "gke-c-spot-1") := rfl
  unfold client.RefreshNodes
  simp only [hres, hcor]
  rw [client.refreshLoop, duo_first_spot]
  simp only [Nat.zero_add]
  rw [client.refreshLoop, hstep]
  rfl

/-! ### The calls of a round act on the node of the round -/

/-- The discovery of the eviction API evicts, deletes and stops nothing. -/
theorem policyVersion_quiet {σ : Type} (cli : client σ) (s : σ × List Event) :
    TraceExt (fun e => e.isDrain = true ∧ e.isDestructive = false) s
      (cli.traced.policyVersion s).2 := by
  obtain ⟨w, log⟩ := s
  unfold client.policyVersion
  rw [traced_serverGroups]
  cases hg : (cli.api.serverGroups w).1 with
  | error e => exact TraceExt.single _ rfl ⟨rfl, rfl⟩
  | ok groups =>
    simp only
    cases hf : findPolicyGroup groups with
    | none => exact TraceExt.single _ rfl ⟨rfl, rfl⟩
    | some version =>
      simp only
      rw [traced_serverResources]
      have h1 : TraceExt (fun e => e.isDrain = true ∧ e.isDestructive = false) (w, log)
          ((cli.api.serverGroups w).2,
            log ++ [Event.serverGroups (errorOf (Except.ok groups : Except String _))]) :=
        TraceExt.single _ rfl ⟨rfl, rfl⟩
      refine h1.trans ?_
      cases hr : (cli.api.serverResources "v1" (cli.api.serverGroups w).2).1 with
      | error e => exact TraceExt.single _ rfl ⟨rfl, rfl⟩
      | ok resources =>
        simp only
        split <;> exact TraceExt.single _ rfl ⟨rfl, rfl⟩

/-- An eviction request built for a pod of the node acts on the node. -/
theorem evict_actsOn (node : Node) (pod : Pod) (hp : pod ∈ node.Pods) (policy : String)
    (r : Option String) : (Event.evict (evictionOf pod policy) r).actsOn node = true := by
  simp only [Event.actsOn, List.any_eq_true]
  exact ⟨pod, hp, by simp [evictionOf]⟩

/-- Every call of a run of `evictPods` over pods of the node is an eviction of a pod of
the node or a wait. -/
theorem EvictRun.evictions_act {policy : String} {pods evicted : List Pod}
    {err : Option String} {trace : List Event}
    (h : EvictRun policy pods evicted err trace) :
    ∀ node : Node, (∀ p ∈ pods, p ∈ node.Pods) →
      ∀ e ∈ trace, e.isDestructive = true → e.actsOn node = true := by
  have hretry : ∀ (node : Node) (pod : Pod), pod ∈ node.Pods → ∀ (k : Nat),
      ∀ e ∈ retryEvents (evictionOf pod policy) k,
        e.isDestructive = true → e.actsOn node = true := by
    intro node pod hp k
    induction k with
    | zero => intro e he; simp [retryEvents] at he
    | succ k ih =>
      intro e he hd
      simp only [retryEvents, List.mem_cons] at he
      rcases he with rfl | rfl | he
      · exact evict_actsOn node pod hp policy _
      · simp [Event.isDestructive] at hd
      · exact ih e he hd
  induction h with
  | done => intro node _ e he; simp at he
  | evicted pod rest evicted err trace k _ _ ih =>
    intro node hsub e he hd
    have hp : pod ∈ node.Pods := hsub pod (List.mem_cons_self _ _)
    rcases List.mem_append.mp he with he | he
    · exact hretry node pod hp k e he hd
    · rcases List.mem_cons.mp he with rfl | he
      · exact evict_actsOn node pod hp policy _
      · exact ih node (fun p hp => hsub p (List.mem_cons_of_mem _ hp)) e he hd
  | failed pod rest k e' msg _ _ =>
    intro node hsub e he hd
    have hp : pod ∈ node.Pods := hsub pod (List.mem_cons_self _ _)
    rcases List.mem_append.mp he with he | he
    · exact hretry node pod hp k e he hd
    · simp only [List.mem_singleton] at he
      subst he
      exact evict_actsOn node pod hp policy _

/-- A drain records discovery calls, evictions of pods of its node and waits. -/
theorem drainNode_acts {σ : Type} (cli : client σ) (node : Node) (s : σ × List Event) :
    TraceExt (fun e => e.isDrain = true ∧ (e.isDestructive = true → e.actsOn node = true))
      s (cli.traced.drainNode node s).2 := by
  have hp := (policyVersion_quiet cli s).mono
    (Q := fun e => e.isDrain = true ∧ (e.isDestructive = true → e.actsOn node = true))
    (fun e he => ⟨he.1, fun hd => by rw [he.2] at hd; simp at hd⟩)
  unfold client.drainNode
  cases hpv : cli.traced.policyVersion s with
  | mk r s1 =>
    rw [hpv] at hp
    cases r with
    | error e => exact hp
    | ok policy =>
      simp only
      refine hp.trans ?_
      obtain ⟨w1, log1⟩ := s1
      obtain ⟨evicted, err, w', trace, hrun, hshape⟩ :=
        evictPodsLoop_traced cli.api policy node.Pods [] w1 log1
      have hrun' : cli.traced.evictPods node policy (w1, log1)
          = (([] ++ evicted, err), (w', log1 ++ trace)) := hrun
      rw [hrun']
      exact ⟨trace, rfl, fun e he => ⟨hshape.isDrain e he,
        hshape.evictions_act node (fun p hp => hp) e he⟩⟩

/-- The deletion and the stop that `deleteNode` requests are for its node. -/
theorem deleteNode_acts {σ : Type} (cli : client σ) (node : Node) (s : σ × List Event) :
    TraceExt (fun e => e.isDestructive = true → e.actsOn node = true) s
      (cli.traced.deleteNode node s).2 := by
  obtain ⟨w, log⟩ := s
  rcases deleteNode_cases cli node w log with ⟨_, e, h⟩ | ⟨_, e, h⟩ | ⟨_, e, h⟩ | ⟨_, h⟩
  · refine ⟨_, h, ?_⟩
    intro ev hev hd
    simp only [List.mem_singleton] at hev
    subst hev
    simp [Event.isDestructive] at hd
  · refine ⟨_, h, ?_⟩
    intro ev hev hd
    simp only [List.mem_cons, List.mem_singleton, List.not_mem_nil, or_false] at hev
    rcases hev with rfl | rfl
    · simp [Event.isDestructive] at hd
    · simp [Event.actsOn]
  · refine ⟨_, h, ?_⟩
    intro ev hev hd
    simp only [List.mem_cons, List.mem_singleton, List.not_mem_nil, or_false] at hev
    rcases hev with rfl | rfl | rfl
    · simp [Event.isDestructive] at hd
    · simp [Event.actsOn]
    · simp [Event.actsOn]
  · refine ⟨_, h, ?_⟩
    intro ev hev hd
    simp only [List.mem_cons, List.mem_singleton, List.not_mem_nil, or_false] at hev
    rcases hev with rfl | rfl | rfl
    · simp [Event.isDestructive] at hd
    · simp [Event.actsOn]
    · simp [Event.actsOn]

/-- A round of the third loop in two parts. Up to the end of the drain it records the
wait, discovery calls and evictions of pods of its node. After the drain it records
something only if the node is preemptible and the drain returned no error, and what it
then deletes or stops is its node. -/
theorem refreshStep_round {σ : Type} (cli : client σ) (node : Node) (i : Nat)
    (cordonNodes : CordonNodes) (s : σ × List Event) :
    TraceExt (fun e => e.isDrain = true ∧ (e.isDestructive = true → e.actsOn node = true))
      s (cli.traced.drainNode node (if i > 0 then cli.traced.api.sleep 60 s else s)).2 ∧
    TraceExt
      (fun e => (e.isDestructive = true → e.actsOn node = true) ∧
        node.Preemptible = true ∧
        (cli.traced.drainNode node
          (if i > 0 then cli.traced.api.sleep 60 s else s)).1.2 = none)
      (cli.traced.drainNode node (if i > 0 then cli.traced.api.sleep 60 s else s)).2
      (cli.traced.refreshStep node i cordonNodes s).2 := by
  constructor
  · have hsleep : TraceExt
        (fun e => e.isDrain = true ∧ (e.isDestructive = true → e.actsOn node = true)) s
        (if i > 0 then cli.traced.api.sleep 60 s else s) := by
      by_cases hi : i > 0
      · simp only [hi, if_true]
        obtain ⟨w, log⟩ := s
        exact TraceExt.single (Event.sleep 60) rfl
          ⟨rfl, fun hd => by simp [Event.isDestructive] at hd⟩
      · simp only [hi, if_false]
        exact TraceExt.refl _ _
    exact hsleep.trans (drainNode_acts cli node _)
  · rw [refreshStep_eq]
    cases hd : cli.traced.drainNode node
        (if i > 0 then cli.traced.api.sleep 60 s else s) with
    | mk r sd =>
      obtain ⟨pods, derr⟩ := r
      cases derr with
      | some e => exact TraceExt.refl _ _
      | none =>
        simp only
        by_cases hpre : node.Preemptible = true
        · rw [if_pos hpre]
          have hdel : TraceExt
              (fun e => (e.isDestructive = true → e.actsOn node = true) ∧
                node.Preemptible = true ∧ (none : Option String) = none) sd
              (cli.traced.deleteNode node sd).2 :=
            (deleteNode_acts cli node sd).mono (fun e he => ⟨he, hpre, rfl⟩)
          cases hdn : cli.traced.deleteNode node sd with
          | mk rdel sdel =>
            rw [hdn] at hdel
            cases rdel with
            | some e => exact hdel.mono (fun _ he => ⟨he.1, he.2.1, trivial⟩)
            | none =>
              simp only
              have hstop : TraceExt
                  (fun e => (e.isDestructive = true → e.actsOn node = true) ∧
                    node.Preemptible = true ∧ (none : Option String) = none) sdel
                  (cli.traced.api.instancesStop cli.traced.project node.Zone node.Name
                    sdel).2 := by
                obtain ⟨wdel, logdel⟩ := sdel
                rw [traced_instancesStop]
                refine TraceExt.single _ rfl ⟨fun _ => ?_, hpre, rfl⟩
                simp [Event.actsOn]
              have hall := hdel.trans hstop
              cases hs : cli.traced.api.instancesStop cli.traced.project node.Zone
                  node.Name sdel with
              | mk r s2 =>
                rw [hs] at hall
                cases r with
                | some e => exact hall.mono (fun _ he => ⟨he.1, he.2.1, trivial⟩)
                | none => exact hall.mono (fun _ he => ⟨he.1, he.2.1, trivial⟩)
        · rw [if_neg hpre]
          exact TraceExt.refl _ _

/-- Every eviction, deletion and stop of a round of the third loop acts on its node. -/
theorem refreshStep_acts {σ : Type} (cli : client σ) (node : Node) (i : Nat)
    (cordonNodes : CordonNodes) (s : σ × List Event) :
    TraceExt (fun e => e.isDestructive = true → e.actsOn node = true) s
      (cli.traced.refreshStep node i cordonNodes s).2 :=
  ((refreshStep_round cli node i cordonNodes s).1.mono (fun _ he => he.2)).trans
    ((refreshStep_round cli node i cordonNodes s).2.mono (fun _ he => he.1))

/-- Every eviction, deletion and stop of the rounds of drained targets acts on one of
them. -/
theorem Drained.calls_act {σ : Type} {cli : client σ} {pre : List Node} {i : Nat}
    {cordonNodes mid : CordonNodes} {s s3 : σ × List Event}
    {podsPerNode : List (List Pod)}
    (h : Drained cli.traced pre i cordonNodes s podsPerNode mid s3) :
    TraceExt (fun e => e.isDestructive = true → ∃ m ∈ pre, e.actsOn m = true) s s3 := by
  induction h with
  | nil i cordonNodes s => exact TraceExt.refl _ _
  | cons node rest i cordonNodes mid last s s1 s2 pods podsPerNode hstep _ ih =>
    have h1 := refreshStep_acts cli node i cordonNodes s
    rw [hstep] at h1
    refine (h1.mono ?_).trans (ih.mono ?_)
    · intro e he hd
      exact ⟨node, List.mem_cons_self _ _, he hd⟩
    · intro e he hd
      obtain ⟨m, hm, hact⟩ := he hd
      exact ⟨m, List.mem_cons_of_mem _ hm, hact⟩

/-- A call that acts on a node is an eviction, a deletion or a stop. -/
theorem isDestructive_of_actsOn (e : Event) (node : Node) (h : e.actsOn node = true) :
    e.isDestructive = true := by
  cases e <;> simp_all [Event.actsOn, Event.isDestructive]

/-- A call that acts on two nodes: they have the same name or share a pod identity. -/
theorem actsOn_two (e : Event) (x m : Node) (hx : e.actsOn x = true)
    (hm : e.actsOn m = true) :
    x.Name = m.Name ∨
      ∃ p ∈ x.Pods, ∃ q ∈ m.Pods, p.Name = q.Name ∧ p.Namespace = q.Namespace := by
  cases e with
  | evict ev r =>
    simp only [Event.actsOn, List.any_eq_true, decide_eq_true_eq] at hx hm
    obtain ⟨p, hp, hp1, hp2⟩ := hx
    obtain ⟨q, hq, hq1, hq2⟩ := hm
    exact Or.inr ⟨p, hp, q, hq, by rw [← hp1, hq1], by rw [← hp2, hq2]⟩
  | nodesDelete n r =>
    simp only [Event.actsOn, decide_eq_true_eq] at hx hm
    exact Or.inl (by rw [← hx, hm])
  | instancesStop a b n r =>
    simp only [Event.actsOn, decide_eq_true_eq] at hx hm
    exact Or.inl (by rw [← hx, hm])
  | nodesGet _ _ => simp [Event.actsOn] at hx
  | nodesUpdate _ _ _ => simp [Event.actsOn] at hx
  | podsList _ _ => simp [Event.actsOn] at hx
  | serverGroups _ => simp [Event.actsOn] at hx
  | serverResources _ _ => simp [Event.actsOn] at hx
  | sleep _ => simp [Event.actsOn] at hx

/-- C10. In a run of `RefreshNodes` with the calls recorded, in which all targets resolve
and cordon, the targets `pre` before `n` are drained (and terminated if preemptible)
without error, yielding the pods `podsPerNode`, and the drain or the termination of `n`
fails after its drain evicted `pods`: `RefreshNodes` returns an error together with
exactly the concatenation of `podsPerNode`, in target order, followed by `pods`; nothing
but uncordon calls is recorded after the failure, and resolving and cordoning recorded no
eviction, node deletion or instance stop; every eviction, node deletion and instance stop
of the whole run evicts a pod of, deletes or stops one of the targets `pre` and `n`; so
none is requested for a later target `m`, that is, none of the run names `m` or a pod of
`m`, unless `m` has the name of one of these targets or shares a pod (namespace and name)
with one. -/
theorem C10_refreshNodes_stops_at_failure {σ : Type} (cli : client σ)
    (nodeNames : List String) (w : σ) (nodes pre post : List Node) (n : Node)
    (s1 s2 s3 s4 : σ × List Event) (cordonNodes mid last : CordonNodes)
    (podsPerNode : List (List Pod)) (pods : List Pod) (e : String)
    (hres : cli.traced.resolveNodes nodeNames [] (w, []) = (.ok nodes, s1))
    (hcor : cli.traced.cordonNodes nodes [] s1 = ((none, cordonNodes), s2))
    (hsplit : nodes = pre ++ n :: post)
    (hpre : Drained cli.traced pre 0 cordonNodes s2 podsPerNode mid s3)
    (hfail : cli.traced.refreshStep n pre.length mid s3 = ((pods, some e, last), s4)) :
    ∃ (err : String) (final : σ × List Event) (Δ : List Event),
      cli.traced.RefreshNodes nodeNames (w, [])
        = (RefreshResult.returned (podsPerNode.flatten ++ pods) (some err), final) ∧
      final.2 = s4.2 ++ Δ ∧
      (∀ ev ∈ Δ, ev.isUncordon = true ∧ ev.isDestructive = false) ∧
      (∀ ev ∈ s2.2, ev.isDestructive = false) ∧
      pods = (cli.traced.drainNode n
        (if pre.length > 0 then cli.traced.api.sleep 60 s3 else s3)).1.1 ∧
      (∀ ev ∈ final.2, ev.isDestructive = true → ∃ m ∈ pre ++ [n], ev.actsOn m = true) ∧
      (∀ m ∈ post,
        (∀ x ∈ pre ++ [n], x.Name ≠ m.Name ∧
          ∀ p ∈ x.Pods, ∀ q ∈ m.Pods, ¬ (p.Name = q.Name ∧ p.Namespace = q.Namespace)) →
        ∀ ev ∈ final.2, ev.actsOn m = false) := by
  have hloop : cli.traced.refreshLoop nodes 0 [] cordonNodes s2
      = ((podsPerNode.flatten ++ pods, some e, last), s4) := by
    rw [hsplit, refreshLoop_of_drained cli.traced hpre, client.refreshLoop]
    simp [hfail]
  obtain ⟨⟨Δ, hΔ, hu⟩, hkeep⟩ := rollbackNodes_traced cli last (some e) s4
  have hne := hkeep (by simp)
  have hquiet : ∀ ev ∈ s2.2, ev.isDestructive = false := by
    obtain ⟨Δ1, h1, hr1⟩ := resolveNodes_traced cli nodeNames [] (w, [])
    obtain ⟨Δ2, h2, hc2⟩ := cordonNodes_traced cli nodes [] s1
    rw [hres] at h1
    rw [hcor] at h2
    simp only at h1 h2
    intro ev hev
    rw [h2, h1] at hev
    simp only [List.nil_append, List.mem_append] at hev
    rcases hev with hev | hev
    · have := hr1 ev hev
      cases ev <;> simp_all [Event.isResolve, Event.isDestructive]
    · have := hc2 ev hev
      cases ev <;> simp_all [Event.isCordon, Event.isDestructive]
  have hroll : ∀ ev ∈ Δ, ev.isUncordon = true ∧ ev.isDestructive = false := by
    intro ev hev
    have h := hu ev hev
    refine ⟨h, ?_⟩
    cases ev <;> simp_all [Event.isUncordon, Event.isDestructive]
  have hacts : ∀ ev ∈ (cli.traced.rollbackNodes last (some e) s4).2.2,
      ev.isDestructive = true → ∃ m ∈ pre ++ [n], ev.actsOn m = true := by
    obtain ⟨Δp, hΔp, hp⟩ := hpre.calls_act
    have hstep := refreshStep_acts cli n pre.length mid s3
    rw [hfail] at hstep
    obtain ⟨Δn, hΔn, hn⟩ := hstep
    simp only at hΔn
    intro ev hev hd
    rw [hΔ, hΔn, hΔp] at hev
    simp only [List.mem_append] at hev
    rcases hev with ((hev | hev) | hev) | hev
    · rw [hquiet ev hev] at hd
      simp at hd
    · obtain ⟨m, hm, hact⟩ := hp ev hev hd
      exact ⟨m, List.mem_append_left _ hm, hact⟩
    · exact ⟨n, by simp, hn ev hev hd⟩
    · rw [(hroll ev hev).2] at hd
      simp at hd
  cases hr : (cli.traced.rollbackNodes last (some e) s4).1 with
  | none => exact absurd hr hne
  | some err =>
    refine ⟨err, (cli.traced.rollbackNodes last (some e) s4).2, Δ, ?_, hΔ, hroll, hquiet,
      ?_, hacts, ?_⟩
    · unfold client.RefreshNodes
      simp only [hres, hcor, hloop]
      rw [← hr]
    · rw [← refreshStep_pods, hfail]
    · intro m _ hdisj ev hev
      cases hact : ev.actsOn m with
      | false => rfl
      | true =>
        exfalso
        obtain ⟨x, hx, hxact⟩ := hacts ev hev (isDestructive_of_actsOn ev m hact)
        rcases actsOn_two ev x m hxact hact with hname | ⟨p, hp, q, hq, hpq⟩
        · exact (hdisj x hx).1 hname
        · exact (hdisj x hx).2 p hp q hq hpq

/-- C10, on the demonstration services with three targets: the first is drained and
terminated, the drain of the second fails after evicting `d`; `RefreshNodes` returns an
error with the pods `a`, `slow`, `c`, `d`, after the failure only uncordon calls are
recorded, and no call of the run evicts the pod of the third target, deletes it or stops
it. -/
theorem C10_witness :
    ∃ (err : String) (final : DemoState × List Event) (Δ : List Event),
      demoClient.traced.RefreshNodes demoTargets (demoStart, [])
        = (RefreshResult.returned
            [mkPod "a" "gke-c-spot-1", mkPod "slow" "gke-c-spot-1",
             mkPod "c" "gke-c-spot-1", mkPod "d" "gke-c-spot-2"] (some err), final) ∧
      final.2 = demoAfterFailure.2 ++ Δ ∧
      (∀ ev ∈ Δ, ev.isUncordon = true ∧ ev.isDestructive = false) ∧
      (∀ ev ∈ final.2, ev.isDestructive = true →
        ∃ m ∈ [demoSlowNode, demoStuckNode], ev.actsOn m = true) ∧
      (∀ ev ∈ final.2, ev.actsOn demoOndemandNode = false) := by
  obtain ⟨err, final, Δ, h1, h2, h3, _, _, h4, h5⟩ :=
    C10_refreshNodes_stops_at_failure demoClient demoTargets demoStart
      [demoSlowNode, demoStuckNode, demoOndemandNode] [demoSlowNode] [demoOndemandNode]
      demoStuckNode demoResolved demoCordoned demoAfterFirst demoAfterFailure
      demoCordonMap (demoCordonMap.delete "gke-c-spot-1")
      (demoCordonMap.delete "gke-c-spot-1")
      [[mkPod "a" "gke-c-spot-1", mkPod "slow" "gke-c-spot-1", mkPod "c" "gke-c-spot-1"]]
      [mkPod "d" "gke-c-spot-2"]
      ("failed to drain node gke-c-spot-2: "
        ++ ("failed to evict pod stuck because give up. count=3: "
          ++ disruptionBudgetMessage))
      demo_resolve demo_cordon rfl
      (Drained.cons _ _ _ _ _ _ _ _ _ _ _ demo_first (Drained.nil _ _ _))
      demo_second
  exact ⟨err, final, Δ, h1, h2, h3, h4,
    h5 demoOndemandNode (by simp) (by decide)⟩

/-! ### Deletions and stops lie in the round of a drained preemptible target -/

/-- The node a deletion or a stop names is the node it acts on. -/
theorem name_of_terminates (e : Event) (name : String) (node : Node)
    (ht : e.terminates name = true) (ha : e.actsOn node = true) : node.Name = name := by
  cases e <;> simp_all [Event.terminates, Event.actsOn]

/-- A deletion or a stop is a call that removes capacity. -/
theorem isDestructive_of_terminates (e : Event) (name : String)
    (ht : e.terminates name = true) : e.isDestructive = true := by
  cases e <;> simp_all [Event.terminates, Event.isDestructive]

/-- Every call of a trace that started empty satisfies the property of the extension. -/
theorem TraceExt.all {σ : Type} {P : Event → Prop} {w : σ} {s : σ × List Event}
    (h : TraceExt P (w, []) s) : ∀ e ∈ s.2, P e := by
  obtain ⟨Δ, hΔ, hP⟩ := h
  simp only [List.nil_append] at hΔ
  rw [hΔ]
  exact hP

/-- A deletion or a stop in a trace that extends a trace without any lies past the end of
the old trace. -/
theorem TraceExt.after_quiet {σ : Type} {P : Event → Prop} {s s1 : σ × List Event}
    (h : TraceExt P s s1) (hq : ∀ e ∈ s.2, ∀ name : String, e.terminates name = false)
    (k : Nat) (ev : Event) (name : String) (hget : s1.2[k]? = some ev)
    (ht : ev.terminates name = true) : s.2.length ≤ k := by
  by_contra hlt
  have hold := h.get_old k (by omega)
  rw [hget] at hold
  have hmem : ev ∈ s.2 := List.getElem?_mem hold.symm
  rw [hq ev hmem name] at ht
  simp at ht

/-- A deletion or a stop recorded by a round of the third loop names the node of the
round, which is preemptible, and lies after the drain of that round, which returned no
error. -/
theorem refreshStep_position {σ : Type} (cli : client σ) (node : Node) (i : Nat)
    (cordonNodes : CordonNodes) (s : σ × List Event) (k : Nat) (ev : Event)
    (name : String)
    (hget : (cli.traced.refreshStep node i cordonNodes s).2.2[k]? = some ev)
    (hk : s.2.length ≤ k) (ht : ev.terminates name = true) :
    node.Name = name ∧ node.Preemptible = true ∧
    (cli.traced.drainNode node
      (if i > 0 then cli.traced.api.sleep 60 s else s)).1.2 = none ∧
    (cli.traced.drainNode node
      (if i > 0 then cli.traced.api.sleep 60 s else s)).2.2.length ≤ k := by
  obtain ⟨h1, h2⟩ := refreshStep_round cli node i cordonNodes s
  by_cases hkd : (cli.traced.drainNode node
      (if i > 0 then cli.traced.api.sleep 60 s else s)).2.2.length ≤ k
  · have h3 := h2.get_new k ev hget hkd
    exact ⟨name_of_terminates ev name node ht
      (h3.1 (isDestructive_of_terminates ev name ht)), h3.2.1, h3.2.2, hkd⟩
  · exfalso
    have hold := h2.get_old k (by omega)
    rw [hget] at hold
    have hdr := h1.get_new k ev hold.symm hk
    rw [not_terminates_of_isDrain ev name hdr.1] at ht
    simp at ht

/-- Targets drained without error, followed by one more round without error. -/
theorem Drained.snoc {σ : Type} {cli : client σ} {pre : List Node} {i : Nat}
    {cordonNodes mid : CordonNodes} {s s3 : σ} {podsPerNode : List (List Pod)}
    (h : Drained cli pre i cordonNodes s podsPerNode mid s3) :
    ∀ (node : Node) (pods : List Pod) (mid2 : CordonNodes) (s4 : σ),
      cli.refreshStep node (i + pre.length) mid s3 = ((pods, none, mid2), s4) →
      Drained cli (pre ++ [node]) i cordonNodes s (podsPerNode ++ [pods]) mid2 s4 := by
  induction h with
  | nil i cordonNodes s =>
    intro node pods mid2 s4 hstep
    exact Drained.cons node [] i cordonNodes mid2 mid2 s s4 s4 pods []
      (by simpa using hstep) (Drained.nil _ _ _)
  | cons n rest i cordonNodes mid last s s1 s2 pods0 podsPerNode hstep _ ih =>
    intro node pods mid2 s4 hs
    have hidx : i + (n :: rest).length = i + 1 + rest.length := by
      simp only [List.length_cons]
      omega
    rw [hidx] at hs
    exact Drained.cons n (rest ++ [node]) i cordonNodes mid mid2 s s1 s4 pods0
      (podsPerNode ++ [pods]) hstep (ih node pods mid2 s4 hs)

/-- A deletion or a stop recorded by the third loop lies in the round of a target that
is preemptible, after the drain of that round, run in the state the round started in, has
returned no error. -/
theorem refreshLoop_position {σ : Type} (cli : client σ) (cm0 : CordonNodes)
    (s0 : σ × List Event) :
    ∀ (rest pre : List Node) (podsPerNode : List (List Pod)) (acc : List Pod)
      (cm : CordonNodes) (s : σ × List Event),
      Drained cli.traced pre 0 cm0 s0 podsPerNode cm s →
      ∀ (k : Nat) (ev : Event) (name : String),
        (cli.traced.refreshLoop rest pre.length acc cm s).2.2[k]? = some ev →
        s.2.length ≤ k → ev.terminates name = true →
        ∃ (pre2 : List Node) (node : Node) (post : List Node)
          (podsPerNode2 : List (List Pod)) (mid : CordonNodes) (s3 : σ × List Event)
          (pods : List Pod) (sd : σ × List Event),
          pre ++ rest = pre2 ++ node :: post ∧
          Drained cli.traced pre2 0 cm0 s0 podsPerNode2 mid s3 ∧
          node.Name = name ∧ node.Preemptible = true ∧
          cli.traced.drainNode node
            (if pre2.length > 0 then cli.traced.api.sleep 60 s3 else s3)
              = ((pods, none), sd) ∧
          sd.2.length ≤ k ∧
          k < (cli.traced.refreshStep node pre2.length mid s3).2.2.length := by
  intro rest
  induction rest with
  | nil =>
    intro pre podsPerNode acc cm s _ k ev name hget hk _
    simp only [client.refreshLoop] at hget
    rw [List.getElem?_eq_none hk] at hget
    simp at hget
  | cons node rest ih =>
    intro pre podsPerNode acc cm s hd k ev name hget hk ht
    rw [client.refreshLoop] at hget
    by_cases hk2 : k < (cli.traced.refreshStep node pre.length cm s).2.2.length
    · have hget2 : (cli.traced.refreshStep node pre.length cm s).2.2[k]? = some ev := by
        cases hs : cli.traced.refreshStep node pre.length cm s with
        | mk r s1 =>
          rw [hs] at hget hk2
          obtain ⟨pods, err, cm2⟩ := r
          cases err with
          | some e => exact hget
          | none =>
            simp only at hget
            have hext := refreshLoop_traced cli rest (pre.length + 1) (acc ++ pods) cm2 s1
            rw [← hext.get_old k hk2]
            exact hget
      obtain ⟨h1, h2, h3, h4⟩ :=
        refreshStep_position cli node pre.length cm s k ev name hget2 hk ht
      exact ⟨pre, node, rest, podsPerNode, cm, s, _, _, rfl, hd, h1, h2,
        Prod.ext (Prod.ext rfl h3) rfl, h4, hk2⟩
    · cases hs : cli.traced.refreshStep node pre.length cm s with
      | mk r s1 =>
        rw [hs] at hget hk2
        obtain ⟨pods, err, cm2⟩ := r
        cases err with
        | some e =>
          exfalso
          simp only at hget
          rw [List.getElem?_eq_none (by simpa using hk2)] at hget
          simp at hget
        | none =>
          simp only at hget hk2
          have hd2 := hd.snoc node pods cm2 s1 (by rw [Nat.zero_add]; exact hs)
          have hlen : (pre ++ [node]).length = pre.length + 1 := by simp
          obtain ⟨pre2, node2, post, ppn2, mid, s3, pods2, sd, h0, h1, h2, h3, h4, h5, h6⟩ :=
            ih (pre ++ [node]) (podsPerNode ++ [pods]) (acc ++ pods) cm2 s1 hd2 k ev name
              (by rw [hlen]; exact hget) (by omega) ht
          exact ⟨pre2, node2, post, ppn2, mid, s3, pods2, sd,
            by rw [← h0]; simp, h1, h2, h3, h4, h5, h6⟩

/-- A deletion or a stop recorded by `RefreshNodes` lies in the round of a preemptible
target of that name, after the drain of that round has returned no error. -/
theorem RefreshNodes_position {σ : Type} (cli : client σ) (w : σ)
    (nodeNames : List String) (k : Nat) (ev : Event) (name : String)
    (hget : (cli.traced.RefreshNodes nodeNames (w, [])).2.2[k]? = some ev)
    (ht : ev.terminates name = true) :
    ∃ (nodes : List Node) (s1 : σ × List Event) (cm : CordonNodes) (s2 : σ × List Event)
      (pre : List Node) (node : Node) (post : List Node)
      (podsPerNode : List (List Pod)) (mid : CordonNodes) (s3 : σ × List Event)
      (pods : List Pod) (sd : σ × List Event),
      cli.traced.resolveNodes nodeNames [] (w, []) = (.ok nodes, s1) ∧
      cli.traced.cordonNodes nodes [] s1 = ((none, cm), s2) ∧
      nodes = pre ++ node :: post ∧
      Drained cli.traced pre 0 cm s2 podsPerNode mid s3 ∧
      node.Name = name ∧ node.Preemptible = true ∧
      cli.traced.drainNode node
        (if pre.length > 0 then cli.traced.api.sleep 60 s3 else s3) = ((pods, none), sd) ∧
      sd.2.length ≤ k ∧
      k < (cli.traced.refreshStep node pre.length mid s3).2.2.length := by
  have hex : ∃ r s1, cli.traced.resolveNodes nodeNames [] (w, []) = (r, s1) := ⟨_, _, rfl⟩
  obtain ⟨r, s1, hr⟩ := hex
  have hres : TraceExt (fun e => e.isResolve = true) (w, []) s1 := by
    have h := resolveNodes_traced cli nodeNames [] (w, [])
    rw [hr] at h
    exact h
  have hbenign : ∀ s : σ × List Event,
      TraceExt (fun e => e.isResolve = true ∨ e.isCordon = true ∨ e.isUncordon = true)
        (w, []) s → s.2[k]? = some ev → False := by
    intro s hs hg
    have h := hs.get_new k ev hg (Nat.zero_le _)
    rw [not_terminates_of_benign ev name h] at ht
    simp at ht
  have hres2 := hres.mono
    (Q := fun e => e.isResolve = true ∨ e.isCordon = true ∨ e.isUncordon = true)
    (fun _ h => Or.inl h)
  cases r with
  | error r =>
    exfalso
    have hrun : (cli.traced.RefreshNodes nodeNames (w, [])).2 = s1 := by
      rw [client.RefreshNodes, hr]
    rw [hrun] at hget
    exact hbenign s1 hres2 hget
  | ok nodes =>
    have hex : ∃ rc s2, cli.traced.cordonNodes nodes [] s1 = (rc, s2) := ⟨_, _, rfl⟩
    obtain ⟨⟨cerr, cm⟩, s2, hc⟩ := hex
    have hcor : TraceExt (fun e => e.isCordon = true) s1 s2 := by
      have h := cordonNodes_traced cli nodes [] s1
      rw [hc] at h
      exact h
    have hpre := hres2.trans (hcor.mono
      (Q := fun e => e.isResolve = true ∨ e.isCordon = true ∨ e.isUncordon = true)
      (fun _ h => Or.inr (Or.inl h)))
    cases cerr with
    | some e =>
      exfalso
      have hrun : (cli.traced.RefreshNodes nodeNames (w, [])).2
          = (cli.traced.rollbackNodes cm (some ("failed to cordon node" ++ e)) s2).2 ∨
          True := Or.inr trivial
      have hroll : ∀ err, TraceExt
          (fun e => e.isResolve = true ∨ e.isCordon = true ∨ e.isUncordon = true) s2
          (cli.traced.rollbackNodes cm err s2).2 := fun err =>
        TraceExt.mono (rollbackNodes_traced cli cm err s2).1 (fun _ h => Or.inr (Or.inr h))
      have hrun2 : (cli.traced.RefreshNodes nodeNames (w, [])).2
          = (cli.traced.rollbackNodes cm (some e) s2).2 := by
        rw [client.RefreshNodes, hr]
        simp only [hc]
      rw [hrun2] at hget
      exact hbenign _ (hpre.trans (hroll (some e))) hget
    | none =>
      have hex : ∃ rl sl, cli.traced.refreshLoop nodes 0 [] cm s2 = (rl, sl) := ⟨_, _, rfl⟩
      obtain ⟨⟨pods, lerr, cm2⟩, sl, hl⟩ := hex
      have hrun : (cli.traced.RefreshNodes nodeNames (w, [])).2
          = (cli.traced.rollbackNodes cm2 lerr sl).2 := by
        rw [client.RefreshNodes, hr]
        simp only [hc, hl]
      have hroll : TraceExt (fun e => e.isUncordon = true) sl
          (cli.traced.rollbackNodes cm2 lerr sl).2 := (rollbackNodes_traced cli cm2 lerr sl).1
      rw [hrun] at hget
      have hk1 : k < sl.2.length := by
        by_contra hge
        have h := hroll.get_new k ev hget (by omega)
        rw [not_terminates_of_benign ev name (Or.inr (Or.inr h))] at ht
        simp at ht
      have hget2 : sl.2[k]? = some ev := by
        rw [← hroll.get_old k hk1]
        exact hget
      have hloopext := refreshLoop_traced cli nodes 0 [] cm s2
      rw [hl] at hloopext
      have hk0 : s2.2.length ≤ k :=
        hloopext.after_quiet
          (fun e he name => not_terminates_of_benign e name (hpre.all e he))
          k ev name hget2 ht
      obtain ⟨pre, node, post, ppn, mid, s3, pods2, sd, h0, h1, h2, h3, h4, h5, h6⟩ :=
        refreshLoop_position cli cm s2 nodes [] [] [] cm s2 (Drained.nil 0 cm s2) k ev name
          (by show (cli.traced.refreshLoop nodes 0 [] cm s2).2.2[k]? = some ev
              rw [hl]; exact hget2) hk0 ht
      exact ⟨nodes, s1, cm, s2, pre, node, post, ppn, mid, s3, pods2, sd, hr, hc,
        by simpa using h0, h1, h2, h3, h4, h5, h6⟩

/-- A deletion or a stop recorded by `RefreshNode` names the resolved node, which is
preemptible, and lies after the drain of the node, run in the state the cordon left, has
returned no error. -/
theorem RefreshNode_position {σ : Type} (cli : client σ) (w : σ) (nodeName : String)
    (k : Nat) (ev : Event) (name : String)
    (hget : (cli.traced.RefreshNode nodeName (w, [])).2.2[k]? = some ev)
    (ht : ev.terminates name = true) :
    ∃ (node : Node) (s1 s2 : σ × List Event) (pods : List Pod) (sd : σ × List Event),
      cli.traced.GetNode nodeName (w, []) = (.ok node, s1) ∧
      cli.traced.cordonNode node.Name s1 = (none, s2) ∧
      node.Name = name ∧ node.Preemptible = true ∧
      cli.traced.drainNode node s2 = ((pods, none), sd) ∧
      sd.2.length ≤ k := by
  have hquiet : ∀ s : σ × List Event,
      TraceExt (fun e => ∀ name : String, e.terminates name = false) (w, []) s →
      s.2[k]? = some ev → False := by
    intro s hs hg
    have h := hs.get_new k ev hg (Nat.zero_le _)
    rw [h name] at ht
    simp at ht
  have hex : ∃ r s1, cli.traced.GetNode nodeName (w, []) = (r, s1) := ⟨_, _, rfl⟩
  obtain ⟨r, s1, hg⟩ := hex
  have hres : TraceExt (fun e => ∀ name : String, e.terminates name = false) (w, []) s1 := by
    have h := GetNode_traced cli nodeName (w, [])
    rw [hg] at h
    exact TraceExt.mono h (fun e he name => not_terminates_of_benign e name (Or.inl he))
  cases r with
  | panic =>
    exfalso
    have hrun : (cli.traced.RefreshNode nodeName (w, [])).2 = s1 := by
      rw [client.RefreshNode, hg]
    rw [hrun] at hget
    exact hquiet s1 hres hget
  | error e =>
    exfalso
    have hrun : (cli.traced.RefreshNode nodeName (w, [])).2 = s1 := by
      rw [client.RefreshNode, hg]
    rw [hrun] at hget
    exact hquiet s1 hres hget
  | ok node =>
    have hex : ∃ rc s2, cli.traced.cordonNode node.Name s1 = (rc, s2) := ⟨_, _, rfl⟩
    obtain ⟨rc, s2, hc⟩ := hex
    have hcor : TraceExt (fun e => ∀ name : String, e.terminates name = false) s1 s2 := by
      have h := cordonNode_traced cli node.Name s1
      rw [hc] at h
      exact TraceExt.mono h
        (fun e he name => not_terminates_of_benign e name (Or.inr (Or.inl he)))
    have hroll : ∀ err s, TraceExt (fun e => ∀ name : String, e.terminates name = false) s
        (cli.traced.rollbackNode node err s).2 := fun err s =>
      TraceExt.mono (rollbackNode_traced cli node err s).1
        (fun e he name => not_terminates_of_benign e name (Or.inr (Or.inr he)))
    cases rc with
    | some e =>
      exfalso
      have hrun : (cli.traced.RefreshNode nodeName (w, [])).2 = s2 := by
        rw [client.RefreshNode, hg]
        simp only [hc]
      rw [hrun] at hget
      exact hquiet s2 (hres.trans hcor) hget
    | none =>
      have hex : ∃ rd sd, cli.traced.drainNode node s2 = (rd, sd) := ⟨_, _, rfl⟩
      obtain ⟨⟨pods, derr⟩, sd, hd⟩ := hex
      have hdrain : TraceExt (fun e => ∀ name : String, e.terminates name = false) s2 sd := by
        have h := drainNode_traced cli node s2
        rw [hd] at h
        exact TraceExt.mono h (fun e he name => not_terminates_of_isDrain e name he)
      have hsd := (hres.trans hcor).trans hdrain
      cases derr with
      | some e =>
        exfalso
        have hrun : (cli.traced.RefreshNode nodeName (w, [])).2
            = (cli.traced.rollbackNode node
                (some ("failed to drain node " ++ node.Name ++ ": " ++ e)) sd).2 := by
          rw [client.RefreshNode, hg]
          simp only [hc, hd]
        rw [hrun] at hget
        exact hquiet _ (hsd.trans (hroll _ sd)) hget
      | none =>
        by_cases hpre : node.Preemptible = true
        · have hrun : (cli.traced.RefreshNode nodeName (w, [])).2
              = (cli.traced.deleteNode node sd).2 := by
            rw [client.RefreshNode, hg]
            simp only [hc, hd, hpre, if_true]
            cases hdn : cli.traced.deleteNode node sd with
            | mk rdel s4 => cases rdel <;> rfl
          rw [hrun] at hget
          have hdel := deleteNode_traced cli node sd
          have hk : sd.2.length ≤ k :=
            hdel.after_quiet (fun e he name => hsd.all e he name) k ev name hget ht
          have hname := hdel.get_new k ev hget hk name ht
          exact ⟨node, s1, s2, pods, sd, hg, hc, hname.symm, hpre, hd, hk⟩
        · exfalso
          have hrun : (cli.traced.RefreshNode nodeName (w, [])).2
              = (cli.traced.rollbackNode node none sd).2 := by
            rw [client.RefreshNode, hg]
            simp only [hc, hd, hpre]
            rfl
          rw [hrun] at hget
          exact hquiet _ (hsd.trans (hroll _ sd)) hget

/-- The calls of a successful cordon loop contain the cordon request of each node. -/
theorem CordonRun.block :
    ∀ (pre : List Node) (node : Node) (post : List Node) (calls : List Event),
      CordonRun (pre ++ node :: post) calls →
      ∃ before block after, calls = before ++ block ++ after ∧
        CordonBlock node.Name block := by
  intro pre
  induction pre with
  | nil =>
    intro node post calls h
    simp only [List.nil_append] at h
    cases h with
    | cons _ _ block trace hb _ => exact ⟨[], block, trace, by simp, hb⟩
  | cons p pre ih =>
    intro node post calls h
    simp only [List.cons_append] at h
    cases h with
    | cons _ _ block trace _ hr =>
      obtain ⟨before, b, after, h1, h2⟩ := ih node post trace hr
      exact ⟨block ++ before, b, after, by rw [h1]; simp, h2⟩

/-- The round of a target that is not preemptible is its drain and nothing else. -/
theorem refreshStep_ondemand {σ : Type} (cli : client σ) (node : Node) (i : Nat)
    (cordonNodes : CordonNodes) (s : σ) (hnp : node.Preemptible = false) :
    (cli.refreshStep node i cordonNodes s).2
      = (cli.drainNode node (if i > 0 then cli.api.sleep 60 s else s)).2 ∧
    (cli.refreshStep node i cordonNodes s).1.1
      = (cli.drainNode node (if i > 0 then cli.api.sleep 60 s else s)).1.1 ∧
    (cli.refreshStep node i cordonNodes s).1.2.2 = cordonNodes ∧
    ((cli.refreshStep node i cordonNodes s).1.2.1 = none ↔
      (cli.drainNode node (if i > 0 then cli.api.sleep 60 s else s)).1.2 = none) := by
  rw [refreshStep_eq]
  cases hd : cli.drainNode node (if i > 0 then cli.api.sleep 60 s else s) with
  | mk r sd =>
    obtain ⟨pods, derr⟩ := r
    cases derr with
    | some e => simp
    | none => simp [hnp]

/-- C14 (amended). In the runs of `RefreshNodes` and `RefreshNode` with the calls recorded.
(1) A call of `RefreshNodes` at position `k` of the trace that deletes the node object
`name` or stops the instance `name` lies in the round of a target `node` of that name:
all targets resolved and cordoned, the targets `pre` before `node` were drained without
error, `node` is preemptible, the drain of `node`, run in the state its round started in,
returned no error, and the call lies after that drain and within the round. (2) In
`RefreshNode` such a call names the resolved node, which is cordoned and preemptible, and
lies after its drain, run in the state the cordon left, returned no error. (3) A target of
`RefreshNodes` that is not preemptible, in a run in which all targets resolve and cordon,
received a successful cordon request; when the run reaches its round, the targets before
it being drained without error, its round is its drain and nothing else, leaves the map as
it is and fails iff the drain fails, and the drain is part of the run, whose trace
continues the trace of the drain. (4) No call of `RefreshNodes` deletes or stops a name that only
targets which are not preemptible carry. (5) When `RefreshNode` resolves a node that is
not preemptible, no call deletes or stops anything, and once the cordon succeeded the
cordon request is recorded and the run is the drain followed by uncordon calls only. -/
theorem C14_termination_only_after_drain {σ : Type} (cli : client σ) (w : σ) :
    (∀ (nodeNames : List String) (k : Nat) (ev : Event) (name : String),
      (cli.traced.RefreshNodes nodeNames (w, [])).2.2[k]? = some ev →
      ev.terminates name = true →
      ∃ (nodes : List Node) (s1 : σ × List Event) (cm : CordonNodes)
        (s2 : σ × List Event) (pre : List Node) (node : Node) (post : List Node)
        (podsPerNode : List (List Pod)) (mid : CordonNodes) (s3 : σ × List Event)
        (pods : List Pod) (sd : σ × List Event),
        cli.traced.resolveNodes nodeNames [] (w, []) = (.ok nodes, s1) ∧
        cli.traced.cordonNodes nodes [] s1 = ((none, cm), s2) ∧
        nodes = pre ++ node :: post ∧
        Drained cli.traced pre 0 cm s2 podsPerNode mid s3 ∧
        node.Name = name ∧ node.Preemptible = true ∧
        cli.traced.drainNode node
          (if pre.length > 0 then cli.traced.api.sleep 60 s3 else s3)
            = ((pods, none), sd) ∧
        sd.2.length ≤ k ∧
        k < (cli.traced.refreshStep node pre.length mid s3).2.2.length) ∧
    (∀ (nodeName : String) (k : Nat) (ev : Event) (name : String),
      (cli.traced.RefreshNode nodeName (w, [])).2.2[k]? = some ev →
      ev.terminates name = true →
      ∃ (node : Node) (s1 s2 : σ × List Event) (pods : List Pod) (sd : σ × List Event),
        cli.traced.GetNode nodeName (w, []) = (.ok node, s1) ∧
        cli.traced.cordonNode node.Name s1 = (none, s2) ∧
        node.Name = name ∧ node.Preemptible = true ∧
        cli.traced.drainNode node s2 = ((pods, none), sd) ∧
        sd.2.length ≤ k) ∧
    (∀ (nodeNames : List String) (nodes : List Node) (s1 s2 : σ × List Event)
      (cm : CordonNodes) (pre post : List Node) (node : Node),
      cli.traced.resolveNodes nodeNames [] (w, []) = (.ok nodes, s1) →
      cli.traced.cordonNodes nodes [] s1 = ((none, cm), s2) →
      nodes = pre ++ node :: post →
      node.Preemptible = false →
      (∃ before block after, s2.2 = before ++ block ++ after ∧
        CordonBlock node.Name block) ∧
      ∀ (podsPerNode : List (List Pod)) (mid : CordonNodes) (s3 : σ × List Event),
        Drained cli.traced pre 0 cm s2 podsPerNode mid s3 →
        (cli.traced.refreshStep node pre.length mid s3).2
          = (cli.traced.drainNode node
              (if pre.length > 0 then cli.traced.api.sleep 60 s3 else s3)).2 ∧
        (cli.traced.refreshStep node pre.length mid s3).1.1
          = (cli.traced.drainNode node
              (if pre.length > 0 then cli.traced.api.sleep 60 s3 else s3)).1.1 ∧
        (cli.traced.refreshStep node pre.length mid s3).1.2.2 = mid ∧
        ((cli.traced.refreshStep node pre.length mid s3).1.2.1 = none ↔
          (cli.traced.drainNode node
            (if pre.length > 0 then cli.traced.api.sleep 60 s3 else s3)).1.2 = none) ∧
        ∃ rest, (cli.traced.RefreshNodes nodeNames (w, [])).2.2
          = (cli.traced.drainNode node
              (if pre.length > 0 then cli.traced.api.sleep 60 s3 else s3)).2.2 ++ rest) ∧
    (∀ (nodeNames : List String) (nodes : List Node) (s1 : σ × List Event)
      (name : String),
      cli.traced.resolveNodes nodeNames [] (w, []) = (.ok nodes, s1) →
      (∀ m ∈ nodes, m.Name = name → m.Preemptible = false) →
      ∀ ev ∈ (cli.traced.RefreshNodes nodeNames (w, [])).2.2,
        ev.terminates name = false) ∧
    (∀ (nodeName : String) (node : Node) (s1 : σ × List Event),
      cli.traced.GetNode nodeName (w, []) = (.ok node, s1) →
      node.Preemptible = false →
      (∀ ev ∈ (cli.traced.RefreshNode nodeName (w, [])).2.2,
        ∀ name : String, ev.terminates name = false) ∧
      ∀ s2, cli.traced.cordonNode node.Name s1 = (none, s2) →
        (∃ block, s2.2 = s1.2 ++ block ∧ CordonBlock node.Name block) ∧
        ∃ calls, (cli.traced.RefreshNode nodeName (w, [])).2.2
            = (cli.traced.drainNode node s2).2.2 ++ calls ∧
          ∀ e ∈ calls, e.isUncordon = true) := by
  refine ⟨?_, ?_, ?_, ?_, ?_⟩
  · intro nodeNames k ev name hget ht
    exact RefreshNodes_position cli w nodeNames k ev name hget ht
  · intro nodeName k ev name hget ht
    exact RefreshNode_position cli w nodeName k ev name hget ht
  · intro nodeNames nodes s1 s2 cm pre post node hres hcor hsplit hnp
    refine ⟨?_, ?_⟩
    · obtain ⟨calls, hc1, hc2⟩ := cordonNodes_ok_traced cli nodes [] s1 cm s2 hcor
      rw [hsplit] at hc2
      obtain ⟨before, block, after, hb1, hb2⟩ := CordonRun.block pre node post calls hc2
      exact ⟨s1.2 ++ before, block, after, by rw [hc1, hb1]; simp, hb2⟩
    · intro podsPerNode mid s3 hpre
      obtain ⟨h1, h2, h3, h4⟩ := refreshStep_ondemand cli.traced node pre.length mid s3 hnp
      refine ⟨h1, h2, h3, h4, ?_⟩
      have hloop : cli.traced.refreshLoop nodes 0 [] cm s2
          = cli.traced.refreshLoop (node :: post) (0 + pre.length)
              ([] ++ podsPerNode.flatten) mid s3 := by
        rw [hsplit]
        exact refreshLoop_of_drained cli.traced hpre (node :: post) []
      have hex : ∃ rl sl, cli.traced.refreshLoop nodes 0 [] cm s2 = (rl, sl) := ⟨_, _, rfl⟩
      obtain ⟨⟨pods, lerr, cm2⟩, sl, hl⟩ := hex
      have hrun : (cli.traced.RefreshNodes nodeNames (w, [])).2
          = (cli.traced.rollbackNodes cm2 lerr sl).2 := by
        rw [client.RefreshNodes, hres]
        simp only [hcor, hl]
      obtain ⟨Δr, hΔr, _⟩ := (rollbackNodes_traced cli cm2 lerr sl).1
      have hstep : ∃ rest, sl.2
          = (cli.traced.refreshStep node pre.length mid s3).2.2 ++ rest := by
        rw [hl] at hloop
        rw [Nat.zero_add, client.refreshLoop] at hloop
        cases hs : cli.traced.refreshStep node pre.length mid s3 with
        | mk r s4 =>
          rw [hs] at hloop
          obtain ⟨pods4, err4, cm4⟩ := r
          cases err4 with
          | some e =>
            simp only [Prod.mk.injEq] at hloop
            exact ⟨[], by rw [hloop.2]; simp⟩
          | none =>
            simp only at hloop
            obtain ⟨Δ, hΔ, _⟩ := refreshLoop_traced cli post (pre.length + 1)
              ([] ++ podsPerNode.flatten ++ pods4) cm4 s4
            rw [← hloop] at hΔ
            exact ⟨Δ, hΔ⟩
      obtain ⟨rest, hrest⟩ := hstep
      rw [h1] at hrest
      exact ⟨rest ++ Δr, by rw [hrun, hΔr, hrest, List.append_assoc]⟩
  · intro nodeNames nodes s1 name hres hall ev hev
    cases hterm : ev.terminates name with
    | false => rfl
    | true =>
      exfalso
      obtain ⟨k, hk⟩ := List.getElem?_of_mem hev
      obtain ⟨nodes2, s12, cm, s2, pre, node, post, ppn, mid, s3, pods, sd, h1, _, h3, _, h5,
        h6, _⟩ := RefreshNodes_position cli w nodeNames k ev name hk hterm
      rw [hres] at h1
      simp only [Prod.mk.injEq, Except.ok.injEq] at h1
      have hmem : node ∈ nodes := by
        rw [h1.1, h3]
        simp
      rw [hall node hmem h5] at h6
      simp at h6
  · intro nodeName node s1 hg hnp
    constructor
    · intro ev hev name
      cases hterm : ev.terminates name with
      | false => rfl
      | true =>
        exfalso
        obtain ⟨k, hk⟩ := List.getElem?_of_mem hev
        obtain ⟨node2, s12, s2, pods, sd, h1, _, _, h4, _⟩ :=
          RefreshNode_position cli w nodeName k ev name hk hterm
        rw [hg] at h1
        simp only [Prod.mk.injEq, GetNodeResult.ok.injEq] at h1
        rw [← h1.1, hnp] at h4
        simp at h4
    · intro s2 hc
      refine ⟨cordonNode_ok_traced cli node.Name s1 s2 hc, ?_⟩
      have hex : ∃ rd sd, cli.traced.drainNode node s2 = (rd, sd) := ⟨_, _, rfl⟩
      obtain ⟨⟨pods, derr⟩, sd, hd⟩ := hex
      have hrun : ∃ err, (cli.traced.RefreshNode nodeName (w, [])).2
          = (cli.traced.rollbackNode node err sd).2 := by
        cases derr with
        | some e =>
          refine ⟨some ("failed to drain node " ++ node.Name ++ ": " ++ e), ?_⟩
          rw [client.RefreshNode, hg]
          simp only [hc, hd]
        | none =>
          refine ⟨none, ?_⟩
          rw [client.RefreshNode, hg]
          simp only [hc, hd, hnp]
          rfl
      obtain ⟨err, hrun⟩ := hrun
      obtain ⟨calls, hcalls, hu⟩ := (rollbackNode_traced cli node err sd).1
      exact ⟨calls, by rw [hrun, hcalls, hd], hu⟩

/-- C14, on the demonstration services: call number 22 of the run deletes the node
`gke-c-spot-1`; it lies in the round of a preemptible target of that name, after the drain
of that round returned no error. -/
theorem C14_witness :
    (demoClient.traced.RefreshNodes demoTargets (demoStart, [])).2.2[22]?
      = some (Event.nodesDelete "gke-c-spot-1" none) ∧
    ∃ (nodes : List Node) (s1 : DemoState × List Event) (cm : CordonNodes)
      (s2 : DemoState × List Event) (pre : List Node) (node : Node) (post : List Node)
      (podsPerNode : List (List Pod)) (mid : CordonNodes) (s3 : DemoState × List Event)
      (pods : List Pod) (sd : DemoState × List Event),
      demoClient.traced.resolveNodes demoTargets [] (demoStart, []) = (.ok nodes, s1) ∧
      demoClient.traced.cordonNodes nodes [] s1 = ((none, cm), s2) ∧
      nodes = pre ++ node :: post ∧
      Drained demoClient.traced pre 0 cm s2 podsPerNode mid s3 ∧
      node.Name = "gke-c-spot-1" ∧ node.Preemptible = true ∧
      demoClient.traced.drainNode node
        (if pre.length > 0 then demoClient.traced.api.sleep 60 s3 else s3)
          = ((pods, none), sd) ∧
      sd.2.length ≤ 22 ∧
      22 < (demoClient.traced.refreshStep node pre.length mid s3).2.2.length :=
  ⟨by rw [demo_run]; rfl,
   (C14_termination_only_after_drain demoClient demoStart).1 demoTargets 22
     (Event.nodesDelete "gke-c-spot-1" none) "gke-c-spot-1" (by rw [demo_run]; rfl)
     (by decide)⟩

/-- C14 as claimed fails for a target the run does not reach. On the demonstration
services with the three targets, all of which resolve and cordon, the drain of the second
target fails; the third target `gke-c-ondemand-1` is not preemptible and was cordoned, yet
it is not drained: the run makes the discovery calls of two drains only, no call evicts
its pod `f`, and `f` is not among the returned pods. -/
theorem C14_counterexample :
    demoOndemandNode.Preemptible = false ∧
    demoClient.traced.resolveNodes demoTargets [] (demoStart, [])
      = (.ok [demoSlowNode, demoStuckNode, demoOndemandNode], demoResolved) ∧
    demoClient.traced.cordonNodes [demoSlowNode, demoStuckNode, demoOndemandNode] []
        demoResolved
      = ((none, demoCordonMap), demoCordoned) ∧
    Event.nodesUpdate "gke-c-ondemand-1" true none ∈ demoCordoned.2 ∧
    (∃ pods err, (demoClient.traced.RefreshNodes demoTargets (demoStart, [])).1
        = RefreshResult.returned pods (some err) ∧
      mkPod "f" "gke-c-ondemand-1" ∉ pods) ∧
    ((demoClient.traced.RefreshNodes demoTargets (demoStart, [])).2.2.filter
        fun ev => ev.actsOn demoOndemandNode) = [] ∧
    ((demoClient.traced.RefreshNodes demoTargets (demoStart, [])).2.2.filter
        fun ev => decide (ev = Event.serverGroups none)).length = 2 := by
  refine ⟨rfl, demo_resolve, demo_cordon, by decide, ?_, ?_, ?_⟩
  · rw [demo_run]
    exact ⟨_, _, rfl, by decide⟩
  · rw [demo_run]
    decide
  · rw [demo_run]
    decide

end GkeNodeOptimizer
